import Mathlib

/-!
Verification of the ridepy ride-pooling simulator core against its
natural-language specification.

The development shallowly embeds the C++ sources:
* `ridepy/data_structures_cython/cdata_structures.h` (stops, requests),
* `ridepy/util/dispatchers_cython/cdispatchers_utils.h` and
  `src/ridepy/util/dispatchers_cython/cdispatchers.h` (insertion routines and
  the brute-force total-travel-time minimising dispatcher),
* `ridepy/vehicle_state_cython/cvehicle_state.h` (vehicle fast-forward),
* `ridepy/cpp/ridepy/fleetstate.h`, `vehiclestate.h`, `events.h` (fleet layer),
* `ridepy/util/spaces_cython/cspaces.cxx` / `ridepy/cpp/ridepy/squaregrid.h`
  (reference transport spaces).

Machine doubles are modelled by exact rationals `ℚ`; the special values
`INFINITY` and `NAN` are modelled explicitly where they can arise: `ETime`
adjoins `+∞` to `ℚ` (time-window bounds and costs), and `FP` adjoins
`NaN`/`±∞` (space interpolation, where division by zero happens).  All
concrete computations appearing in theorems below are exact in IEEE-754
binary64, so the rational model is faithful on every input used.
-/

namespace Ridepy

/-- Extended time value: a finite rational or `+INFINITY`, modelling a C++
`double` in contexts where only these values occur (time-window bounds,
insertion costs). -/
inductive ETime where
| fin : ℚ → ETime
| inf : ETime
deriving DecidableEq, Repr

namespace ETime

/-- Subtraction of a finite rational from an extended time,
modelling `double - double` where the left side may be `INFINITY`. -/
def subQ : ETime → ℚ → ETime
| fin a, q => fin (a - q)
| inf, _ => inf

/-- Strict comparison of extended times, modelling `<` on doubles
(no NaN can arise in the embedded comparisons). -/
def blt : ETime → ETime → Bool
| fin a, fin b => decide (a < b)
| fin _, inf => true
| inf, _ => false

/-- Comparison `q < e` for finite `q`, modelling `double < double`
where the right side may be `INFINITY`. -/
def qblt (q : ℚ) : ETime → Bool
| fin b => decide (q < b)
| inf => true

/-- Comparison `q > e` for finite `q`, modelling checks such as
`CPAT_pu > request->pickup_timewindow_max`. -/
def qbgt (q : ℚ) : ETime → Bool
| fin b => decide (b < q)
| inf => false

/-- Proposition `q ≤ e`: the finite value `q` does not exceed the possibly
infinite bound `e`. -/
def finLe (q : ℚ) : ETime → Prop
| fin b => q ≤ b
| inf => True

instance : ∀ (q : ℚ) (e : ETime), Decidable (finLe q e)
| q, fin b => inferInstanceAs (Decidable (q ≤ b))
| _, inf => Decidable.isTrue trivial

end ETime

/-- Exact model of an IEEE-754 binary64 value: a rational (covering every
finite double that the embedded computations produce; all of them are exact,
no rounding occurs on the inputs used), `NaN`, or a signed infinity.  Signed
zero is identified with `0` — every zero arising below is `+0`. -/
inductive FP where
| fin : ℚ → FP
| nan : FP
| pinf : FP
| ninf : FP
deriving DecidableEq, Repr

namespace FP

/-- IEEE addition. -/
def add : FP → FP → FP
| fin a, fin b => fin (a + b)
| fin _, pinf => pinf
| fin _, ninf => ninf
| pinf, fin _ => pinf
| ninf, fin _ => ninf
| pinf, pinf => pinf
| ninf, ninf => ninf
| pinf, ninf => nan
| ninf, pinf => nan
| nan, _ => nan
| _, nan => nan

/-- IEEE subtraction. -/
def sub : FP → FP → FP
| fin a, fin b => fin (a - b)
| fin _, pinf => ninf
| fin _, ninf => pinf
| pinf, fin _ => pinf
| ninf, fin _ => ninf
| pinf, pinf => nan
| ninf, ninf => nan
| pinf, ninf => pinf
| ninf, pinf => ninf
| nan, _ => nan
| _, nan => nan

/-- IEEE multiplication (`0 * ±∞ = NaN`). -/
def mul : FP → FP → FP
| fin a, fin b => fin (a * b)
| fin a, pinf => if a = 0 then nan else if 0 < a then pinf else ninf
| fin a, ninf => if a = 0 then nan else if 0 < a then ninf else pinf
| pinf, fin b => if b = 0 then nan else if 0 < b then pinf else ninf
| ninf, fin b => if b = 0 then nan else if 0 < b then ninf else pinf
| pinf, pinf => pinf
| ninf, ninf => pinf
| pinf, ninf => ninf
| ninf, pinf => ninf
| nan, _ => nan
| _, nan => nan

/-- IEEE division; division by the (positive) zero gives a signed infinity,
`0/0` gives `NaN`. -/
def div : FP → FP → FP
| fin a, fin b =>
    if b = 0 then (if a = 0 then nan else if 0 < a then pinf else ninf)
    else fin (a / b)
| fin _, pinf => fin 0
| fin _, ninf => fin 0
| pinf, fin b => if 0 ≤ b then pinf else ninf
| ninf, fin b => if 0 ≤ b then ninf else pinf
| pinf, pinf => nan
| pinf, ninf => nan
| ninf, pinf => nan
| ninf, ninf => nan
| nan, _ => nan
| _, nan => nan

/-- IEEE absolute value. -/
def fabs : FP → FP
| fin a => fin |a|
| nan => nan
| pinf => pinf
| ninf => pinf

end FP

/-- Point of the plane with `FP` coordinates, modelling `R2loc`
(`std::pair<double, double>`). -/
abbrev R2fp : Type := FP × FP

/-- Embed a rational point into `R2fp`. -/
def toFP (p : ℚ × ℚ) : R2fp := (FP.fin p.1, FP.fin p.2)

/-- Manhattan plane distance, from `Manhattan2D::d` in
`ridepy/util/spaces_cython/cspaces.cxx`:
`std::abs(u.first - v.first) + std::abs(u.second - v.second)`. -/
def manhattan_d (u v : R2fp) : FP :=
  (FP.sub u.1 v.1).fabs.add (FP.sub u.2 v.2).fabs

/-- Manhattan plane travel time, from `Manhattan2D::t`: `d(u, v) / velocity`. -/
def manhattan_t (velocity : FP) (u v : R2fp) : FP :=
  (manhattan_d u v).div velocity

/-- Spatial interpolation, from `Manhattan2D::interp_dist`:
`frac = dist_to_dest / d(u, v)` and the returned point is
`(u.first * frac + (1 - frac) * v.first, u.second * frac + (1 - frac) * v.second)`
with remaining distance `0`.  There is no guard for `d(u, v) = 0`. -/
def manhattan_interp_dist (u v : R2fp) (dist_to_dest : FP) : R2fp × FP :=
  let frac := dist_to_dest.div (manhattan_d u v)
  (((u.1.mul frac).add (((FP.fin 1).sub frac).mul v.1),
    (u.2.mul frac).add (((FP.fin 1).sub frac).mul v.2)),
   FP.fin 0)

/-- Temporal interpolation, from `Manhattan2D::interp_time`:
`dist_to_dest = time_to_dest * velocity`, then `interp_dist`. -/
def manhattan_interp_time (velocity : FP) (u v : R2fp) (time_to_dest : FP) :
    R2fp × FP :=
  manhattan_interp_dist u v (time_to_dest.mul velocity)

/-- Position of a vehicle mid-edge, from `InterpolatedPosition` in
`ridepy/cpp/ridepy/transportspace.h` (the `distanceIsSpacial` flag is left
uninitialised by `SquareGrid::interp_dist` and is not modelled). -/
structure InterpolatedPosition (Loc : Type) where
  previousLocation : Loc
  nextLocation : Loc
  distance : ℚ
deriving DecidableEq, Repr

/-- Square-grid distance, from `SquareGrid::d` in
`ridepy/cpp/ridepy/squaregrid.h`: `m_gridSize * abs(origin - destination)`
with `abs` the ℓ₁ norm of the integer difference vector. -/
def squareGrid_d (gridSize : ℚ) (origin destination : ℤ × ℤ) : ℚ :=
  gridSize * (((origin.1 - destination.1).natAbs + (origin.2 - destination.2).natAbs : ℕ) : ℚ)

/-- Square-grid interpolation, from `SquareGrid::interp_dist` in
`ridepy/cpp/ridepy/squaregrid.h`.  The vehicle travels the first axis fully,
then the second; counting `remaining_full_edges = floor(dist_to_dest / g)`
full edges back from the destination decides on which edge it currently is.
All intermediate doubles are integer-valued, so the `int`/`double` mixing of
the source is exact. -/
def squareGrid_interp_dist (gridSize : ℚ) (origin destination : ℤ × ℤ)
    (dist_to_dest : ℚ) : InterpolatedPosition (ℤ × ℤ) :=
  let remaining_full_edges : ℤ := ⌊dist_to_dest / gridSize⌋
  let dist_to_next_loc : ℚ := dist_to_dest - (remaining_full_edges : ℚ) * gridSize
  let second_dimension_dist : ℤ := |destination.2 - origin.2|
  if remaining_full_edges < second_dimension_dist then
    let sgn : ℤ := if origin.2 < destination.2 then -1 else 1
    { previousLocation := (destination.1, destination.2 + sgn * (remaining_full_edges + 1)),
      nextLocation := (destination.1, destination.2 + sgn * remaining_full_edges),
      distance := dist_to_next_loc }
  else
    let rfe_first : ℤ := remaining_full_edges - second_dimension_dist
    let sgn : ℤ := if origin.1 < destination.1 then -1 else 1
    { previousLocation := (destination.1 + sgn * (rfe_first + 1), origin.2),
      nextLocation := (destination.1 + sgn * rfe_first, origin.2),
      distance := dist_to_next_loc }

/-- Conversion of an extended time into the float model (`INFINITY ↦ +∞`). -/
def ETime.toFP : ETime → FP
| ETime.fin q => FP.fin q
| ETime.inf => FP.pinf

/-- Stop action, from `StopAction` in
`ridepy/data_structures_cython/cdata_structures.h`. -/
inductive StopAction where
| pickup : StopAction
| dropoff : StopAction
| internal : StopAction
deriving DecidableEq, Repr

/-- Planned itinerary entry, from `Stop<Loc>` in
`ridepy/data_structures_cython/cdata_structures.h`.  The
`std::shared_ptr<Request>` member is modelled by the request id, the only
part of it the embedded code reads. -/
structure Stop (Loc : Type) where
  location : Loc
  request_id : ℤ
  action : StopAction
  estimated_arrival_time : ℚ
  occupancy_after_servicing : ℤ
  time_window_min : ℚ
  time_window_max : ETime
deriving DecidableEq, Repr

instance stopInhabited (Loc : Type) [Inhabited Loc] : Inhabited (Stop Loc) :=
  ⟨⟨default, 0, StopAction.internal, 0, 0, 0, ETime.inf⟩⟩

/-- Drive-first departure time, from `Stop::estimated_departure_time`:
`max(estimated_arrival_time, time_window_min)`. -/
def Stop.estimated_departure_time {Loc : Type} (s : Stop Loc) : ℚ :=
  max s.estimated_arrival_time s.time_window_min

/-- Transportation request, from `TransportationRequest<Loc>` in
`ridepy/data_structures_cython/cdata_structures.h`. -/
structure TransportationRequest (Loc : Type) where
  request_id : ℤ
  creation_timestamp : ℚ
  origin : Loc
  destination : Loc
  pickup_timewindow_min : ℚ
  pickup_timewindow_max : ETime
  delivery_timewindow_min : ℚ
  delivery_timewindow_max : ETime
deriving DecidableEq, Repr

section Dispatcher

variable {Loc : Type} [Inhabited Loc]

/-- Indexing a stoplist, as `stoplist[i]` on a `std::vector` (total via a
default element; every use below is guarded by an index bound). -/
def getStop (SL : List (Stop Loc)) (i : ℕ) : Stop Loc := SL.getD i default

/-- From `cpat_of_inserted_stop` in
`ridepy/util/dispatchers_cython/cdispatchers_utils.h`:
`max(stop_before.estimated_arrival_time + delta_cpat, stop_before.time_window_min)
 + time_from_stop_before`. -/
def cpat_of_inserted_stop (stop_before : Stop Loc) (time_from_stop_before : ℚ)
    (delta_cpat : ℚ) : ℚ :=
  max (stop_before.estimated_arrival_time + delta_cpat) stop_before.time_window_min +
    time_from_stop_before

/-- From `time_to_stop_after_insertion` in `cdispatchers_utils.h`: travel time
from `location` to the stop after the insertion point, `0` at the list end. -/
def time_to_stop_after_insertion (τ : Loc → Loc → ℚ) (SL : List (Stop Loc))
    (location : Loc) (index : ℕ) : ℚ :=
  if index + 1 < SL.length then τ location (getStop SL (index + 1)).location else 0

/-- From `time_from_current_stop_to_next` in `cdispatchers_utils.h`. -/
def time_from_current_stop_to_next (τ : Loc → Loc → ℚ) (SL : List (Stop Loc))
    (i : ℕ) : ℚ :=
  if i + 1 < SL.length then τ (getStop SL i).location (getStop SL (i + 1)).location else 0

/-- Loop body of `is_timewindow_violated_dueto_insertion` in
`cdispatchers_utils.h`: walk the remaining stops carrying the cascading delay
`delta_cpat`; report a violation when a (finite) window maximum is exceeded
while the delay is still positive, stop as soon as the delay is fully
absorbed by waiting (`time_window_min ≥ estimated_arrival_time + delta`),
otherwise update the delay to `max(twmin, eat + δ) - max(twmin, eat)`. -/
def violationLoop : List (Stop Loc) → ℚ → Bool
| [], _ => false
| s :: rest, delta_cpat =>
  let old_leeway := s.time_window_max.subQ s.estimated_arrival_time
  let new_leeway := old_leeway.subQ delta_cpat
  if new_leeway.blt (ETime.fin 0) && new_leeway.blt old_leeway then true
  else if s.estimated_arrival_time + delta_cpat ≤ s.time_window_min then false
  else violationLoop rest
    (max s.time_window_min (s.estimated_arrival_time + delta_cpat) -
     max s.time_window_min s.estimated_arrival_time)

/-- From `is_timewindow_violated_dueto_insertion` in `cdispatchers_utils.h`:
decides whether inserting a stop after position `idx`, making the following
stop reached at `est_arrival_first_stop_after_insertion`, violates any
downstream time window under drive-first delay propagation. -/
def is_timewindow_violated_dueto_insertion (SL : List (Stop Loc)) (idx : ℕ)
    (est_arrival_first_stop_after_insertion : ℚ) : Bool :=
  if SL.length < idx + 2 then false
  else if est_arrival_first_stop_after_insertion ≤
      (getStop SL (idx + 1)).estimated_arrival_time then false
  else violationLoop (SL.drop (idx + 1))
    (est_arrival_first_stop_after_insertion -
     (getStop SL (idx + 1)).estimated_arrival_time)

/-- Tail-update loop of `insert_stop_to_stoplist_drive_first` in
`cdispatchers_utils.h`.  Faithful to the source, which declares a fresh
`auto delta_cpat_next_stop` inside the loop that shadows the outer variable:
every later stop has the SAME initial delta added to its arrival time, and
the loop breaks only when a departure time is left unchanged (the recomputed,
shadowed delta is zero). -/
def propagateConstantDelta (delta : ℚ) : List (Stop Loc) → List (Stop Loc)
| [] => []
| s :: rest =>
  let old_departure := s.estimated_departure_time
  let s2 := { s with estimated_arrival_time := s.estimated_arrival_time + delta }
  let new_departure := s2.estimated_departure_time
  if new_departure - old_departure = 0 then s2 :: rest
  else s2 :: propagateConstantDelta delta rest

/-- From `insert_stop_to_stoplist_drive_first` in `cdispatchers_utils.h`:
set the arrival time of `stop` from its predecessor under drive-first,
shift the arrival times of the tail, and insert `stop` at `idx + 1`. -/
def insert_stop_to_stoplist_drive_first (τ : Loc → Loc → ℚ) (SL : List (Stop Loc))
    (stop : Stop Loc) (idx : ℕ) : List (Stop Loc) :=
  let stop_before_insertion := getStop SL idx
  let time_to_new_stop := τ stop_before_insertion.location stop.location
  let cpat_new_stop := cpat_of_inserted_stop stop_before_insertion time_to_new_stop 0
  let stop2 := { stop with estimated_arrival_time := cpat_new_stop }
  let SL2 :=
    if idx + 1 < SL.length then
      let departure_previous_stop := stop2.estimated_departure_time
      let cpat_next_stop :=
        departure_previous_stop + τ stop2.location (getStop SL (idx + 1)).location
      let delta_cpat_next_stop :=
        cpat_next_stop - (getStop SL (idx + 1)).estimated_arrival_time
      SL.take (idx + 1) ++ propagateConstantDelta delta_cpat_next_stop (SL.drop (idx + 1))
    else SL
  SL2.take (idx + 1) ++ stop2 :: SL2.drop (idx + 1)

/-- Apply `f` at each index, used for the occupancy-update loop of
`insert_request_to_stoplist_drive_first`. -/
def mapWithIndexFrom (f : ℕ → Stop Loc → Stop Loc) : ℕ → List (Stop Loc) → List (Stop Loc)
| _, [] => []
| k, s :: rest => f k s :: mapWithIndexFrom f (k + 1) rest

/-- From `insert_request_to_stoplist_drive_first` in `cdispatchers_utils.h`
(`n_passengers = 1`, the only value ever used): insert the pickup after
`pickup_idx` and the dropoff after `dropoff_idx` (indices into the original
list), raising the occupancy of every stop strictly between them. -/
def insert_request_to_stoplist_drive_first (τ : Loc → Loc → ℚ)
    (SL : List (Stop Loc)) (request : TransportationRequest Loc)
    (pickup_idx dropoff_idx : ℕ) : List (Stop Loc) :=
  let stop_before_pickup := getStop SL pickup_idx
  let cpat_at_pu := stop_before_pickup.estimated_departure_time +
    τ stop_before_pickup.location request.origin
  let pickup_stop : Stop Loc :=
    { location := request.origin, request_id := request.request_id,
      action := StopAction.pickup, estimated_arrival_time := cpat_at_pu,
      occupancy_after_servicing := stop_before_pickup.occupancy_after_servicing + 1,
      time_window_min := request.pickup_timewindow_min,
      time_window_max := request.pickup_timewindow_max }
  let SL1 := mapWithIndexFrom (fun k s =>
    if pickup_idx + 1 ≤ k ∧ k ≤ dropoff_idx then
      { s with occupancy_after_servicing := s.occupancy_after_servicing + 1 }
    else s) 0 SL
  let SL2 := insert_stop_to_stoplist_drive_first τ SL1 pickup_stop pickup_idx
  let dropoff_idx2 := dropoff_idx + 1
  let stop_before_dropoff := getStop SL2 dropoff_idx2
  let cpat_at_do := stop_before_dropoff.estimated_departure_time +
    τ stop_before_dropoff.location request.destination
  let dropoff_stop : Stop Loc :=
    { location := request.destination, request_id := request.request_id,
      action := StopAction.dropoff, estimated_arrival_time := cpat_at_do,
      occupancy_after_servicing := stop_before_dropoff.occupancy_after_servicing - 1,
      time_window_min := request.delivery_timewindow_min,
      time_window_max := request.delivery_timewindow_max }
  insert_stop_to_stoplist_drive_first τ SL2 dropoff_stop dropoff_idx2

/-- Running state of the brute-force search: `min_cost` and `best_insertion`
from `brute_force_total_traveltime_minimizing_dispatcher` in
`src/ridepy/util/dispatchers_cython/cdispatchers.h`. -/
structure BFState where
  min_cost : ETime
  best_pickup : ℕ
  best_dropoff : ℕ
deriving DecidableEq, Repr

/-- Inner loop of the brute-force dispatcher (dropoff index `j` running from
`i + 1` to `n - 1`), from `cdispatchers.h` lines 97-148.  `delta_cpat` is the
cascading delay at stop `j` caused by the tentative pickup insertion. -/
def innerLoop (τ : Loc → Loc → ℚ) (request : TransportationRequest Loc)
    (SL : List (Stop Loc)) (seat_capacity : ℤ) (i : ℕ) (pickup_cost : ℚ) :
    ℕ → ℚ → BFState → BFState
| j, delta_cpat, st =>
  if h : j < SL.length then
    let stop_before_dropoff := getStop SL j
    if stop_before_dropoff.occupancy_after_servicing = seat_capacity then st
    else
      let time_to_dropoff := τ stop_before_dropoff.location request.destination
      let CPAT_do := cpat_of_inserted_stop stop_before_dropoff time_to_dropoff delta_cpat
      if ETime.qbgt CPAT_do request.delivery_timewindow_max then st
      else
        let time_from_dropoff := time_to_stop_after_insertion τ SL request.destination j
        let original_dropoff_edge_length := time_from_current_stop_to_next τ SL j
        let dropoff_cost := time_to_dropoff + time_from_dropoff - original_dropoff_edge_length
        let total_cost := pickup_cost + dropoff_cost
        let st2 :=
          if ETime.qblt total_cost st.min_cost then
            let cpat_at_next_stop :=
              max CPAT_do request.delivery_timewindow_min + time_from_dropoff
            if is_timewindow_violated_dueto_insertion SL j cpat_at_next_stop then st
            else ⟨ETime.fin total_cost, i, j⟩
          else st
        let new_departure_time :=
          max (stop_before_dropoff.estimated_arrival_time + delta_cpat)
            stop_before_dropoff.time_window_min
        innerLoop τ request SL seat_capacity i pickup_cost (j + 1)
          (new_departure_time - stop_before_dropoff.estimated_departure_time) st2
  else st
termination_by j _ _ => SL.length - j

/-- Outer loop of the brute-force dispatcher (pickup index `i` over all
stops), from `cdispatchers.h` lines 42-149. -/
def outerLoop (τ : Loc → Loc → ℚ) (request : TransportationRequest Loc)
    (SL : List (Stop Loc)) (seat_capacity : ℤ) : ℕ → BFState → BFState
| i, st =>
  if h : i < SL.length then
    let stop_before_pickup := getStop SL i
    let st2 :=
      if stop_before_pickup.occupancy_after_servicing = seat_capacity then st
      else
        let time_to_pickup := τ stop_before_pickup.location request.origin
        let CPAT_pu := cpat_of_inserted_stop stop_before_pickup time_to_pickup 0
        if ETime.qbgt CPAT_pu request.pickup_timewindow_max then st
        else
          let EAST_pu := request.pickup_timewindow_min
          let CPAT_do := max EAST_pu CPAT_pu + τ request.origin request.destination
          if ETime.qbgt CPAT_do request.delivery_timewindow_max then st
          else
            let time_to_dropoff := τ request.origin request.destination
            let time_from_dropoff := time_to_stop_after_insertion τ SL request.destination i
            let original_pickup_edge_length := time_from_current_stop_to_next τ SL i
            let total_cost :=
              time_to_pickup + time_to_dropoff + time_from_dropoff - original_pickup_edge_length
            let st1 :=
              if ETime.qblt total_cost st.min_cost then
                let cpat_at_next_stop :=
                  max CPAT_do request.delivery_timewindow_min + time_from_dropoff
                if is_timewindow_violated_dueto_insertion SL i cpat_at_next_stop then st
                else ⟨ETime.fin total_cost, i, i⟩
              else st
            let time_from_pickup := time_to_stop_after_insertion τ SL request.origin i
            let cpat_at_next_stop := max CPAT_pu request.pickup_timewindow_min + time_from_pickup
            if is_timewindow_violated_dueto_insertion SL i cpat_at_next_stop then st1
            else
              let pickup_cost := time_to_pickup + time_from_pickup - original_pickup_edge_length
              let delta_cpat :=
                if i + 1 < SL.length then
                  cpat_at_next_stop - (getStop SL (i + 1)).estimated_arrival_time
                else 0
              innerLoop τ request SL seat_capacity i pickup_cost (i + 1) delta_cpat st1
    outerLoop τ request SL seat_capacity (i + 1) st2
  else st
termination_by i _ => SL.length - i

/-- Dispatcher output, from `InsertionResult<Loc>` in
`cdata_structures.h`; the realised-window fields are doubles that are `NAN`
in the infeasible branch, hence modelled in `FP`. -/
structure InsertionResult (Loc : Type) where
  new_stoplist : List (Stop Loc)
  min_cost : ETime
  EAST_pu : FP
  LAST_pu : FP
  EAST_do : FP
  LAST_do : FP

/-- From `brute_force_total_traveltime_minimizing_dispatcher` in
`src/ridepy/util/dispatchers_cython/cdispatchers.h`: run the exhaustive
search; if a feasible insertion was found, build the new stoplist via
`insert_request_to_stoplist_drive_first` and report the realised windows,
otherwise return the infeasible result `{{}, INFINITY, NAN, NAN, NAN, NAN}`. -/
def brute_force_total_traveltime_minimizing_dispatcher (τ : Loc → Loc → ℚ)
    (request : TransportationRequest Loc) (SL : List (Stop Loc))
    (seat_capacity : ℤ) : InsertionResult Loc :=
  let st := outerLoop τ request SL seat_capacity 0 ⟨ETime.inf, 0, 0⟩
  match st.min_cost with
  | ETime.fin c =>
    let new_stoplist :=
      insert_request_to_stoplist_drive_first τ SL request st.best_pickup st.best_dropoff
    { new_stoplist := new_stoplist, min_cost := ETime.fin c,
      EAST_pu := FP.fin (getStop new_stoplist (st.best_pickup + 1)).time_window_min,
      LAST_pu := (getStop new_stoplist (st.best_pickup + 1)).time_window_max.toFP,
      EAST_do := FP.fin (getStop new_stoplist (st.best_dropoff + 2)).time_window_min,
      LAST_do := (getStop new_stoplist (st.best_dropoff + 2)).time_window_max.toFP }
  | ETime.inf =>
    { new_stoplist := [], min_cost := ETime.inf,
      EAST_pu := FP.nan, LAST_pu := FP.nan, EAST_do := FP.nan, LAST_do := FP.nan }

end Dispatcher

section Vehicle

variable {Loc : Type} [Inhabited Loc]

/-- Stop event record, from `StopEventSpec` in
`ridepy/vehicle_state_cython/cvehicle_state.h`. -/
structure StopEventSpec where
  action : StopAction
  request_id : ℤ
  vehicle_id : ℤ
  timestamp : ℚ
deriving DecidableEq, Repr

/-- Per-vehicle quote, from `SingleVehicleSolution` in
`ridepy/data_structures_cython/cdata_structures.h`. -/
structure SingleVehicleSolution where
  vehicle_id : ℤ
  min_cost : ETime
  EAST_pu : FP
  LAST_pu : FP
  EAST_do : FP
  LAST_do : FP

/-- Vehicle state, from `VehicleState<Loc>` in
`ridepy/vehicle_state_cython/cvehicle_state.h` (the dispatcher and space
members are passed explicitly to the operations that use them). -/
structure VehicleState (Loc : Type) where
  vehicle_id : ℤ
  stoplist : List (Stop Loc)
  stoplist_new : List (Stop Loc)
  seat_capacity : ℤ

/-- Service time of a stop inside `fast_forward_time`:
`max(stop.estimated_arrival_time, stop.time_window_min)`. -/
def service_time (s : Stop Loc) : ℚ :=
  max s.estimated_arrival_time s.time_window_min

/-- From `VehicleState::fast_forward_time` in
`ridepy/vehicle_state_cython/cvehicle_state.h`.  The source iterates
backwards over the indices `size-1, …, 1`, erasing every stop with
`service_time ≤ t` and pushing its event, then reverses the event cache;
since erasing at strictly descending indices never shifts the positions still
to be visited, this equals keeping the head and filtering the tail, with the
events of the removed stops in list order — which is how it is written here.
`last_stop` is the serviced stop of the largest index (the first one found by
the backward iteration), or the outdated head if none was serviced.  The
space member is passed as the function `interp_time`.  An empty stoplist
would read `stoplist[0]` out of bounds in the source (undefined behaviour,
excluded by the CPE invariant); the embedding returns the state unchanged in
that case. -/
def VehicleState.fast_forward_time (interp_time : Loc → Loc → ℚ → Loc × ℚ)
    (vs : VehicleState Loc) (t : ℚ) : VehicleState Loc × List StopEventSpec :=
  match vs.stoplist with
  | [] => (vs, [])
  | cpe :: rest =>
    let serviced := rest.filter (fun s => decide (service_time s ≤ t))
    let kept := rest.filter (fun s => ! decide (service_time s ≤ t))
    let event_cache := serviced.map
      (fun s => StopEventSpec.mk s.action s.request_id vs.vehicle_id (service_time s))
    let last_stop := serviced.getLast?.getD cpe
    let cpe1 := { cpe with occupancy_after_servicing := last_stop.occupancy_after_servicing }
    let cpe2 :=
      if cpe1.estimated_arrival_time ≤ t then
        match kept with
        | s1 :: _ =>
          let r := interp_time last_stop.location s1.location (s1.estimated_arrival_time - t)
          { cpe1 with location := r.1, estimated_arrival_time := t + r.2 }
        | [] =>
          { cpe1 with location := last_stop.location, estimated_arrival_time := t }
      else cpe1
    ({ vs with stoplist := cpe2 :: kept }, event_cache)

/-- From `VehicleState::handle_transportation_request_single_vehicle` in
`cvehicle_state.h`: call the dispatcher, store the tentative stoplist in
`stoplist_new` (unconditionally, also when the result is infeasible), and
return the `SingleVehicleSolution`. -/
def VehicleState.handle_transportation_request_single_vehicle
    (dispatcher : TransportationRequest Loc → List (Stop Loc) → ℤ → InsertionResult Loc)
    (vs : VehicleState Loc) (request : TransportationRequest Loc) :
    VehicleState Loc × SingleVehicleSolution :=
  let insertion_result := dispatcher request vs.stoplist vs.seat_capacity
  ({ vs with stoplist_new := insertion_result.new_stoplist },
   ⟨vs.vehicle_id, insertion_result.min_cost, insertion_result.EAST_pu,
    insertion_result.LAST_pu, insertion_result.EAST_do, insertion_result.LAST_do⟩)

/-- From `VehicleState::select_new_stoplist` in `cvehicle_state.h`:
`stoplist = stoplist_new`. -/
def VehicleState.select_new_stoplist (vs : VehicleState Loc) : VehicleState Loc :=
  { vs with stoplist := vs.stoplist_new }

end Vehicle

section Fleet

variable {Loc : Type} [Inhabited Loc]

/-- Event kinds, from `EventType` in `ridepy/cpp/ridepy/events.h`.  Note the
enumeration has no acceptance variant. -/
inductive EventType where
| EVENT : EventType
| STOP_EVENT : EventType
| REQUEST_EVENT : EventType
| REQUESTOFFERING_EVENT : EventType
| REQUESTREJECTION_EVENT : EventType
deriving DecidableEq, Repr

/-- From `StopEvent` in `ridepy/cpp/ridepy/stop.h` (its `EventType` is the
constant `STOP_EVENT` and is not repeated here). -/
structure StopEvent where
  timestamp : ℚ
  action : StopAction
  requestId : ℤ
  vehicleId : ℤ
deriving DecidableEq, Repr

/-- From `RequestEvent` in `ridepy/cpp/ridepy/events.h`; `timestamp` is
`request.creation_timestamp`.  The `estimated_invehicle_time` and free-text
`comment` fields are referenced by no claim and are omitted. -/
structure RequestEvent where
  etype : EventType
  timestamp : ℚ
  requestId : ℤ
deriving DecidableEq, Repr

/-- Dispatcher output, from `InsertionResult<Loc>` in
`ridepy/cpp/ridepy/insertionresult.h` (`std::deque` as a list, `TimeWindow`
as a pair of extended times; the default is `min_cost = INFINITY` with both
windows `[INFINITY, INFINITY]`). -/
structure CppInsertionResult (Loc : Type) where
  new_stoplist : List (Stop Loc)
  min_cost : ETime
  pickup_window : ETime × ETime
  dropoff_window : ETime × ETime

/-- Per-vehicle quote, from `SingleVehicleSolution` in
`ridepy/cpp/ridepy/singlevehiclesolution.h`. -/
structure CppSingleVehicleSolution where
  vehicle_id : ℤ
  min_cost : ETime
  pickup_window : ETime × ETime
  dropoff_window : ETime × ETime

/-- Vehicle state, from `VehicleState<Loc>` in
`ridepy/cpp/ridepy/vehiclestate.h`. -/
structure CppVehicleState (Loc : Type) where
  vehicle_id : ℤ
  seat_capacity : ℤ
  stoplist : List (Stop Loc)
  stoplist_new : List (Stop Loc)
  current_time : ℚ

instance cppVehicleInhabited (Loc : Type) [Inhabited Loc] : Inhabited (CppVehicleState Loc) :=
  ⟨⟨-1, 1, [], [], 0⟩⟩

/-- From `VehicleState::fast_forward_time` in
`ridepy/cpp/ridepy/vehiclestate.h`: walk the tail in order collecting events
until the first non-serviceable stop, then `erase(begin(), begin() +
serviced_stops)` — which removes the old head and all but the LAST serviced
stop, so the last serviced stop becomes the new head — and finally relocate
the head if its arrival time is strictly before `new_time`.  An empty
stoplist would read `stoplist[0]` out of bounds (undefined behaviour,
excluded by the CPE invariant). -/
def CppVehicleState.fast_forward_time (interp_time : Loc → Loc → ℚ → Loc × ℚ)
    (v : CppVehicleState Loc) (new_time : ℚ) :
    CppVehicleState Loc × List StopEvent :=
  match v.stoplist with
  | [] => ({ v with current_time := new_time }, [])
  | cpe :: rest =>
    let serviced := rest.takeWhile (fun s => decide (service_time s ≤ new_time))
    let stopEvents := serviced.map
      (fun s => StopEvent.mk (service_time s) s.action s.request_id v.vehicle_id)
    match (cpe :: rest).drop serviced.length with
    | [] => ({ v with stoplist := [], current_time := new_time }, stopEvents)
    | head :: tail =>
      let head2 :=
        if head.estimated_arrival_time < new_time then
          match tail with
          | s1 :: _ =>
            let r := interp_time head.location s1.location
              (s1.estimated_arrival_time - new_time)
            { head with location := r.1, estimated_arrival_time := new_time + r.2 }
          | [] => { head with estimated_arrival_time := new_time }
        else head
      ({ v with stoplist := head2 :: tail, current_time := new_time }, stopEvents)

/-- From `VehicleState::handle_transportation_request_single_vehicle` in
`ridepy/cpp/ridepy/vehiclestate.h`. -/
def CppVehicleState.handle_transportation_request_single_vehicle
    (dispatch : TransportationRequest Loc → List (Stop Loc) → ℤ → CppInsertionResult Loc)
    (v : CppVehicleState Loc) (request : TransportationRequest Loc) :
    CppVehicleState Loc × CppSingleVehicleSolution :=
  let ir := dispatch request v.stoplist v.seat_capacity
  ({ v with stoplist_new := ir.new_stoplist },
   ⟨v.vehicle_id, ir.min_cost, ir.pickup_window, ir.dropoff_window⟩)

/-- From `VehicleState::select_new_stoplist` in
`ridepy/cpp/ridepy/vehiclestate.h`: `stoplist.swap(m_stoplist_new);
m_stoplist_new.clear();`. -/
def CppVehicleState.select_new_stoplist (v : CppVehicleState Loc) : CppVehicleState Loc :=
  { v with stoplist := v.stoplist_new, stoplist_new := [] }

/-- From `VehicleState::estimate_travel_time` in
`ridepy/cpp/ridepy/vehiclestate.h` with the default `useNewList = true`:
scan the proposed stoplist for the pickup and dropoff of the request,
starting from `{INFINITY, INFINITY}`. -/
def CppVehicleState.estimate_travel_time (v : CppVehicleState Loc)
    (request : TransportationRequest Loc) : ETime × ETime :=
  v.stoplist_new.foldl (fun tw s =>
    if s.request_id = request.request_id then
      if s.action = StopAction.pickup then (ETime.fin s.estimated_arrival_time, tw.2)
      else if s.action = StopAction.dropoff then (tw.1, ETime.fin s.estimated_arrival_time)
      else tw
    else tw) (ETime.inf, ETime.inf)

/-- The step of the minimum-cost scan in
`FleetState::submit_transportation_request`. -/
def minStep (acc : ETime × ℤ) (p : ℕ × CppSingleVehicleSolution) : ETime × ℤ :=
  if ETime.blt p.2.min_cost acc.1 then (p.2.min_cost, (p.1 : ℤ)) else acc

/-- Fleet state, from `FleetState<Loc>` in `ridepy/cpp/ridepy/fleetstate.h`:
the vehicle vector and the pending-offer record `m_last_request`
(`request_id  < 0` meaning invalid) together with
`m_last_request_optimal_vehicle`. -/
structure FleetState (Loc : Type) where
  vehicles : List (CppVehicleState Loc)
  last_request_id : ℤ
  last_request_creation : ℚ
  last_request_optimal_vehicle : ℤ

/-- Replace the element at an index (models `m_vehicles.at(i)` mutation). -/
def updateAt (f : CppVehicleState Loc → CppVehicleState Loc) :
    ℕ → List (CppVehicleState Loc) → List (CppVehicleState Loc)
| _, [] => []
| 0, v :: rest => f v :: rest
| n + 1, v :: rest => v :: updateAt f n rest

/-- Scan loop of the insertion sort in `FleetState::fast_forward`
(`fleetstate.h` lines 83-88): insert `e` before the first element whose
timestamp is strictly greater; if no such element exists the loop falls off
the end and the event is never inserted. -/
def insertEventLoop (e : StopEvent) : List StopEvent → List StopEvent
| [] => []
| x :: xs => if e.timestamp < x.timestamp then e :: x :: xs else x :: insertEventLoop e xs

/-- Per-event step of the merge in `FleetState::fast_forward`
(`fleetstate.h` lines 78-90): append when `e.timestamp >
sortedEvents.back().timestamp`, otherwise run the insertion scan.  On an
empty list the source calls `back()` on an empty `std::list` (undefined
behaviour); the embedding models the first insertion as an append, the
behaviour observed in practice and the most favourable reading for the
code. -/
def insertEvent (sorted : List StopEvent) (e : StopEvent) : List StopEvent :=
  match sorted with
  | [] => [e]
  | _ :: _ =>
    if (sorted.getLast?.getD e).timestamp < e.timestamp then sorted ++ [e]
    else insertEventLoop e sorted

/-- From `FleetState::fast_forward` in `ridepy/cpp/ridepy/fleetstate.h`:
fast-forward every vehicle in order, merging the emitted events through the
insertion sort above, and invalidate the pending offer
(`m_last_request.request_id = -1`). -/
def FleetState.fast_forward (interp_time : Loc → Loc → ℚ → Loc × ℚ)
    (fs : FleetState Loc) (t : ℚ) : FleetState Loc × List StopEvent :=
  let r := fs.vehicles.foldl (fun acc v =>
    let p := CppVehicleState.fast_forward_time interp_time v t
    (acc.1 ++ [p.1], p.2.foldl insertEvent acc.2)) ([], [])
  ({ fs with vehicles := r.1, last_request_id := -1 }, r.2)

/-- From `FleetState::submit_transportation_request` in
`ridepy/cpp/ridepy/fleetstate.h`: reject trivial requests, collect one
`SingleVehicleSolution` per vehicle (each call stores the proposed stoplist
on its vehicle), pick the vehicle of strictly minimal cost (first wins),
reject when the minimum is `INFINITY`, otherwise record the pending offer
and return an offer event. -/
def FleetState.submit_transportation_request [DecidableEq Loc]
    (dispatch : TransportationRequest Loc → List (Stop Loc) → ℤ → CppInsertionResult Loc)
    (fs : FleetState Loc) (request : TransportationRequest Loc) :
    FleetState Loc × RequestEvent :=
  if request.origin = request.destination then
    (fs, ⟨EventType.REQUESTREJECTION_EVENT, request.creation_timestamp, request.request_id⟩)
  else
    let hr := fs.vehicles.foldl (fun acc v =>
      let p := CppVehicleState.handle_transportation_request_single_vehicle dispatch v request
      (acc.1 ++ [p.1], acc.2 ++ [p.2])) ([], [])
    let m := hr.2.enum.foldl minStep (ETime.inf, -1)
    if m.1 = ETime.inf then
      ({ fs with vehicles := hr.1 },
       ⟨EventType.REQUESTREJECTION_EVENT, request.creation_timestamp, request.request_id⟩)
    else
      let fs2 : FleetState Loc :=
        { fs with
          vehicles := hr.1
          last_request_id := request.request_id
          last_request_creation := request.creation_timestamp
          last_request_optimal_vehicle := m.2 }
      (fs2, ⟨EventType.REQUESTOFFERING_EVENT, request.creation_timestamp, request.request_id⟩)

/-- From `FleetState::execute_transportation_request` in
`ridepy/cpp/ridepy/fleetstate.h`: reject when the pending offer is invalid
(`request_id == -1`) or does not match; otherwise commit the proposed
stoplist on the chosen vehicle, clear the pending offer, and return the
final event — of type `REQUESTOFFERING_EVENT`, built from `m_last_request`
AFTER its `request_id` was reset to `-1`. -/
def FleetState.execute_transportation_request (fs : FleetState Loc)
    (request_id : ℤ) : FleetState Loc × RequestEvent :=
  if fs.last_request_id = -1 then
    (fs, ⟨EventType.REQUESTREJECTION_EVENT, fs.last_request_creation, fs.last_request_id⟩)
  else if fs.last_request_id ≠ request_id then
    (fs, ⟨EventType.REQUESTREJECTION_EVENT, fs.last_request_creation, fs.last_request_id⟩)
  else
    let vehicles2 := updateAt CppVehicleState.select_new_stoplist
      fs.last_request_optimal_vehicle.toNat fs.vehicles
    let fs2 := { fs with vehicles := vehicles2, last_request_id := -1 }
    (fs2, ⟨EventType.REQUESTOFFERING_EVENT, fs2.last_request_creation, fs2.last_request_id⟩)

end Fleet

/-- Search-state sanity: whenever the running minimum is finite, the recorded
pair is an ordered pair of valid indices. -/
def bfValid (n : ℕ) (st : BFState) : Prop :=
  st.min_cost ≠ ETime.inf → st.best_pickup ≤ st.best_dropoff ∧ st.best_dropoff < n

/-- Forget the arrival time of a stop (used to speak about the fields that an
operation leaves unchanged). -/
def eraseEat {Loc : Type} (s : Stop Loc) : Stop Loc :=
  { s with estimated_arrival_time := 0 }

/-- Shape of a stoplist `NL` produced by inserting `request` into `SL` with
pickup after `i` and dropoff after `j` (claim C2): two stops more; the
pickup stop at `i + 1` built from stop `i` under drive-first with its
occupancy one higher; the prefix up to `i` untouched; the stops originally
strictly between the insertion points with occupancy raised by one (their
arrival times aside); the remaining stops unchanged apart from arrival
times; and the dropoff stop at `j + 2` built from its predecessor in `NL`
under drive-first, with the predecessor occupancy minus the dropped
passenger. -/
def insertionStructureSpec {Loc : Type} [Inhabited Loc] (τ : Loc → Loc → ℚ)
    (SL : List (Stop Loc)) (R : TransportationRequest Loc) (i j : ℕ)
    (NL : List (Stop Loc)) : Prop :=
  NL.length = SL.length + 2 ∧
  getStop NL (i + 1) =
    { location := R.origin, request_id := R.request_id, action := StopAction.pickup,
      estimated_arrival_time :=
        (getStop SL i).estimated_departure_time + τ (getStop SL i).location R.origin,
      occupancy_after_servicing := (getStop SL i).occupancy_after_servicing + 1,
      time_window_min := R.pickup_timewindow_min,
      time_window_max := R.pickup_timewindow_max } ∧
  (∀ k, k ≤ i → getStop NL k = getStop SL k) ∧
  (∀ k, i + 1 ≤ k → k ≤ j →
    eraseEat (getStop NL (k + 1)) =
      eraseEat { getStop SL k with
        occupancy_after_servicing := (getStop SL k).occupancy_after_servicing + 1 }) ∧
  (∀ k, j < k → k < SL.length →
    eraseEat (getStop NL (k + 2)) = eraseEat (getStop SL k)) ∧
  getStop NL (j + 2) =
    { location := R.destination, request_id := R.request_id, action := StopAction.dropoff,
      estimated_arrival_time :=
        (getStop NL (j + 1)).estimated_departure_time +
          τ (getStop NL (j + 1)).location R.destination,
      occupancy_after_servicing := (getStop NL (j + 1)).occupancy_after_servicing - 1,
      time_window_min := R.delivery_timewindow_min,
      time_window_max := R.delivery_timewindow_max }

/-- Travel times of the one-vehicle example scenario (locations `0, 1, 2`;
symmetric Euclidean-like values). -/
def exTau1 : ℕ → ℕ → ℚ
| 0, 1 => 5
| 1, 0 => 5
| 1, 2 => 5
| 2, 1 => 5
| 0, 2 => 8
| 2, 0 => 8
| _, _ => 0

/-- Current-position stop of the example vehicle. -/
def exCpe : Stop ℕ := ⟨0, -1, StopAction.internal, 0, 0, 0, ETime.inf⟩

/-- Example request from location `1` to location `2`. -/
def exReq1 : TransportationRequest ℕ := ⟨7, 0, 1, 2, 0, ETime.inf, 0, ETime.inf⟩

/-- Travel times for the delay-absorption example (locations `0, 1, 2, 3`;
the new stop has location `3`). -/
def exTauC3 : ℕ → ℕ → ℚ
| 0, 3 => 2
| 3, 1 => 1
| 0, 1 => 1
| 1, 2 => 1
| _, _ => 0

/-- Head stop of the delay-absorption example. -/
def exT0 : Stop ℕ := ⟨0, -1, StopAction.internal, 0, 0, 0, ETime.inf⟩

/-- Middle stop: arrival 1 but the window opens at 2, so the vehicle waits
one time unit here — a partial absorber for any incoming delay. -/
def exTA : Stop ℕ := ⟨1, 5, StopAction.pickup, 1, 1, 2, ETime.inf⟩

/-- Last stop: drive-first arrival `max(1, 2) + 1 = 3`. -/
def exTB : Stop ℕ := ⟨2, 5, StopAction.dropoff, 3, 0, 0, ETime.inf⟩

/-- Stop inserted after the head (arrival recomputed by the routine). -/
def exTX : Stop ℕ := ⟨3, 9, StopAction.pickup, 0, 1, 0, ETime.inf⟩

/-- Exact square root of a rational: `some b` when `a` is the square of a
nonnegative rational `b` — equivalently, numerator and denominator of the
reduced fraction are perfect squares — and `none` otherwise. -/
def ratSqrtExact (a : ℚ) : Option ℚ :=
  let n := Nat.sqrt a.num.natAbs
  let d := Nat.sqrt a.den
  if n * n = a.num.natAbs ∧ d * d = a.den then some ((n : ℚ) / (d : ℚ)) else none

/-- IEEE square root, modelling `std::sqrt`: `NaN` on negatives and on `-∞`,
`+∞` on `+∞`, and on a finite value the correctly rounded root.  The
exact-rational model represents the result precisely when the true root is
rational (the case for every input used in the theorems below); an
irrational root is not exactly representable and is mapped to `NaN`,
marking it as outside the model. -/
def FP.sqrt : FP → FP
| FP.fin a =>
  if 0 ≤ a then
    match ratSqrtExact a with
    | some b => FP.fin b
    | none => FP.nan
  else FP.nan
| FP.nan => FP.nan
| FP.pinf => FP.pinf
| FP.ninf => FP.nan

/-- Euclidean plane distance, from `Euclidean2D::d` in
`ridepy/util/spaces_cython/cspaces.cxx`:
`sqrt((u.first - v.first) * (u.first - v.first) +
      (u.second - v.second) * (u.second - v.second))`. -/
def euclidean_d (u v : R2fp) : FP :=
  (((FP.sub u.1 v.1).mul (FP.sub u.1 v.1)).add
    ((FP.sub u.2 v.2).mul (FP.sub u.2 v.2))).sqrt

/-- Euclidean plane travel time, from `Euclidean2D::t`: `d(u, v) / velocity`. -/
def euclidean_t (velocity : FP) (u v : R2fp) : FP :=
  (euclidean_d u v).div velocity

/-- Spatial interpolation, from `Euclidean2D::interp_dist` in `cspaces.cxx`
(the same unguarded body as `Manhattan2D::interp_dist`):
`frac = dist_to_dest / d(u, v)` and the returned point is
`(u.first * frac + (1 - frac) * v.first, u.second * frac + (1 - frac) * v.second)`
with remaining distance `0`.  There is no guard for `d(u, v) = 0`. -/
def euclidean_interp_dist (u v : R2fp) (dist_to_dest : FP) : R2fp × FP :=
  let frac := dist_to_dest.div (euclidean_d u v)
  (((u.1.mul frac).add (((FP.fin 1).sub frac).mul v.1),
    (u.2.mul frac).add (((FP.fin 1).sub frac).mul v.2)),
   FP.fin 0)

/-- Temporal interpolation, from `Euclidean2D::interp_time`:
`dist_to_dest = time_to_dest * velocity`, then `interp_dist`. -/
def euclidean_interp_time (velocity : FP) (u v : R2fp) (time_to_dest : FP) :
    R2fp × FP :=
  euclidean_interp_dist u v (time_to_dest.mul velocity)

/-- Drive-first discipline along a stoplist: each arrival time equals the
predecessor departure (`max(EAT, tw_min)`) plus the edge travel time
(stoplist invariant 5 with the spec equality clause, §4.B). -/
def driveFirstChain {Loc : Type} (τ : Loc → Loc → ℚ) (SL : List (Stop Loc)) : Prop :=
  List.Chain' (fun s s2 => s2.estimated_arrival_time =
    max s.estimated_arrival_time s.time_window_min + τ s.location s2.location) SL

/-- Interpolation oracle of the fast-forward example: jump to the target
node, reporting the full remaining time as residual. -/
def exInterp : ℕ → ℕ → ℚ → ℕ × ℚ := fun _ b r => (b, r)

/-- Travel times of the fast-forward example. -/
def exTauFF : ℕ → ℕ → ℚ
| 0, 1 => 1
| 1, 2 => 2
| _, _ => 0

/-- Head stop of the fast-forward example vehicle. -/
def exFFCpe : Stop ℕ := ⟨0, -1, StopAction.internal, 0, 0, 0, ETime.inf⟩

/-- Pickup serviced at time 1. -/
def exFFP : Stop ℕ := ⟨1, 7, StopAction.pickup, 1, 1, 0, ETime.inf⟩

/-- Dropoff not yet serviceable at time 2 (arrival 3). -/
def exFFD : Stop ℕ := ⟨2, 7, StopAction.dropoff, 3, 0, 0, ETime.inf⟩

/-- Order embedding of extended times into `WithTop ℚ`. -/
def ETime.toW : ETime → WithTop ℚ
| ETime.fin q => (q : WithTop ℚ)
| ETime.inf => ⊤

def exC6Dispatch : TransportationRequest ℕ → List (Stop ℕ) → ℤ → CppInsertionResult ℕ :=
  fun _ _ _ => ⟨[], ETime.fin 5, (ETime.fin 0, ETime.inf), (ETime.fin 0, ETime.inf)⟩

def exC6Veh : CppVehicleState ℕ := ⟨0, 4, [exFFCpe], [], 0⟩

def exC6Fleet : FleetState ℕ := ⟨[exC6Veh], -1, 0, -1⟩

def exC6Req : TransportationRequest ℕ := ⟨7, 1, 1, 3, 0, ETime.inf, 0, ETime.inf⟩

def exC5Veh : CppVehicleState ℕ := ⟨0, 4, [exFFCpe], [exFFP], 0⟩

def exC5Fleet : FleetState ℕ := ⟨[exC5Veh], 7, 5, 0⟩

def exC7VehA : CppVehicleState ℕ := ⟨0, 4, [exFFCpe, exFFP], [], 0⟩

def exC7VehB : CppVehicleState ℕ := ⟨1, 4, [exFFCpe, exFFP], [], 0⟩

def exC7Fleet : FleetState ℕ := ⟨[exC7VehA, exC7VehB], -1, 0, -1⟩

/-- One stop's worth of delay propagation: the delay handed to the next
arrival is this stop's departure delay, `max(EAT + δ, tw_min) − max(EAT,
tw_min)` (the `delta_cpat` update closing each dropoff-loop iteration in
`cdispatchers.h`, lines 139-144, and likewise the recurrence of
`is_timewindow_violated_dueto_insertion`). -/
def deltaStep {Loc : Type} (s : Stop Loc) (d : ℚ) : ℚ :=
  max (s.estimated_arrival_time + d) s.time_window_min - s.estimated_departure_time

/-- The delay as it has propagated past the first `m` stops of `L`, starting
from delay `d` at the head of `L` (constant once the list is exhausted). -/
def deltaAt {Loc : Type} : List (Stop Loc) → ℚ → ℕ → ℚ
| _, d, 0 => d
| [], d, _ + 1 => d
| s :: rest, d, m + 1 => deltaAt rest (deltaStep s d) m

section SpecC1

variable {Loc : Type} [Inhabited Loc]

/-- CPAT of the pickup inserted after stop `i` (claim C1): the departure
time of stop `i` plus the travel time to the request origin. -/
def specCPATpu (τ : Loc → Loc → ℚ) (R : TransportationRequest Loc)
    (SL : List (Stop Loc)) (i : ℕ) : ℚ :=
  (getStop SL i).estimated_departure_time + τ (getStop SL i).location R.origin

/-- Arrival delay imposed on stop `i + 1` by inserting the pickup after stop
`i` (`delta_cpat` as first set in the outer loop, `cdispatchers.h` lines
93-95; `0` when no stop follows). -/
def specPickupDelta (τ : Loc → Loc → ℚ) (R : TransportationRequest Loc)
    (SL : List (Stop Loc)) (i : ℕ) : ℚ :=
  if i + 1 < SL.length then
    max (specCPATpu τ R SL i) R.pickup_timewindow_min +
      time_to_stop_after_insertion τ SL R.origin i -
      (getStop SL (i + 1)).estimated_arrival_time
  else 0

/-- The pickup-insertion delay as it has propagated to stop `j` (the value
of `delta_cpat` at the dropoff-loop iteration considering insertion after
`j`). -/
def specDelta (τ : Loc → Loc → ℚ) (R : TransportationRequest Loc)
    (SL : List (Stop Loc)) (i j : ℕ) : ℚ :=
  deltaAt (SL.drop (i + 1)) (specPickupDelta τ R SL i) (j - (i + 1))

/-- CPAT of the dropoff inserted after stop `j` when the pickup sits after
stop `i`; for `j = i` the dropoff immediately follows the pickup. -/
def specCPATdo (τ : Loc → Loc → ℚ) (R : TransportationRequest Loc)
    (SL : List (Stop Loc)) (i j : ℕ) : ℚ :=
  if j = i then
    max R.pickup_timewindow_min (specCPATpu τ R SL i) + τ R.origin R.destination
  else
    max ((getStop SL j).estimated_arrival_time + specDelta τ R SL i j)
      (getStop SL j).time_window_min + τ (getStop SL j).location R.destination

/-- Arrival time at stop `j + 1` after the dropoff is inserted after `j`
(`cpat_at_next_stop` at the downstream feasibility check of the pair). -/
def specDropArr (τ : Loc → Loc → ℚ) (R : TransportationRequest Loc)
    (SL : List (Stop Loc)) (i j : ℕ) : ℚ :=
  max (specCPATdo τ R SL i j) R.delivery_timewindow_min +
    time_to_stop_after_insertion τ SL R.destination j

/-- Arrival delay imposed on stop `j + 1` by the full insertion (pickup
after `i`, dropoff after `j`). -/
def specDropDelta (τ : Loc → Loc → ℚ) (R : TransportationRequest Loc)
    (SL : List (Stop Loc)) (i j : ℕ) : ℚ :=
  specDropArr τ R SL i j - (getStop SL (j + 1)).estimated_arrival_time

/-- Total added travel time of the candidate pair `(i, j)` (claim C1's cost:
detour to serve the pickup plus detour to serve the dropoff). -/
def specCost (τ : Loc → Loc → ℚ) (R : TransportationRequest Loc)
    (SL : List (Stop Loc)) (i j : ℕ) : ℚ :=
  if j = i then
    τ (getStop SL i).location R.origin + τ R.origin R.destination +
      time_to_stop_after_insertion τ SL R.destination i -
      time_from_current_stop_to_next τ SL i
  else
    (τ (getStop SL i).location R.origin + time_to_stop_after_insertion τ SL R.origin i -
      time_from_current_stop_to_next τ SL i) +
    (τ (getStop SL j).location R.destination +
      time_to_stop_after_insertion τ SL R.destination j -
      time_from_current_stop_to_next τ SL j)

/-- Feasibility of the pair `(i, j)` (claim C1): ordered indices, seat
capacity along the newly occupied segment, the request's pickup and
delivery time windows, and every downstream stop's time window under the
propagated delay — stops between pickup and dropoff see the pickup delay,
stops past the dropoff the delay of the full insertion. -/
def specFeasible (τ : Loc → Loc → ℚ) (R : TransportationRequest Loc)
    (SL : List (Stop Loc)) (cap : ℤ) (i j : ℕ) : Prop :=
  i ≤ j ∧ j < SL.length ∧
  (∀ k < SL.length, i ≤ k → k ≤ j → (getStop SL k).occupancy_after_servicing ≠ cap) ∧
  ETime.finLe (specCPATpu τ R SL i) R.pickup_timewindow_max ∧
  ETime.finLe (specCPATdo τ R SL i j) R.delivery_timewindow_max ∧
  (∀ k < SL.length, i < k → k ≤ j →
    ETime.finLe ((getStop SL k).estimated_arrival_time + specDelta τ R SL i k)
      (getStop SL k).time_window_max) ∧
  (∀ k < SL.length, j < k →
    ETime.finLe ((getStop SL k).estimated_arrival_time +
        deltaAt (SL.drop (j + 1)) (specDropDelta τ R SL i j) (k - (j + 1)))
      (getStop SL k).time_window_max)

instance specFeasibleDecidable (τ : Loc → Loc → ℚ) (R : TransportationRequest Loc)
    (SL : List (Stop Loc)) (cap : ℤ) (i j : ℕ) :
    Decidable (specFeasible τ R SL cap i j) := by
  unfold specFeasible
  infer_instance

/-- Reference step of the exhaustive pair scan (the claim's semantics): a
feasible pair strictly cheaper than the running minimum replaces it, so the
earliest pair wins ties. -/
def specStep (τ : Loc → Loc → ℚ) (R : TransportationRequest Loc)
    (SL : List (Stop Loc)) (cap : ℤ) (st : BFState) (p : ℕ × ℕ) : BFState :=
  if specFeasible τ R SL cap p.1 p.2 ∧
      ETime.qblt (specCost τ R SL p.1 p.2) st.min_cost = true then
    ⟨ETime.fin (specCost τ R SL p.1 p.2), p.1, p.2⟩
  else st

end SpecC1

/-- The dropoff candidates `(i, j), (i, j+1), …, (i, n-1)` of one pickup row. -/
def rowFrom (n i : ℕ) : ℕ → List (ℕ × ℕ)
| j => if _ : j < n then (i, j) :: rowFrom n i (j + 1) else []
termination_by j => n - j

/-- All ordered pairs `(i2, j)` with `i ≤ i2 ≤ j < n`, in the dispatcher's
lexicographic enumeration order. -/
def pairsFrom (n : ℕ) : ℕ → List (ℕ × ℕ)
| i => if _ : i < n then rowFrom n i i ++ pairsFrom n (i + 1) else []
termination_by i => n - i

/-- Lexicographic order on candidate pairs: the enumeration order of the
brute-force scan. -/
def pairLt (p q : ℕ × ℕ) : Prop := p.1 < q.1 ∨ (p.1 = q.1 ∧ p.2 < q.2)

/-- The arrival time handed to the stop after the pickup insertion point
(`cpat_at_next_stop` before the dropoff loop, `cdispatchers.h` lines 85-87). -/
def specPickupArr {Loc : Type} [Inhabited Loc] (τ : Loc → Loc → ℚ)
    (R : TransportationRequest Loc) (SL : List (Stop Loc)) (i : ℕ) : ℚ :=
  max (specCPATpu τ R SL i) R.pickup_timewindow_min +
    time_to_stop_after_insertion τ SL R.origin i

/-- Non-metric travel times: the direct leg `2 → 3` (origin to destination)
is far longer than the detour `2 → 1 → 3`, breaking the triangle
inequality. -/
def exC1Tau : ℕ → ℕ → ℚ := fun a b =>
  if a = 2 ∧ b = 3 then 100
  else if a = 1 ∧ b = 2 then 100
  else if a = b then 0
  else 1

/-- CPE stop of the counterexample vehicle (location `0`). -/
def exC1S0 : Stop ℕ := ⟨0, -1, StopAction.internal, 0, 0, 0, ETime.inf⟩

/-- Second stop of the counterexample (location `1`, drive-first arrival
`0 + τ(0,1) = 1`): the dropoff of the passenger on board at the CPE, so its
occupancy is the predecessor's minus one. -/
def exC1S1 : Stop ℕ := ⟨1, 5, StopAction.dropoff, 1, 0, 0, ETime.inf⟩

/-- CPE stop of the counterexample vehicle (location `0`): one passenger —
the one of request `5`, dropped at the next stop — is on board. -/
def exC1Cpe : Stop ℕ := ⟨0, -1, StopAction.internal, 0, 1, 0, ETime.inf⟩

/-- Counterexample stoplist: the CPE followed by the dropoff of the onboard
passenger (occupancy `1 - 1 = 0`). -/
def exC1SL : List (Stop ℕ) := [exC1Cpe, exC1S1]

/-- Occupancy change of a stop action (spec §3, stoplist invariant 3). -/
def occStep : StopAction → ℤ
| StopAction.pickup => 1
| StopAction.dropoff => -1
| StopAction.internal => 0

/-- The stoplist invariants of spec §3 that are expressible on the stoplist
alone (invariant 6 relates arrival times to the simulation clock, which is
not an input of the dispatcher): the CPE is present and `INTERNAL`, arrival
times are non-decreasing, each stop's occupancy is its predecessor's plus
the action's step and stays within `[0, seat_capacity]`, every pickup has
its matching dropoff strictly later, and every non-CPE stop lies inside its
time window. -/
def specStoplistInvariants {Loc : Type} [Inhabited Loc] (cap : ℤ)
    (SL : List (Stop Loc)) : Prop :=
  1 ≤ SL.length ∧
  (getStop SL 0).action = StopAction.internal ∧
  List.Chain' (fun a b => a.estimated_arrival_time ≤ b.estimated_arrival_time) SL ∧
  List.Chain' (fun a b =>
    b.occupancy_after_servicing = a.occupancy_after_servicing + occStep b.action) SL ∧
  (∀ s ∈ SL, 0 ≤ s.occupancy_after_servicing ∧ s.occupancy_after_servicing ≤ cap) ∧
  (∀ k, k < SL.length → (getStop SL k).action = StopAction.pickup →
    ∃ l, k < l ∧ l < SL.length ∧ (getStop SL l).action = StopAction.dropoff ∧
      (getStop SL l).request_id = (getStop SL k).request_id) ∧
  (∀ s ∈ SL.drop 1, ETime.finLe s.estimated_arrival_time s.time_window_max)

/-- Counterexample request from location `2` to location `3`, pickup by
time `3`, delivery by time `10`. -/
def exC1Req : TransportationRequest ℕ := ⟨9, 0, 2, 3, 0, ETime.fin 3, 0, ETime.fin 10⟩

/-- Discrete travel times (`0` on the diagonal, `1` otherwise): a metric, so
the triangle inequality of the amended claim holds. -/
def exC1WTau : ℕ → ℕ → ℚ := fun a b => if a = b then 0 else 1

/-- Witness request from location `1` to location `2`, open time windows. -/
def exC1WReq : TransportationRequest ℕ := ⟨3, 0, 1, 2, 0, ETime.inf, 0, ETime.inf⟩

theorem ETime.qbgt_eq_false_iff (q : ℚ) (e : ETime) : ETime.qbgt q e = false ↔ ETime.finLe q e := by
  cases e <;> simp [ETime.qbgt, ETime.finLe, not_lt]

theorem ETime.qbgt_eq_true_iff (q : ℚ) (e : ETime) : ETime.qbgt q e = true ↔ ¬ ETime.finLe q e := by
  cases e <;> simp [ETime.qbgt, ETime.finLe, not_le]

/-- Distance on the Manhattan plane vanishes only at equal points. -/
theorem manhattan_d_eq_fin (u v : ℚ × ℚ) :
    manhattan_d (toFP u) (toFP v) = FP.fin (|u.1 - v.1| + |u.2 - v.2|) := rfl

/-- Helper: exact interpolation on the Manhattan plane when the remaining
distance equals the full distance. -/
theorem manhattan_interp_dist_full (u v : ℚ × ℚ) (h : u ≠ v) :
    manhattan_interp_dist (toFP u) (toFP v) (manhattan_d (toFP u) (toFP v)) =
      (toFP u, FP.fin 0) := by
  obtain ⟨a, b⟩ := u
  obtain ⟨c, d⟩ := v
  have hD : |a - c| + |b - d| ≠ 0 := by
    intro h0
    rcases (add_eq_zero_iff_of_nonneg (abs_nonneg _) (abs_nonneg _)).1 h0 with ⟨h1, h2⟩
    exact h (Prod.ext (sub_eq_zero.1 (abs_eq_zero.1 h1)) (sub_eq_zero.1 (abs_eq_zero.1 h2)))
  simp only [toFP, manhattan_interp_dist, manhattan_d]
  simp [FP.sub, FP.fabs, FP.add, FP.div, FP.mul, hD, div_self hD]

/-- Exact interpolation in `Manhattan2D` at full remaining distance, in the
distance and (at velocity `1`) time domains. -/
theorem manhattan_interp_exact (u v : ℚ × ℚ) (h : u ≠ v) :
    manhattan_interp_dist (toFP u) (toFP v) (manhattan_d (toFP u) (toFP v)) =
      (toFP u, FP.fin 0) ∧
    manhattan_interp_time (FP.fin 1) (toFP u) (toFP v)
        (manhattan_t (FP.fin 1) (toFP u) (toFP v)) =
      (toFP u, FP.fin 0) := by
  refine ⟨manhattan_interp_dist_full u v h, ?_⟩
  have : manhattan_t (FP.fin 1) (toFP u) (toFP v) =
      FP.fin (|u.1 - v.1| + |u.2 - v.2|) := by
    simp [manhattan_t, manhattan_d_eq_fin, FP.div]
  rw [manhattan_interp_time, this]
  have h1 : (FP.fin (|u.1 - v.1| + |u.2 - v.2|)).mul (FP.fin 1) =
      manhattan_d (toFP u) (toFP v) := by
    simp [FP.mul, manhattan_d_eq_fin]
  rw [h1]
  exact manhattan_interp_dist_full u v h

theorem ratSqrtExact_spec {a b : ℚ} (ha : 0 ≤ a) (h : ratSqrtExact a = some b) :
    b * b = a := by
  unfold ratSqrtExact at h
  by_cases hc : Nat.sqrt a.num.natAbs * Nat.sqrt a.num.natAbs = a.num.natAbs ∧
      Nat.sqrt a.den * Nat.sqrt a.den = a.den
  · rw [if_pos hc] at h
    obtain ⟨h1, h2⟩ := hc
    injection h with h3
    subst h3
    have hnum : (0 : ℤ) ≤ a.num := Rat.num_nonneg.2 ha
    have h1q : (Nat.sqrt a.num.natAbs : ℚ) * (Nat.sqrt a.num.natAbs : ℚ) = (a.num : ℚ) := by
      have h1z : (Nat.sqrt a.num.natAbs : ℤ) * (Nat.sqrt a.num.natAbs : ℤ) = a.num := by
        rw [← Int.natAbs_of_nonneg hnum]
        exact_mod_cast h1
      exact_mod_cast h1z
    have h2q : (Nat.sqrt a.den : ℚ) * (Nat.sqrt a.den : ℚ) = (a.den : ℚ) := by
      exact_mod_cast h2
    have hden : ((a.den : ℚ)) ≠ 0 := by
      exact_mod_cast a.den_nz
    have hd2 : (Nat.sqrt a.den : ℚ) ≠ 0 := by
      intro h0
      rw [h0, mul_zero] at h2q
      exact hden h2q.symm
    rw [div_mul_div_comm, h1q, h2q]
    exact Rat.num_div_den a
  · rw [if_neg hc] at h
    exact absurd h (by intro hx; exact Option.noConfusion hx)

theorem euclidean_d_fin_ne_zero (u v : ℚ × ℚ) (h : u ≠ v) (q : ℚ)
    (hq : euclidean_d (toFP u) (toFP v) = FP.fin q) : q ≠ 0 := by
  obtain ⟨a, b⟩ := u
  obtain ⟨c, d⟩ := v
  have hs : (0 : ℚ) < (a - c) * (a - c) + (b - d) * (b - d) := by
    by_cases hac : a = c
    · have hbd : b ≠ d := fun hbd => h (by rw [hac, hbd])
      have h1 : 0 < (b - d) * (b - d) := mul_self_pos.2 (sub_ne_zero.2 hbd)
      nlinarith [mul_self_nonneg (a - c)]
    · have h1 : 0 < (a - c) * (a - c) := mul_self_pos.2 (sub_ne_zero.2 hac)
      nlinarith [mul_self_nonneg (b - d)]
  simp only [euclidean_d, toFP, FP.sub, FP.mul, FP.add, FP.sqrt] at hq
  rw [if_pos (le_of_lt hs)] at hq
  cases hm : ratSqrtExact ((a - c) * (a - c) + (b - d) * (b - d)) with
  | none =>
    rw [hm] at hq
    exact absurd hq (by intro hx; exact FP.noConfusion hx)
  | some b2 =>
    rw [hm] at hq
    injection hq with hb2
    subst hb2
    intro h0
    rw [h0] at hm
    have := ratSqrtExact_spec (le_of_lt hs) hm
    rw [mul_zero] at this
    exact absurd this.symm (ne_of_gt hs)

theorem euclidean_interp_dist_full (u v : ℚ × ℚ) (h : u ≠ v) (q : ℚ)
    (hq : euclidean_d (toFP u) (toFP v) = FP.fin q) :
    euclidean_interp_dist (toFP u) (toFP v) (euclidean_d (toFP u) (toFP v)) =
      (toFP u, FP.fin 0) := by
  have hq0 : q ≠ 0 := euclidean_d_fin_ne_zero u v h q hq
  obtain ⟨a, b⟩ := u
  obtain ⟨c, d⟩ := v
  rw [euclidean_interp_dist, hq]
  simp [toFP, FP.div, FP.mul, FP.add, FP.sub, hq0, div_self hq0]

theorem euclidean_interp_time_full (u v : ℚ × ℚ) (h : u ≠ v) (q : ℚ)
    (hq : euclidean_d (toFP u) (toFP v) = FP.fin q) :
    euclidean_interp_time (FP.fin 1) (toFP u) (toFP v)
        (euclidean_t (FP.fin 1) (toFP u) (toFP v)) =
      (toFP u, FP.fin 0) := by
  have hq0 : q ≠ 0 := euclidean_d_fin_ne_zero u v h q hq
  have ht : euclidean_t (FP.fin 1) (toFP u) (toFP v) = FP.fin q := by
    rw [euclidean_t, hq]
    simp [FP.div]
  have hd1 : (euclidean_t (FP.fin 1) (toFP u) (toFP v)).mul (FP.fin 1) =
      euclidean_d (toFP u) (toFP v) := by
    rw [ht, hq]
    simp [FP.mul]
  rw [euclidean_interp_time, hd1]
  exact euclidean_interp_dist_full u v h q hq

/-- C8 (corrected claim), for both reference continuous spaces: when
`u ≠ v` and the remaining distance equals the full distance `d(u, v)`, the
interpolation returns `(u, 0)`, both in the distance and (at the reference
velocity `1`, where the conversion `time * velocity` is exact) in the time
domain — in `Euclidean2D` whenever the distance is exactly representable
(`d(u, v) = fin q`, the faithful region of the exact-rational model; the
quotient `d/d` is then exactly `1` as in IEEE arithmetic).  The original
claim's edge cases fail: interpolation at `u = v` divides by `d(u, u) = 0`
and yields NaN coordinates, and a remaining distance strictly greater than
`d(u, v)` extrapolates past `u` (see the counterexample). -/
theorem C8_interp_exact (u v : ℚ × ℚ) (h : u ≠ v) :
    (manhattan_interp_dist (toFP u) (toFP v) (manhattan_d (toFP u) (toFP v)) =
        (toFP u, FP.fin 0) ∧
      manhattan_interp_time (FP.fin 1) (toFP u) (toFP v)
          (manhattan_t (FP.fin 1) (toFP u) (toFP v)) =
        (toFP u, FP.fin 0)) ∧
    (∀ q : ℚ, euclidean_d (toFP u) (toFP v) = FP.fin q →
      euclidean_interp_dist (toFP u) (toFP v) (euclidean_d (toFP u) (toFP v)) =
          (toFP u, FP.fin 0) ∧
        euclidean_interp_time (FP.fin 1) (toFP u) (toFP v)
            (euclidean_t (FP.fin 1) (toFP u) (toFP v)) =
          (toFP u, FP.fin 0)) :=
  ⟨manhattan_interp_exact u v h,
   fun q hq => ⟨euclidean_interp_dist_full u v h q hq,
     euclidean_interp_time_full u v h q hq⟩⟩

theorem exC8_euclid_d_one : euclidean_d (toFP (0, 0)) (toFP (1, 0)) = FP.fin 1 := by
  simp only [euclidean_d, toFP, FP.sub, FP.mul, FP.add, FP.sqrt]
  norm_num [ratSqrtExact, Nat.sqrt_one, Int.natAbs_one]

/-- C8, witness: the amended statement evaluated at `u = (0,0)`, `v = (1,0)`
(Euclidean distance exactly `1`). -/
theorem C8_witness :
    (((0, 0) : ℚ × ℚ) ≠ (1, 0) ∧
      euclidean_d (toFP (0, 0)) (toFP (1, 0)) = FP.fin 1) ∧
    (manhattan_interp_dist (toFP (0, 0)) (toFP (1, 0))
        (manhattan_d (toFP (0, 0)) (toFP (1, 0))) = (toFP (0, 0), FP.fin 0) ∧
      manhattan_interp_time (FP.fin 1) (toFP (0, 0)) (toFP (1, 0))
          (manhattan_t (FP.fin 1) (toFP (0, 0)) (toFP (1, 0))) =
        (toFP (0, 0), FP.fin 0)) ∧
    (euclidean_interp_dist (toFP (0, 0)) (toFP (1, 0))
        (euclidean_d (toFP (0, 0)) (toFP (1, 0))) = (toFP (0, 0), FP.fin 0) ∧
      euclidean_interp_time (FP.fin 1) (toFP (0, 0)) (toFP (1, 0))
          (euclidean_t (FP.fin 1) (toFP (0, 0)) (toFP (1, 0))) =
        (toFP (0, 0), FP.fin 0)) :=
  ⟨⟨by decide, exC8_euclid_d_one⟩,
   (C8_interp_exact (0, 0) (1, 0) (by decide)).1,
   (C8_interp_exact (0, 0) (1, 0) (by decide)).2 1 exC8_euclid_d_one⟩

/-- C8, counterexample: the claim as stated fails on both reference
continuous spaces.  With `u = (0,0)`, `v = (1,0)` the distance is `1`, yet
at `dist_to_dest = 2 ≥ d(u, v)` the interpolated location is `(-1, 0)`, not
`u`; and at `u = v` the interpolations divide by `d(u, u) = 0` and return
NaN coordinates instead of `(u, 0)`. -/
theorem C8_counterexample :
    (manhattan_d (toFP (0, 0)) (toFP (1, 0)) = FP.fin 1 ∧
      (manhattan_interp_dist (toFP (0, 0)) (toFP (1, 0)) (FP.fin 2)).1 ≠ toFP (0, 0) ∧
      manhattan_interp_dist (toFP (0, 0)) (toFP (0, 0)) (FP.fin 0) ≠
        (toFP (0, 0), FP.fin 0) ∧
      manhattan_interp_time (FP.fin 1) (toFP (0, 0)) (toFP (0, 0)) (FP.fin 1) ≠
        (toFP (0, 0), FP.fin 0)) ∧
    (euclidean_d (toFP (0, 0)) (toFP (1, 0)) = FP.fin 1 ∧
      (euclidean_interp_dist (toFP (0, 0)) (toFP (1, 0)) (FP.fin 2)).1 ≠ toFP (0, 0) ∧
      euclidean_interp_dist (toFP (0, 0)) (toFP (0, 0)) (FP.fin 0) ≠
        (toFP (0, 0), FP.fin 0) ∧
      euclidean_interp_time (FP.fin 1) (toFP (0, 0)) (toFP (0, 0)) (FP.fin 1) ≠
        (toFP (0, 0), FP.fin 0)) := by
  refine ⟨⟨?_, ?_, ?_, ?_⟩, ⟨exC8_euclid_d_one, ?_, ?_, ?_⟩⟩
  · simp only [toFP, manhattan_d]
    norm_num [FP.sub, FP.fabs, FP.add]
  · simp only [toFP, manhattan_interp_dist, manhattan_d]
    norm_num [FP.sub, FP.fabs, FP.add, FP.div, FP.mul, Prod.mk.injEq]
  · simp only [toFP, manhattan_interp_dist, manhattan_d]
    norm_num [FP.sub, FP.fabs, FP.add, FP.div, FP.mul, Prod.mk.injEq]
    try exact fun hx => FP.noConfusion hx
  · simp only [toFP, manhattan_interp_time, manhattan_interp_dist, manhattan_d]
    norm_num [FP.sub, FP.fabs, FP.add, FP.div, FP.mul, Prod.mk.injEq]
    try exact fun hx => FP.noConfusion hx
  · rw [euclidean_interp_dist, exC8_euclid_d_one]
    norm_num [toFP, FP.div, FP.mul, FP.add, FP.sub, Prod.mk.injEq]
  · simp only [toFP, euclidean_interp_dist, euclidean_d, FP.sub, FP.mul, FP.add, FP.sqrt]
    norm_num [ratSqrtExact, Nat.sqrt_zero, Nat.sqrt_one, FP.div, FP.mul, FP.add,
      FP.sub, Prod.mk.injEq]
    try exact fun hx => FP.noConfusion hx
  · simp only [toFP, euclidean_interp_time, euclidean_interp_dist, euclidean_d,
      FP.sub, FP.mul, FP.add, FP.sqrt]
    norm_num [ratSqrtExact, Nat.sqrt_zero, Nat.sqrt_one, FP.div, FP.mul, FP.add,
      FP.sub, Prod.mk.injEq]
    try exact fun hx => FP.noConfusion hx

/-- C9, counterexample: on `SquareGrid` with grid size 1 and velocity 1,
`interp_dist((0,0), (2,3), 2.5)` returns next node `(2, 1)` (with residual
`0.5`), not the next node `(2, 2)` stated by the claim. -/
theorem C9_counterexample :
    (squareGrid_interp_dist 1 (0, 0) (2, 3) (5 / 2)).nextLocation = (2, 1) ∧
    ((2, 1) : ℤ × ℤ) ≠ (2, 2) := by
  constructor
  · norm_num [squareGrid_interp_dist, Prod.ext_iff]
  · decide

/-- C9 (corrected claim): on `SquareGrid` with grid size 1 and velocity 1,
`interp_dist((0,0), (2,3), 2.5)` reports the vehicle on the edge from
`(2, 0)` to `(2, 1)` with residual distance `0.5` to `(2, 1)`: it has
exhausted the first axis (2 edges) and is half-way along the first edge of
the second axis, 2.5 away from the destination. -/
theorem C9_amended :
    squareGrid_interp_dist 1 (0, 0) (2, 3) (5 / 2) =
      { previousLocation := (2, 0), nextLocation := (2, 1), distance := 1 / 2 } := by
  norm_num [squareGrid_interp_dist, InterpolatedPosition.mk.injEq, Prod.ext_iff]

section LoopLemmas

variable {Loc : Type} [Inhabited Loc]

theorem innerLoop_valid (τ : Loc → Loc → ℚ)
    (R : TransportationRequest Loc) (SL : List (Stop Loc)) (cap : ℤ) (i : ℕ) (pc : ℚ) :
    ∀ (k j : ℕ) (δ : ℚ) (st : BFState), SL.length - j = k → i ≤ j → bfValid SL.length st →
      bfValid SL.length (innerLoop τ R SL cap i pc j δ st) := by
  intro k
  induction k with
  | zero =>
    intro j δ st hk hij hst
    rw [innerLoop]
    have hj : ¬ j < SL.length := by omega
    simp only [dif_neg hj]
    exact hst
  | succ k ih =>
    intro j δ st hk hij hst
    rw [innerLoop]
    have hj : j < SL.length := by omega
    simp only [dif_pos hj]
    split
    · exact hst
    · split
      · exact hst
      · apply ih (j + 1) _ _ (by omega) (by omega)
        split
        · split
          · exact hst
          · intro _
            refine ⟨hij, ?_⟩
            show j < SL.length
            exact hj
        · exact hst

theorem outerLoop_valid (τ : Loc → Loc → ℚ)
    (R : TransportationRequest Loc) (SL : List (Stop Loc)) (cap : ℤ) :
    ∀ (k i : ℕ) (st : BFState), SL.length - i = k → bfValid SL.length st →
      bfValid SL.length (outerLoop τ R SL cap i st) := by
  intro k
  induction k with
  | zero =>
    intro i st hk hst
    rw [outerLoop]
    have hi : ¬ i < SL.length := by omega
    simp only [dif_neg hi]
    exact hst
  | succ k ih =>
    intro i st hk hst
    rw [outerLoop]
    have hi : i < SL.length := by omega
    simp only [dif_pos hi]
    apply ih _ _ (by omega)
    have hadj : bfValid SL.length
        (if ETime.qblt (τ (getStop SL i).location R.origin + τ R.origin R.destination +
              time_to_stop_after_insertion τ SL R.destination i -
              time_from_current_stop_to_next τ SL i) st.min_cost then
          if is_timewindow_violated_dueto_insertion SL i
              (max (max R.pickup_timewindow_min
                  (cpat_of_inserted_stop (getStop SL i) (τ (getStop SL i).location R.origin) 0) +
                τ R.origin R.destination) R.delivery_timewindow_min +
               time_to_stop_after_insertion τ SL R.destination i) then st
          else ⟨ETime.fin (τ (getStop SL i).location R.origin + τ R.origin R.destination +
              time_to_stop_after_insertion τ SL R.destination i -
              time_from_current_stop_to_next τ SL i), i, i⟩
        else st) := by
      split
      · split
        · exact hst
        · intro _
          exact ⟨le_refl i, hi⟩
      · exact hst
    split
    · exact hst
    · split
      · exact hst
      · split
        · exact hst
        · split
          · exact hadj
          · exact innerLoop_valid τ R SL cap i _ _ (i + 1) _ _ rfl (by omega) hadj

end LoopLemmas

section InsertLemmas

variable {Loc : Type} [Inhabited Loc]

theorem getD_drop_add {α : Type} (l : List α) (n m : ℕ) (d : α) :
    (l.drop n).getD m d = l.getD (n + m) d := by
  simp [List.getD_eq_getD_get?, List.get?_drop]

theorem getD_take_lt {α : Type} (l : List α) (n m : ℕ) (d : α) (h : m < n) :
    (l.take n).getD m d = l.getD m d := by
  simp [List.getD_eq_getD_get?, List.getElem?_take_of_lt h]

theorem length_propagateConstantDelta (δ : ℚ) :
    ∀ xs : List (Stop Loc), (propagateConstantDelta δ xs).length = xs.length := by
  intro xs
  induction xs with
  | nil => rfl
  | cons s rest ih =>
    rw [propagateConstantDelta]
    split
    · simp
    · simpa using ih

theorem propagateConstantDelta_eraseEat (δ : ℚ) :
    ∀ (xs : List (Stop Loc)) (k : ℕ) (d : Stop Loc),
      eraseEat ((propagateConstantDelta δ xs).getD k d) = eraseEat (xs.getD k d) := by
  intro xs
  induction xs with
  | nil => intro k d; rfl
  | cons s rest ih =>
    intro k d
    rw [propagateConstantDelta]
    split
    · cases k <;> rfl
    · cases k with
      | zero => rfl
      | succ k => simpa using ih k d

theorem length_mapWithIndexFrom (f : ℕ → Stop Loc → Stop Loc) :
    ∀ (n : ℕ) (xs : List (Stop Loc)), (mapWithIndexFrom f n xs).length = xs.length := by
  intro n xs
  induction xs generalizing n with
  | nil => rfl
  | cons s rest ih => simpa [mapWithIndexFrom] using ih (n + 1)

theorem getD_mapWithIndexFrom (f : ℕ → Stop Loc → Stop Loc) :
    ∀ (xs : List (Stop Loc)) (n k : ℕ) (d : Stop Loc), k < xs.length →
      (mapWithIndexFrom f n xs).getD k d = f (n + k) (xs.getD k d) := by
  intro xs
  induction xs with
  | nil => intro n k d h; simp at h
  | cons s rest ih =>
    intro n k d h
    cases k with
    | zero => simp [mapWithIndexFrom]
    | succ k =>
      show (mapWithIndexFrom f (n + 1) rest).getD k d = f (n + (k + 1)) (rest.getD k d)
      rw [ih (n + 1) k d (Nat.lt_of_succ_lt_succ h)]
      congr 1
      omega

/-- Decomposition of `insert_stop_to_stoplist_drive_first`: the prefix up to
the insertion point is untouched, the new stop (with recomputed arrival) sits
at `idx + 1`, and the tail is the constant-delta shift of the old tail. -/
theorem insert_stop_decomp (τ : Loc → Loc → ℚ) (SL : List (Stop Loc))
    (stop : Stop Loc) (idx : ℕ) :
    ∃ δ : ℚ, insert_stop_to_stoplist_drive_first τ SL stop idx =
      SL.take (idx + 1) ++
        ({ stop with estimated_arrival_time :=
            cpat_of_inserted_stop (getStop SL idx) (τ (getStop SL idx).location stop.location) 0 } ::
          propagateConstantDelta δ (SL.drop (idx + 1))) := by
  rw [insert_stop_to_stoplist_drive_first]
  by_cases h : idx + 1 < SL.length
  · simp only [if_pos h]
    refine ⟨max (cpat_of_inserted_stop (getStop SL idx)
        (τ (getStop SL idx).location stop.location) 0) stop.time_window_min +
        τ stop.location (getStop SL (idx + 1)).location -
        (getStop SL (idx + 1)).estimated_arrival_time, ?_⟩
    have hlen : (SL.take (idx + 1)).length = idx + 1 := by
      simp [Nat.min_eq_left (Nat.le_of_lt h)]
    rw [List.take_left' hlen, List.drop_left' hlen]
    simp [Stop.estimated_departure_time]
  · simp only [if_neg h]
    refine ⟨0, ?_⟩
    have hlen : SL.length ≤ idx + 1 := by omega
    rw [List.take_of_length_le hlen, List.drop_eq_nil_of_le hlen]
    simp [propagateConstantDelta, List.take_of_length_le hlen, List.drop_eq_nil_of_le hlen]

theorem length_insert_stop (τ : Loc → Loc → ℚ) (SL : List (Stop Loc))
    (stop : Stop Loc) (idx : ℕ) (h : idx < SL.length) :
    (insert_stop_to_stoplist_drive_first τ SL stop idx).length = SL.length + 1 := by
  obtain ⟨δ, hd⟩ := insert_stop_decomp τ SL stop idx
  rw [hd]
  simp [length_propagateConstantDelta]
  omega

end InsertLemmas

theorem cpat_zero {Loc : Type} (s : Stop Loc) (t : ℚ) :
    cpat_of_inserted_stop s t 0 = s.estimated_departure_time + t := by
  simp [cpat_of_inserted_stop, Stop.estimated_departure_time]

section InsertStructure

variable {Loc : Type} [Inhabited Loc]

/-- Reading a decomposed list strictly before the inserted element. -/
theorem getStop_decomp_before (SL : List (Stop Loc)) (s2 : Stop Loc)
    (pr : List (Stop Loc)) (m k : ℕ) (hm : m ≤ SL.length) (hk : k < m) :
    getStop (SL.take m ++ s2 :: pr) k = getStop SL k := by
  have hlen : (SL.take m).length = m := by simp [Nat.min_eq_left hm]
  rw [getStop, getStop, List.getD_append _ _ _ _ (by omega), getD_take_lt _ _ _ _ hk]

/-- Reading a decomposed list at the inserted element. -/
theorem getStop_decomp_at (SL : List (Stop Loc)) (s2 : Stop Loc)
    (pr : List (Stop Loc)) (m : ℕ) (hm : m ≤ SL.length) :
    getStop (SL.take m ++ s2 :: pr) m = s2 := by
  have hlen : (SL.take m).length = m := by simp [Nat.min_eq_left hm]
  rw [getStop, List.getD_append_right _ _ _ _ (by omega), hlen]
  simp

/-- Reading a decomposed list strictly after the inserted element. -/
theorem getStop_decomp_after (SL : List (Stop Loc)) (s2 : Stop Loc)
    (pr : List (Stop Loc)) (m k : ℕ) (hm : m ≤ SL.length) (hk : m < k) :
    getStop (SL.take m ++ s2 :: pr) k = getStop pr (k - m - 1) := by
  have hlen : (SL.take m).length = m := by simp [Nat.min_eq_left hm]
  rw [getStop, List.getD_append_right _ _ _ _ (by omega), hlen]
  have h1 : k - m = (k - m - 1) + 1 := by omega
  rw [h1]
  simp [getStop]

/-- Structure of the stoplist produced by
`insert_request_to_stoplist_drive_first` for an ordered in-range index pair:
two stops more; the pickup stop at `i + 1` built from the old stop `i` under
drive-first; the prefix up to `i` untouched; the occupancy (and only it,
besides arrival times) of the stops originally strictly between the two
insertion points raised by one; the remaining stops unchanged apart from
their arrival times; and the dropoff stop at `j + 2` built from its
predecessor under drive-first, its occupancy one less than that of the
predecessor. -/
theorem insert_request_structure (τ : Loc → Loc → ℚ) (SL : List (Stop Loc))
    (R : TransportationRequest Loc) (i j : ℕ) (hij : i ≤ j) (hj : j < SL.length) :
    ∀ NL, NL = insert_request_to_stoplist_drive_first τ SL R i j →
      NL.length = SL.length + 2 ∧
      getStop NL (i + 1) =
        { location := R.origin, request_id := R.request_id, action := StopAction.pickup,
          estimated_arrival_time :=
            (getStop SL i).estimated_departure_time + τ (getStop SL i).location R.origin,
          occupancy_after_servicing := (getStop SL i).occupancy_after_servicing + 1,
          time_window_min := R.pickup_timewindow_min,
          time_window_max := R.pickup_timewindow_max } ∧
      (∀ k, k ≤ i → getStop NL k = getStop SL k) ∧
      (∀ k, i + 1 ≤ k → k ≤ j →
        eraseEat (getStop NL (k + 1)) =
          eraseEat { getStop SL k with
            occupancy_after_servicing := (getStop SL k).occupancy_after_servicing + 1 }) ∧
      (∀ k, j < k → k < SL.length →
        eraseEat (getStop NL (k + 2)) = eraseEat (getStop SL k)) ∧
      getStop NL (j + 2) =
        { location := R.destination, request_id := R.request_id, action := StopAction.dropoff,
          estimated_arrival_time :=
            (getStop NL (j + 1)).estimated_departure_time +
              τ (getStop NL (j + 1)).location R.destination,
          occupancy_after_servicing := (getStop NL (j + 1)).occupancy_after_servicing - 1,
          time_window_min := R.delivery_timewindow_min,
          time_window_max := R.delivery_timewindow_max } := by
  intro NL hNL
  have hi : i < SL.length := by omega
  set pu : Stop Loc :=
    { location := R.origin, request_id := R.request_id, action := StopAction.pickup,
      estimated_arrival_time :=
        (getStop SL i).estimated_departure_time + τ (getStop SL i).location R.origin,
      occupancy_after_servicing := (getStop SL i).occupancy_after_servicing + 1,
      time_window_min := R.pickup_timewindow_min,
      time_window_max := R.pickup_timewindow_max } with hpu
  set SL1 := mapWithIndexFrom (fun k s =>
    if i + 1 ≤ k ∧ k ≤ j then
      { s with occupancy_after_servicing := s.occupancy_after_servicing + 1 }
    else s) 0 SL with hSL1
  set SL2 := insert_stop_to_stoplist_drive_first τ SL1 pu i with hSL2
  set dro : Stop Loc :=
    { location := R.destination, request_id := R.request_id, action := StopAction.dropoff,
      estimated_arrival_time :=
        (getStop SL2 (j + 1)).estimated_departure_time +
          τ (getStop SL2 (j + 1)).location R.destination,
      occupancy_after_servicing := (getStop SL2 (j + 1)).occupancy_after_servicing - 1,
      time_window_min := R.delivery_timewindow_min,
      time_window_max := R.delivery_timewindow_max } with hdro
  have hNL2 : NL = insert_stop_to_stoplist_drive_first τ SL2 dro (j + 1) := by
    rw [hNL]; rfl
  have hlen1 : SL1.length = SL.length := length_mapWithIndexFrom _ _ _
  have hlen2 : SL2.length = SL.length + 1 :=
    (length_insert_stop τ SL1 pu i (by omega)).trans (by rw [hlen1])
  obtain ⟨δ1, hd1⟩ := insert_stop_decomp τ SL1 pu i
  obtain ⟨δ2, hd2⟩ := insert_stop_decomp τ SL2 dro (j + 1)
  have hSL1i : getStop SL1 i = getStop SL i := by
    rw [hSL1, getStop, getStop, getD_mapWithIndexFrom _ _ _ _ _ hi]
    simp
  -- reading SL2
  have hSL2_at : getStop SL2 (i + 1) =
      { pu with estimated_arrival_time :=
          cpat_of_inserted_stop (getStop SL1 i) (τ (getStop SL1 i).location pu.location) 0 } := by
    rw [hSL2, hd1]
    exact getStop_decomp_at _ _ _ _ (by omega)
  have hSL2_before : ∀ k, k ≤ i → getStop SL2 k = getStop SL k := by
    intro k hk
    rw [hSL2, hd1, getStop_decomp_before _ _ _ _ _ (by omega) (by omega)]
    rw [hSL1, getStop, getStop, getD_mapWithIndexFrom _ _ _ _ _ (by omega)]
    simp [Nat.not_le.mpr (by omega : k < i + 1)]
  have hSL2_mid : ∀ k, i + 1 ≤ k → k ≤ j →
      eraseEat (getStop SL2 (k + 1)) =
        eraseEat { getStop SL k with
          occupancy_after_servicing := (getStop SL k).occupancy_after_servicing + 1 } := by
    intro k hk1 hk2
    rw [hSL2, hd1, getStop_decomp_after _ _ _ _ _ (by omega) (by omega)]
    rw [getStop, propagateConstantDelta_eraseEat, getD_drop_add]
    have hidx : i + 1 + (k + 1 - (i + 1) - 1) = k := by omega
    rw [hidx]
    rw [hSL1, getD_mapWithIndexFrom _ _ _ _ _ (by omega), Nat.zero_add]
    rw [if_pos ⟨by omega, hk2⟩]
    rfl
  have hSL2_late : ∀ k, j < k → k < SL.length →
      eraseEat (getStop SL2 (k + 1)) = eraseEat (getStop SL k) := by
    intro k hk1 hk2
    rw [hSL2, hd1, getStop_decomp_after _ _ _ _ _ (by omega) (by omega)]
    rw [getStop, propagateConstantDelta_eraseEat, getD_drop_add]
    have hidx : i + 1 + (k + 1 - (i + 1) - 1) = k := by omega
    rw [hidx]
    rw [hSL1, getD_mapWithIndexFrom _ _ _ _ _ (by omega), Nat.zero_add]
    have hno : ¬ (i + 1 ≤ k ∧ k ≤ j) := by omega
    rw [if_neg hno]
    rfl
  -- reading NL
  have hNL_before : ∀ k, k ≤ j + 1 → getStop NL k = getStop SL2 k := by
    intro k hk
    rw [hNL2, hd2, getStop_decomp_before _ _ _ _ _ (by omega) (by omega)]
  refine ⟨?_, ?_, ?_, ?_, ?_, ?_⟩
  · rw [hNL2, length_insert_stop _ _ _ _ (by omega), hlen2]
  · rw [hNL_before (i + 1) (by omega), hSL2_at, hSL1i, cpat_zero, hpu]
  · intro k hk
    rw [hNL_before k (by omega)]
    exact hSL2_before k hk
  · intro k hk1 hk2
    rw [hNL_before (k + 1) (by omega)]
    exact hSL2_mid k hk1 hk2
  · intro k hk1 hk2
    rw [hNL2, hd2, getStop_decomp_after _ _ _ _ _ (by omega) (by omega)]
    rw [getStop, propagateConstantDelta_eraseEat, getD_drop_add]
    have hidx : j + 1 + 1 + (k + 2 - (j + 1 + 1) - 1) = k + 1 := by omega
    rw [hidx]
    exact hSL2_late k hk1 hk2
  · rw [hNL_before (j + 1) (by omega), hNL2, hd2,
      getStop_decomp_at _ _ _ _ (by omega)]
    simp [hdro, cpat_zero]
end InsertStructure

/-- C2: whenever the brute-force dispatcher finds a feasible best pair
`(i, j)` (its final minimum is finite), the stoplist it returns is the input
with exactly the pickup stop inserted at `i + 1` (occupancy of stop `i` plus
one, arrival drive-first from stop `i`) and the dropoff stop at `j + 2`
(arrival drive-first from its new predecessor, occupancy of the predecessor
with the dropped passenger no longer counted), the occupancy of every stop
strictly between them raised by one, and all other stops unchanged apart
from re-propagated arrival times. -/
theorem C2_dispatcher_new_stoplist {Loc : Type} [Inhabited Loc] (τ : Loc → Loc → ℚ)
    (R : TransportationRequest Loc) (SL : List (Stop Loc)) (cap : ℤ) (c : ℚ)
    (hfin : (outerLoop τ R SL cap 0 ⟨ETime.inf, 0, 0⟩).min_cost = ETime.fin c) :
    ∀ i j NL, i = (outerLoop τ R SL cap 0 ⟨ETime.inf, 0, 0⟩).best_pickup →
      j = (outerLoop τ R SL cap 0 ⟨ETime.inf, 0, 0⟩).best_dropoff →
      NL = (brute_force_total_traveltime_minimizing_dispatcher τ R SL cap).new_stoplist →
      i ≤ j ∧ j < SL.length ∧
      NL = insert_request_to_stoplist_drive_first τ SL R i j ∧
      insertionStructureSpec τ SL R i j NL := by
  intro i j NL hi hj hNL
  have hvalid : bfValid SL.length (outerLoop τ R SL cap 0 ⟨ETime.inf, 0, 0⟩) :=
    outerLoop_valid τ R SL cap _ 0 _ rfl (fun h => absurd rfl h)
  have hb := hvalid (by rw [hfin]; exact fun h => ETime.noConfusion h)
  have hij : i ≤ j := by rw [hi, hj]; exact hb.1
  have hjn : j < SL.length := by rw [hj]; exact hb.2
  have hNL2 : NL = insert_request_to_stoplist_drive_first τ SL R i j := by
    rw [hNL, brute_force_total_traveltime_minimizing_dispatcher]
    simp only [hfin]
    rw [hi, hj]
  exact ⟨hij, hjn, hNL2,
    insert_request_structure τ SL R i j hij hjn NL hNL2⟩

theorem outerLoop_stop {Loc : Type} [Inhabited Loc] (τ : Loc → Loc → ℚ)
    (R : TransportationRequest Loc) (SL : List (Stop Loc)) (cap : ℤ)
    (i : ℕ) (st : BFState) (h : ¬ i < SL.length) :
    outerLoop τ R SL cap i st = st := by
  rw [outerLoop]
  simp only [dif_neg h]

theorem innerLoop_stop {Loc : Type} [Inhabited Loc] (τ : Loc → Loc → ℚ)
    (R : TransportationRequest Loc) (SL : List (Stop Loc)) (cap : ℤ)
    (i : ℕ) (pc : ℚ) (j : ℕ) (δ : ℚ) (st : BFState) (h : ¬ j < SL.length) :
    innerLoop τ R SL cap i pc j δ st = st := by
  rw [innerLoop]
  simp only [dif_neg h]

theorem exScenario1_outerLoop_eval :
    (outerLoop exTau1 exReq1 [exCpe] 4 0 ⟨ETime.inf, 0, 0⟩) = ⟨ETime.fin 10, 0, 0⟩ := by
  rw [outerLoop]
  norm_num [getStop, cpat_of_inserted_stop,
    time_to_stop_after_insertion, time_from_current_stop_to_next,
    is_timewindow_violated_dueto_insertion, ETime.qbgt, ETime.qblt,
    Stop.estimated_departure_time, exTau1, exReq1, exCpe,
    outerLoop_stop, innerLoop_stop]

/-- C2, witness: the dispatcher on the one-vehicle scenario (empty plan,
request `1 → 2`) finds the pair `(0, 0)` at cost `10` and the returned
stoplist has the claimed structure. -/
theorem C2_witness :
    (outerLoop exTau1 exReq1 [exCpe] 4 0 ⟨ETime.inf, 0, 0⟩).min_cost = ETime.fin 10 ∧
    ((0 : ℕ) ≤ 0 ∧ 0 < ([exCpe] : List (Stop ℕ)).length ∧
      (brute_force_total_traveltime_minimizing_dispatcher exTau1 exReq1 [exCpe] 4).new_stoplist =
        insert_request_to_stoplist_drive_first exTau1 [exCpe] exReq1 0 0 ∧
      insertionStructureSpec exTau1 [exCpe] exReq1 0 0
        (brute_force_total_traveltime_minimizing_dispatcher exTau1 exReq1 [exCpe] 4).new_stoplist) := by
  have hmin : (outerLoop exTau1 exReq1 [exCpe] 4 0 ⟨ETime.inf, 0, 0⟩).min_cost = ETime.fin 10 := by
    rw [exScenario1_outerLoop_eval]
  exact ⟨hmin, C2_dispatcher_new_stoplist exTau1 exReq1 [exCpe] 4 10 hmin 0 0 _
    (by rw [exScenario1_outerLoop_eval]) (by rw [exScenario1_outerLoop_eval]) rfl⟩

theorem bf_infeasible_nil {Loc : Type} [Inhabited Loc] (τ : Loc → Loc → ℚ)
    (R : TransportationRequest Loc) (SL : List (Stop Loc)) (cap : ℤ)
    (hinf : (brute_force_total_traveltime_minimizing_dispatcher τ R SL cap).min_cost = ETime.inf) :
    (brute_force_total_traveltime_minimizing_dispatcher τ R SL cap).new_stoplist = [] := by
  have hm : (outerLoop τ R SL cap 0 ⟨ETime.inf, 0, 0⟩).min_cost = ETime.inf := by
    rw [brute_force_total_traveltime_minimizing_dispatcher] at hinf
    split at hinf
    · simp at hinf
    · next heq => exact heq
  rw [brute_force_total_traveltime_minimizing_dispatcher]
  split
  · next c heq =>
    rw [hm] at heq
    exact absurd heq (by simp)
  · rfl

/-- C10: when the dispatcher finds no feasible insertion (infinite
minimum cost), its returned stoplist is empty, the vehicle handler still
overwrites the proposed stoplist with that empty list, and a subsequent
`select_new_stoplist` leaves the vehicle with an empty stoplist — no CPE
head stop (length zero). -/
theorem C10_infeasible_proposal {Loc : Type} [Inhabited Loc] (τ : Loc → Loc → ℚ)
    (vs : VehicleState Loc) (R : TransportationRequest Loc)
    (hinf : (brute_force_total_traveltime_minimizing_dispatcher τ R vs.stoplist
        vs.seat_capacity).min_cost = ETime.inf) :
    (brute_force_total_traveltime_minimizing_dispatcher τ R vs.stoplist
        vs.seat_capacity).new_stoplist = [] ∧
    (VehicleState.handle_transportation_request_single_vehicle
        (brute_force_total_traveltime_minimizing_dispatcher τ) vs R).1.stoplist_new = [] ∧
    (VehicleState.select_new_stoplist
        (VehicleState.handle_transportation_request_single_vehicle
          (brute_force_total_traveltime_minimizing_dispatcher τ) vs R).1).stoplist = [] := by
  have hnil := bf_infeasible_nil τ R vs.stoplist vs.seat_capacity hinf
  refine ⟨hnil, ?_, ?_⟩ <;>
    simp [VehicleState.handle_transportation_request_single_vehicle,
      VehicleState.select_new_stoplist, hnil]

theorem exZeroCap_outerLoop_eval :
    (outerLoop exTau1 exReq1 [exCpe] 0 0 ⟨ETime.inf, 0, 0⟩) = ⟨ETime.inf, 0, 0⟩ := by
  rw [outerLoop]
  norm_num [getStop, exCpe, outerLoop_stop]

/-- C10, witness: a vehicle of seat capacity `0` can never accept the
request, the dispatcher is infeasible on it, and committing in that state
empties the stoplist. -/
theorem C10_witness :
    (brute_force_total_traveltime_minimizing_dispatcher exTau1 exReq1
        (VehicleState.mk 3 [exCpe] [] 0).stoplist
        (VehicleState.mk 3 [exCpe] [] 0).seat_capacity).min_cost = ETime.inf ∧
    ((brute_force_total_traveltime_minimizing_dispatcher exTau1 exReq1
        (VehicleState.mk 3 [exCpe] [] 0).stoplist
        (VehicleState.mk 3 [exCpe] [] 0).seat_capacity).new_stoplist = [] ∧
      (VehicleState.handle_transportation_request_single_vehicle
        (brute_force_total_traveltime_minimizing_dispatcher exTau1)
        (VehicleState.mk 3 [exCpe] [] 0) exReq1).1.stoplist_new = [] ∧
      (VehicleState.select_new_stoplist
        (VehicleState.handle_transportation_request_single_vehicle
          (brute_force_total_traveltime_minimizing_dispatcher exTau1)
          (VehicleState.mk 3 [exCpe] [] 0) exReq1).1).stoplist = []) := by
  have hmin : (brute_force_total_traveltime_minimizing_dispatcher exTau1 exReq1
      (VehicleState.mk 3 [exCpe] [] 0).stoplist
      (VehicleState.mk 3 [exCpe] [] 0).seat_capacity).min_cost = ETime.inf := by
    rw [brute_force_total_traveltime_minimizing_dispatcher]
    simp only [exZeroCap_outerLoop_eval]
  exact ⟨hmin, C10_infeasible_proposal exTau1 (VehicleState.mk 3 [exCpe] [] 0) exReq1 hmin⟩

/-- C3: the claim fails on the code — `insert_stop_to_stoplist_drive_first`
re-declares `delta_cpat_next_stop` with `auto` inside its update loop,
shadowing the outer variable, so the delay added to later stops never
shrinks.  Inserting the stop at location `3` (2 time units away) after the
head delays the middle stop by `2` (arrival `1 → 3`); one unit of that delay
is absorbed by the wait until the window opening `2`, so drive-first
propagation — as the claim and the spec describe — would put the last stop
at `max(3, 2) + 1 = 4`; the code instead adds the full delay `2` to it,
arrival `3 → 5`, violating the drive-first equality
`EAT = max(prev.EAT, prev.tw_min) + τ`. -/
theorem C3_code_bug :
    insert_stop_to_stoplist_drive_first exTauC3 [exT0, exTA, exTB] exTX 0 =
      [exT0,
       { exTX with estimated_arrival_time := 2 },
       { exTA with estimated_arrival_time := 3 },
       { exTB with estimated_arrival_time := 5 }] ∧
    Stop.estimated_departure_time { exTA with estimated_arrival_time := 3 } + exTauC3 1 2 = 4 ∧
    (5 : ℚ) ≠ 4 := by
  refine ⟨?_, ?_, by norm_num⟩
  · norm_num [insert_stop_to_stoplist_drive_first, propagateConstantDelta, getStop,
      cpat_of_inserted_stop, Stop.estimated_departure_time, exTauC3, exT0, exTA, exTB, exTX,
      List.getD]
  · norm_num [Stop.estimated_departure_time, exTA, exTauC3]

theorem chain_le_of_head {α : Type} (f : α → ℚ) :
    ∀ (x : α) (xs : List α), List.Chain' (fun a b => f a ≤ f b) (x :: xs) →
      ∀ b ∈ xs, f x ≤ f b := by
  intro x xs
  induction xs generalizing x with
  | nil => intro _ b hb; simp at hb
  | cons y ys ih =>
    intro hch b hb
    have hxy : f x ≤ f y := List.chain'_cons.1 hch |>.1
    rcases List.mem_cons.1 hb with rfl | hb2
    · exact hxy
    · exact hxy.trans (ih y (List.chain'_cons.1 hch).2 b hb2)

theorem filter_eq_takeWhile_of_chain {α : Type} (f : α → ℚ) (t : ℚ) :
    ∀ l : List α, List.Chain' (fun a b => f a ≤ f b) l →
      l.filter (fun s => decide (f s ≤ t)) = l.takeWhile (fun s => decide (f s ≤ t)) ∧
      l.filter (fun s => ! decide (f s ≤ t)) = l.dropWhile (fun s => decide (f s ≤ t)) := by
  intro l
  induction l with
  | nil => intro _; exact ⟨rfl, rfl⟩
  | cons x xs ih =>
    intro hch
    have htail := (List.chain'_cons'.1 hch).2
    by_cases hx : f x ≤ t
    · refine ⟨?_, ?_⟩ <;>
        simp [List.filter_cons, List.takeWhile_cons, List.dropWhile_cons, hx,
          (ih htail).1, (ih htail).2]
    · have hall : ∀ b ∈ xs, ¬ f b ≤ t := by
        intro b hb hbt
        exact hx ((chain_le_of_head f x xs hch b hb).trans hbt)
      have hnil : xs.filter (fun s => decide (f s ≤ t)) = [] := by
        rw [List.filter_eq_nil]
        intro b hb
        simpa using hall b hb
      have hself : xs.filter (fun s => ! decide (f s ≤ t)) = xs := by
        rw [List.filter_eq_self]
        intro b hb
        simpa using hall b hb
      refine ⟨?_, ?_⟩ <;>
        simp [List.filter_cons, List.takeWhile_cons, List.dropWhile_cons, hx, hnil, hself]

theorem service_time_chain {Loc : Type} (τ : Loc → Loc → ℚ) (hτ : ∀ a b, 0 ≤ τ a b)
    (SL : List (Stop Loc)) (h : driveFirstChain τ SL) :
    List.Chain' (fun a b => service_time a ≤ service_time b) SL := by
  refine h.imp ?_
  intro a b hab
  have h1 : service_time a ≤ b.estimated_arrival_time := by
    rw [hab]
    have := hτ a.location b.location
    simp only [service_time]
    linarith [le_max_left a.estimated_arrival_time a.time_window_min]
  exact h1.trans (le_max_left _ _)

/-- C4: on a stoplist obeying the drive-first invariant (which makes the
service times monotone along the list) with the head arrival not in the
future, `fast_forward_time t` emits one event per serviceable stop — exactly
the maximal serviceable prefix of the tail, in list order, with timestamp
`max(EAT, tw_min)` — removes those stops, and relocates the head: if a stop
remains, location and arrival come from
`interp_time(last_serviced.location, next.location, next.EAT - t)` with
arrival `t` plus the residual; otherwise the head sits at the last serviced
location with arrival `t` (the head itself when nothing was serviced). -/
theorem C4_fast_forward_time {Loc : Type} [Inhabited Loc]
    (interp : Loc → Loc → ℚ → Loc × ℚ) (τ : Loc → Loc → ℚ)
    (vs : VehicleState Loc) (t : ℚ) (cpe : Stop Loc) (rest : List (Stop Loc))
    (hSL : vs.stoplist = cpe :: rest)
    (hτ : ∀ a b, 0 ≤ τ a b)
    (hchain : driveFirstChain τ (cpe :: rest))
    (hcpe : cpe.estimated_arrival_time ≤ t) :
    VehicleState.fast_forward_time interp vs t =
      (let p : Stop Loc → Bool := fun s => decide (service_time s ≤ t)
       let serviced := rest.takeWhile p
       let remaining := rest.dropWhile p
       let last_stop := serviced.getLast?.getD cpe
       ({ vs with stoplist :=
           (match remaining with
            | s1 :: _ =>
              { cpe with
                occupancy_after_servicing := last_stop.occupancy_after_servicing,
                location := (interp last_stop.location s1.location
                  (s1.estimated_arrival_time - t)).1,
                estimated_arrival_time := t + (interp last_stop.location s1.location
                  (s1.estimated_arrival_time - t)).2 }
            | [] =>
              { cpe with
                occupancy_after_servicing := last_stop.occupancy_after_servicing,
                location := last_stop.location,
                estimated_arrival_time := t }) :: remaining },
        serviced.map (fun s => StopEventSpec.mk s.action s.request_id vs.vehicle_id
          (service_time s)))) ∧
    rest.takeWhile (fun s => decide (service_time s ≤ t)) =
      rest.filter (fun s => decide (service_time s ≤ t)) := by
  have hsvc := service_time_chain τ hτ _ hchain
  have hrest : List.Chain' (fun a b => service_time a ≤ service_time b) rest := hsvc.tail
  obtain ⟨hft, hfd⟩ := filter_eq_takeWhile_of_chain service_time t rest hrest
  refine ⟨?_, hft.symm⟩
  simp only [VehicleState.fast_forward_time, hSL]
  rw [hft, hfd]
  rw [if_pos (show ({ cpe with occupancy_after_servicing :=
      ((rest.takeWhile (fun s => decide (service_time s ≤ t))).getLast?.getD
        cpe).occupancy_after_servicing } : Stop Loc).estimated_arrival_time ≤ t from hcpe)]

/-- C4, witness: fast-forwarding the example vehicle to `t = 2` services
exactly the pickup, keeps the dropoff, and relocates the head between
them. -/
theorem C4_witness :
    (∀ a b, 0 ≤ exTauFF a b) ∧
    driveFirstChain exTauFF [exFFCpe, exFFP, exFFD] ∧
    exFFCpe.estimated_arrival_time ≤ 2 ∧
    (VehicleState.fast_forward_time exInterp (VehicleState.mk 11 [exFFCpe, exFFP, exFFD] [] 4) 2 =
      (let p : Stop ℕ → Bool := fun s => decide (service_time s ≤ 2)
       let serviced := [exFFP, exFFD].takeWhile p
       let remaining := [exFFP, exFFD].dropWhile p
       let last_stop := serviced.getLast?.getD exFFCpe
       ({ VehicleState.mk 11 [exFFCpe, exFFP, exFFD] [] 4 with stoplist :=
           (match remaining with
            | s1 :: _ =>
              { exFFCpe with
                occupancy_after_servicing := last_stop.occupancy_after_servicing,
                location := (exInterp last_stop.location s1.location
                  (s1.estimated_arrival_time - 2)).1,
                estimated_arrival_time := 2 + (exInterp last_stop.location s1.location
                  (s1.estimated_arrival_time - 2)).2 }
            | [] =>
              { exFFCpe with
                occupancy_after_servicing := last_stop.occupancy_after_servicing,
                location := last_stop.location,
                estimated_arrival_time := 2 }) :: remaining },
        serviced.map (fun s => StopEventSpec.mk s.action s.request_id 11 (service_time s)))) ∧
     [exFFP, exFFD].takeWhile (fun s => decide (service_time s ≤ 2)) =
       [exFFP, exFFD].filter (fun s => decide (service_time s ≤ 2))) := by
  have hτ : ∀ a b, 0 ≤ exTauFF a b := by
    intro a b
    rw [exTauFF.eq_def]
    split <;> norm_num
  have hchain : driveFirstChain exTauFF [exFFCpe, exFFP, exFFD] := by
    norm_num [driveFirstChain, List.chain'_cons, exFFCpe, exFFP, exFFD, exTauFF]
  have hcpe : exFFCpe.estimated_arrival_time ≤ 2 := by
    norm_num [exFFCpe]
  exact ⟨hτ, hchain, hcpe,
    C4_fast_forward_time exInterp exTauFF (VehicleState.mk 11 [exFFCpe, exFFP, exFFD] [] 4) 2
      exFFCpe [exFFP, exFFD] rfl hτ hchain hcpe⟩

theorem ETime.blt_iff (a b : ETime) : ETime.blt a b = true ↔ a.toW < b.toW := by
  cases a <;> cases b <;>
    simp [ETime.blt, ETime.toW, WithTop.coe_lt_coe, WithTop.coe_lt_top]

theorem ETime.blt_false_iff (a b : ETime) : ETime.blt a b = false ↔ b.toW ≤ a.toW := by
  cases a <;> cases b <;>
    simp [ETime.blt, ETime.toW, not_lt, WithTop.coe_le_coe, WithTop.le_coe_iff]

theorem ETime.toW_inf_iff (a : ETime) : a = ETime.inf ↔ a.toW = ⊤ := by
  cases a <;> simp [ETime.toW]

theorem minFold_spec :
    ∀ (xs : List CppSingleVehicleSolution) (k : ℕ) (acc : ETime × ℤ),
      (((xs.enumFrom k).foldl minStep acc = acc ∨
        ∃ m, m < xs.length ∧ ((xs.enumFrom k).foldl minStep acc).2 = ((k + m : ℕ) : ℤ) ∧
          ((xs.enumFrom k).foldl minStep acc).1 =
            (xs.getD m ⟨-1, ETime.inf, (ETime.inf, ETime.inf), (ETime.inf, ETime.inf)⟩).min_cost) ∧
       ((xs.enumFrom k).foldl minStep acc).1.toW ≤ acc.1.toW ∧
       (∀ s ∈ xs, ((xs.enumFrom k).foldl minStep acc).1.toW ≤ s.min_cost.toW)) := by
  intro xs
  induction xs with
  | nil =>
    intro k acc
    exact ⟨Or.inl rfl, le_refl _, by intro s hs; simp at hs⟩
  | cons x xs ih =>
    intro k acc
    have hstep : (x :: xs).enumFrom k = (k, x) :: xs.enumFrom (k + 1) := rfl
    rw [hstep, List.foldl_cons]
    obtain ⟨ha, hb, hc⟩ := ih (k + 1) (minStep acc (k, x))
    have hacc' : (minStep acc (k, x)).1.toW ≤ acc.1.toW := by
      rw [minStep]
      split
      · next h => exact le_of_lt ((ETime.blt_iff _ _).1 h)
      · exact le_refl _
    have haccx : (minStep acc (k, x)).1.toW ≤ x.min_cost.toW := by
      rw [minStep]
      split
      · exact le_refl _
      · next h => exact (ETime.blt_false_iff _ _).1 (Bool.eq_false_iff.2 h)
    refine ⟨?_, hb.trans hacc', ?_⟩
    · rcases ha with ha | ⟨m, hm, h2, h1⟩
      · rw [ha]
        rw [minStep]
        split
        · refine Or.inr ⟨0, by simp, ?_, ?_⟩ <;> simp
        · exact Or.inl rfl
      · refine Or.inr ⟨m + 1, by simp only [List.length_cons]; omega, ?_, ?_⟩
        · rw [h2]; congr 1; omega
        · rw [h1]; simp
    · intro s hs
      rcases List.mem_cons.1 hs with rfl | hs2
      · exact hb.trans haccx
      · exact hc s hs2

theorem handleFold_spec {Loc : Type} [Inhabited Loc]
    (dispatch : TransportationRequest Loc → List (Stop Loc) → ℤ → CppInsertionResult Loc)
    (request : TransportationRequest Loc) :
    ∀ (vs : List (CppVehicleState Loc)) (acc1 : List (CppVehicleState Loc))
      (acc2 : List CppSingleVehicleSolution),
      vs.foldl (fun acc v =>
        let p := CppVehicleState.handle_transportation_request_single_vehicle dispatch v request
        (acc.1 ++ [p.1], acc.2 ++ [p.2])) (acc1, acc2) =
      (acc1 ++ vs.map (fun v =>
          { v with stoplist_new := (dispatch request v.stoplist v.seat_capacity).new_stoplist }),
       acc2 ++ vs.map (fun v =>
          ⟨v.vehicle_id, (dispatch request v.stoplist v.seat_capacity).min_cost,
           (dispatch request v.stoplist v.seat_capacity).pickup_window,
           (dispatch request v.stoplist v.seat_capacity).dropoff_window⟩)) := by
  intro vs
  induction vs with
  | nil => intro acc1 acc2; simp
  | cons v vs ih =>
    intro acc1 acc2
    rw [List.foldl_cons, ih]
    simp [CppVehicleState.handle_transportation_request_single_vehicle]

theorem submit_nontrivial_eq {Loc : Type} [Inhabited Loc] [DecidableEq Loc]
    (dispatch : TransportationRequest Loc → List (Stop Loc) → ℤ → CppInsertionResult Loc)
    (fs : FleetState Loc) (R : TransportationRequest Loc)
    (hne : ¬ R.origin = R.destination) :
    FleetState.submit_transportation_request dispatch fs R =
      (let vehicles2 := fs.vehicles.map (fun v =>
        { v with stoplist_new := (dispatch R v.stoplist v.seat_capacity).new_stoplist })
       let sols := fs.vehicles.map (fun v =>
        (⟨v.vehicle_id, (dispatch R v.stoplist v.seat_capacity).min_cost,
          (dispatch R v.stoplist v.seat_capacity).pickup_window,
          (dispatch R v.stoplist v.seat_capacity).dropoff_window⟩ : CppSingleVehicleSolution))
       let m := (sols.enumFrom 0).foldl minStep (ETime.inf, -1)
       if m.1 = ETime.inf then
        ({ fs with vehicles := vehicles2 },
         ⟨EventType.REQUESTREJECTION_EVENT, R.creation_timestamp, R.request_id⟩)
       else
        ({ fs with
            vehicles := vehicles2
            last_request_id := R.request_id
            last_request_creation := R.creation_timestamp
            last_request_optimal_vehicle := m.2 },
         ⟨EventType.REQUESTOFFERING_EVENT, R.creation_timestamp, R.request_id⟩)) := by
  rw [FleetState.submit_transportation_request, if_neg hne,
    handleFold_spec dispatch R fs.vehicles [] []]
  simp only [List.nil_append]
  rfl

/-- C6: `submit_transportation_request` rejects trivial requests (equal
origin and destination) leaving the state untouched; rejects — without
recording a pending offer — when every per-vehicle quote is infeasible
(`min_cost = INFINITY`); and otherwise records the pending offer for the
request, choosing a vehicle of minimal quoted cost (the first such), and
returns an offer event for the request. -/
theorem C6_submit {Loc : Type} [Inhabited Loc] [DecidableEq Loc]
    (dispatch : TransportationRequest Loc → List (Stop Loc) → ℤ → CppInsertionResult Loc)
    (fs : FleetState Loc) (R : TransportationRequest Loc) :
    (R.origin = R.destination →
      FleetState.submit_transportation_request dispatch fs R =
        (fs, ⟨EventType.REQUESTREJECTION_EVENT, R.creation_timestamp, R.request_id⟩)) ∧
    (R.origin ≠ R.destination →
      (∀ v ∈ fs.vehicles, (dispatch R v.stoplist v.seat_capacity).min_cost = ETime.inf) →
      (FleetState.submit_transportation_request dispatch fs R).2.etype =
          EventType.REQUESTREJECTION_EVENT ∧
        (FleetState.submit_transportation_request dispatch fs R).1.last_request_id =
          fs.last_request_id) ∧
    (R.origin ≠ R.destination →
      ∀ v0 ∈ fs.vehicles, (dispatch R v0.stoplist v0.seat_capacity).min_cost ≠ ETime.inf →
      (FleetState.submit_transportation_request dispatch fs R).2.etype =
          EventType.REQUESTOFFERING_EVENT ∧
        (FleetState.submit_transportation_request dispatch fs R).2.requestId = R.request_id ∧
        (FleetState.submit_transportation_request dispatch fs R).1.last_request_id =
          R.request_id ∧
        ∃ k : ℕ, k < fs.vehicles.length ∧
          (FleetState.submit_transportation_request dispatch fs R).1.last_request_optimal_vehicle
            = (k : ℤ) ∧
          ∀ v ∈ fs.vehicles,
            (dispatch R (fs.vehicles.getD k default).stoplist
                (fs.vehicles.getD k default).seat_capacity).min_cost.toW ≤
              (dispatch R v.stoplist v.seat_capacity).min_cost.toW) := by
  set sols := fs.vehicles.map (fun v =>
    (⟨v.vehicle_id, (dispatch R v.stoplist v.seat_capacity).min_cost,
      (dispatch R v.stoplist v.seat_capacity).pickup_window,
      (dispatch R v.stoplist v.seat_capacity).dropoff_window⟩ : CppSingleVehicleSolution))
    with hsols
  have hsolsD : ∀ m, m < fs.vehicles.length →
      (sols.getD m ⟨-1, ETime.inf, (ETime.inf, ETime.inf), (ETime.inf, ETime.inf)⟩).min_cost =
        (dispatch R (fs.vehicles.getD m default).stoplist
          (fs.vehicles.getD m default).seat_capacity).min_cost := by
    intro m hm
    have hm2 : m < sols.length := by rw [hsols]; simpa using hm
    rw [List.getD_eq_getElem _ _ hm2, List.getD_eq_getElem _ _ hm]
    simp only [hsols, List.getElem_map]
  refine ⟨?_, ?_, ?_⟩
  · intro htriv
    rw [FleetState.submit_transportation_request, if_pos htriv]
  · intro hne hall
    have hmin := minFold_spec sols 0 (ETime.inf, -1)
    have hinf : ((sols.enumFrom 0).foldl minStep (ETime.inf, -1)).1 = ETime.inf := by
      rcases hmin.1 with h | ⟨m, hm, _, h1⟩
      · rw [h]
      · have hmlen : m < fs.vehicles.length := by
          rw [hsols] at hm; simpa using hm
        rw [h1, hsolsD m hmlen]
        refine hall _ ?_
        rw [List.getD_eq_getElem _ _ hmlen]
        exact List.getElem_mem _
    rw [submit_nontrivial_eq dispatch fs R hne]
    simp only [← hsols, hinf, if_pos]
    exact ⟨trivial, trivial⟩
  · intro hne v0 hv0 hv0ne
    have hmin := minFold_spec sols 0 (ETime.inf, -1)
    have hle : ((sols.enumFrom 0).foldl minStep (ETime.inf, -1)).1.toW ≤
        (dispatch R v0.stoplist v0.seat_capacity).min_cost.toW := by
      refine hmin.2.2 (⟨v0.vehicle_id, (dispatch R v0.stoplist v0.seat_capacity).min_cost,
        (dispatch R v0.stoplist v0.seat_capacity).pickup_window,
        (dispatch R v0.stoplist v0.seat_capacity).dropoff_window⟩ :
          CppSingleVehicleSolution) ?_
      rw [hsols]
      exact List.mem_map.2 ⟨v0, hv0, rfl⟩
    have hninf : ¬ ((sols.enumFrom 0).foldl minStep (ETime.inf, -1)).1 = ETime.inf := by
      intro h
      rw [h] at hle
      have : (dispatch R v0.stoplist v0.seat_capacity).min_cost = ETime.inf := by
        rw [ETime.toW_inf_iff]
        exact top_le_iff.1 hle
      exact hv0ne this
    rcases hmin.1 with h | ⟨m, hm, h2, h1⟩
    · rw [h] at hninf
      exact absurd rfl hninf
    · have hmlen : m < fs.vehicles.length := by
        rw [hsols] at hm; simpa using hm
      rw [submit_nontrivial_eq dispatch fs R hne]
      simp only [← hsols, if_neg hninf]
      refine ⟨trivial, trivial, trivial, m, hmlen, ?_, ?_⟩
      · rw [h2]; simp
      · intro v hv
        have h3 : ((sols.enumFrom 0).foldl minStep (ETime.inf, -1)).1.toW ≤
            (dispatch R v.stoplist v.seat_capacity).min_cost.toW := by
          refine hmin.2.2 (⟨v.vehicle_id, (dispatch R v.stoplist v.seat_capacity).min_cost,
            (dispatch R v.stoplist v.seat_capacity).pickup_window,
            (dispatch R v.stoplist v.seat_capacity).dropoff_window⟩ :
              CppSingleVehicleSolution) ?_
          rw [hsols]
          exact List.mem_map.2 ⟨v, hv, rfl⟩
        rw [← hsolsD m hmlen, ← h1]
        exact h3

theorem C6_witness :
    exC6Req.origin ≠ exC6Req.destination ∧
    ((FleetState.submit_transportation_request exC6Dispatch exC6Fleet exC6Req).2.etype =
        EventType.REQUESTOFFERING_EVENT ∧
      (FleetState.submit_transportation_request exC6Dispatch exC6Fleet exC6Req).2.requestId =
        exC6Req.request_id ∧
      (FleetState.submit_transportation_request exC6Dispatch exC6Fleet exC6Req).1.last_request_id =
        exC6Req.request_id ∧
      ∃ k : ℕ, k < exC6Fleet.vehicles.length ∧
        (FleetState.submit_transportation_request
            exC6Dispatch exC6Fleet exC6Req).1.last_request_optimal_vehicle = (k : ℤ) ∧
        ∀ v ∈ exC6Fleet.vehicles,
          (exC6Dispatch exC6Req (exC6Fleet.vehicles.getD k default).stoplist
              (exC6Fleet.vehicles.getD k default).seat_capacity).min_cost.toW ≤
            (exC6Dispatch exC6Req v.stoplist v.seat_capacity).min_cost.toW) :=
  ⟨by decide,
   (C6_submit exC6Dispatch exC6Fleet exC6Req).2.2 (by decide) exC6Veh
     (by simp [exC6Fleet]) (by decide)⟩

theorem updateAt_length {Loc : Type} (f : CppVehicleState Loc → CppVehicleState Loc) :
    ∀ (n : ℕ) (l : List (CppVehicleState Loc)), (updateAt f n l).length = l.length := by
  intro n l
  induction l generalizing n with
  | nil => simp [updateAt]
  | cons v rest ih =>
    cases n with
    | zero => rfl
    | succ k => simp [updateAt, ih]

theorem updateAt_getD_self {Loc : Type} (f : CppVehicleState Loc → CppVehicleState Loc)
    (d : CppVehicleState Loc) :
    ∀ (l : List (CppVehicleState Loc)) (n : ℕ), n < l.length →
      (updateAt f n l).getD n d = f (l.getD n d) := by
  intro l
  induction l with
  | nil => intro n h; simp at h
  | cons v rest ih =>
    intro n h
    cases n with
    | zero => rfl
    | succ k =>
      have hk : k < rest.length := by simp only [List.length_cons] at h; omega
      simpa [updateAt, List.getD_cons_succ] using ih k hk

theorem updateAt_getD_ne {Loc : Type} (f : CppVehicleState Loc → CppVehicleState Loc)
    (d : CppVehicleState Loc) :
    ∀ (l : List (CppVehicleState Loc)) (n m : ℕ), m ≠ n →
      (updateAt f n l).getD m d = l.getD m d := by
  intro l
  induction l with
  | nil => intro n m h; simp [updateAt]
  | cons v rest ih =>
    intro n m hmn
    cases n with
    | zero =>
      cases m with
      | zero => exact absurd rfl hmn
      | succ j => simp [updateAt, List.getD_cons_succ]
    | succ k =>
      cases m with
      | zero => rfl
      | succ j =>
        simp only [updateAt, List.getD_cons_succ]
        exact ih k j (by omega)

/-- C5: `execute_transportation_request` rejects when the pending offer is
empty (`request_id = -1`, in particular after a `fast_forward`) or does not
match, leaving the state untouched; on a match it swaps the proposed
stoplist in on exactly the chosen vehicle via `select_new_stoplist` and
clears the pending offer — but, against the claim, the returned event is a
`REQUESTOFFERING_EVENT` (the C++ `EventType` has no acceptance variant) and
it is built from `m_last_request` AFTER the reset, so it carries request id
`-1`, never the accepted request's id. -/
theorem C5_code_bug {Loc : Type} [Inhabited Loc] (fs : FleetState Loc) (rid : ℤ) :
    (fs.last_request_id = -1 →
      FleetState.execute_transportation_request fs rid =
        (fs, ⟨EventType.REQUESTREJECTION_EVENT, fs.last_request_creation,
          fs.last_request_id⟩)) ∧
    (fs.last_request_id ≠ -1 → fs.last_request_id ≠ rid →
      FleetState.execute_transportation_request fs rid =
        (fs, ⟨EventType.REQUESTREJECTION_EVENT, fs.last_request_creation,
          fs.last_request_id⟩)) ∧
    (fs.last_request_id ≠ -1 → fs.last_request_id = rid →
      ((FleetState.execute_transportation_request fs rid).1.vehicles.length =
          fs.vehicles.length ∧
        (∀ k : ℕ, k ≠ fs.last_request_optimal_vehicle.toNat →
          (FleetState.execute_transportation_request fs rid).1.vehicles.getD k default =
            fs.vehicles.getD k default) ∧
        (fs.last_request_optimal_vehicle.toNat < fs.vehicles.length →
          (FleetState.execute_transportation_request fs rid).1.vehicles.getD
              fs.last_request_optimal_vehicle.toNat default =
            CppVehicleState.select_new_stoplist
              (fs.vehicles.getD fs.last_request_optimal_vehicle.toNat default))) ∧
      (FleetState.execute_transportation_request fs rid).1.last_request_id = -1 ∧
      (FleetState.execute_transportation_request fs rid).2 =
        ⟨EventType.REQUESTOFFERING_EVENT, fs.last_request_creation, -1⟩ ∧
      (FleetState.execute_transportation_request fs rid).2.requestId ≠ rid) := by
  refine ⟨?_, ?_, ?_⟩
  · intro h
    rw [FleetState.execute_transportation_request, if_pos h]
  · intro h1 h2
    rw [FleetState.execute_transportation_request, if_neg h1, if_pos h2]
  · intro h1 h2
    rw [FleetState.execute_transportation_request, if_neg h1, if_neg (not_not_intro h2)]
    refine ⟨⟨updateAt_length _ _ _, ?_, ?_⟩, rfl, rfl, ?_⟩
    · intro k hk
      exact updateAt_getD_ne _ _ fs.vehicles _ k hk
    · intro hlt
      exact updateAt_getD_self _ _ fs.vehicles _ hlt
    · intro hc
      apply h1
      rw [h2]
      exact hc.symm

theorem C5_witness :
    exC5Fleet.last_request_id ≠ -1 ∧ exC5Fleet.last_request_id = 7 ∧
    (FleetState.execute_transportation_request exC5Fleet 7).1.last_request_id = -1 ∧
    (FleetState.execute_transportation_request exC5Fleet 7).2 =
      ⟨EventType.REQUESTOFFERING_EVENT, exC5Fleet.last_request_creation, -1⟩ ∧
    (FleetState.execute_transportation_request exC5Fleet 7).2.requestId ≠ 7 :=
  have h := (C5_code_bug exC5Fleet 7).2.2 (by decide) (by decide)
  ⟨by decide, by decide, h.2.1, h.2.2.1, h.2.2.2⟩

/-- C7: the merge in `FleetState::fast_forward` DROPS events.  Each of the
two vehicles emits exactly one `StopEvent`, both at timestamp `1`, yet the
merged list holds only the first vehicle's event: `insertEvent` appends only
when the new timestamp strictly exceeds the last one, and the insertion scan
only inserts before a strictly greater timestamp, so an event whose
timestamp ties the current maximum falls off the end of the scan and is
lost.  (With an empty accumulator the source additionally calls `back()` on
an empty `std::list`, undefined behaviour; the embedding reads it as an
append.) -/
theorem C7_code_bug :
    (CppVehicleState.fast_forward_time exInterp exC7VehA 2).2 =
      [⟨1, StopAction.pickup, 7, 0⟩] ∧
    (CppVehicleState.fast_forward_time exInterp exC7VehB 2).2 =
      [⟨1, StopAction.pickup, 7, 1⟩] ∧
    (FleetState.fast_forward exInterp exC7Fleet 2).2 =
      [⟨1, StopAction.pickup, 7, 0⟩] := by
  have hA : (CppVehicleState.fast_forward_time exInterp exC7VehA 2).2 =
      [⟨1, StopAction.pickup, 7, 0⟩] := by
    norm_num [CppVehicleState.fast_forward_time, exC7VehA, exInterp, exFFCpe, exFFP,
      service_time, List.takeWhile_cons]
  have hB : (CppVehicleState.fast_forward_time exInterp exC7VehB 2).2 =
      [⟨1, StopAction.pickup, 7, 1⟩] := by
    norm_num [CppVehicleState.fast_forward_time, exC7VehB, exInterp, exFFCpe, exFFP,
      service_time, List.takeWhile_cons]
  refine ⟨hA, hB, ?_⟩
  norm_num [FleetState.fast_forward, exC7Fleet, List.foldl, hA, hB, insertEvent,
    insertEventLoop, List.getLast?, exC7VehA, exC7VehB, exFFP, service_time]

theorem deltaStep_mono {Loc : Type} (s : Stop Loc) {d d2 : ℚ} (h : d ≤ d2) :
    deltaStep s d ≤ deltaStep s d2 := by
  unfold deltaStep
  have := max_le_max (add_le_add_left h s.estimated_arrival_time)
    (le_refl s.time_window_min)
  linarith

theorem deltaStep_nonpos {Loc : Type} (s : Stop Loc) {d : ℚ} (h : d ≤ 0) :
    deltaStep s d ≤ 0 := by
  unfold deltaStep Stop.estimated_departure_time
  have : max (s.estimated_arrival_time + d) s.time_window_min ≤
      max s.estimated_arrival_time s.time_window_min := by
    exact max_le_max (by linarith) (le_refl _)
  linarith

theorem deltaAt_mono {Loc : Type} :
    ∀ (m : ℕ) (L : List (Stop Loc)) {d d2 : ℚ}, d ≤ d2 →
      deltaAt L d m ≤ deltaAt L d2 m := by
  intro m
  induction m with
  | zero => intro L d d2 h; simpa [deltaAt] using h
  | succ m ih =>
    intro L d d2 h
    cases L with
    | nil => simpa [deltaAt] using h
    | cons s rest => simpa [deltaAt] using ih rest (deltaStep_mono s h)

theorem deltaAt_nonpos {Loc : Type} :
    ∀ (m : ℕ) (L : List (Stop Loc)) {d : ℚ}, d ≤ 0 → deltaAt L d m ≤ 0 := by
  intro m
  induction m with
  | zero => intro L d h; simpa [deltaAt] using h
  | succ m ih =>
    intro L d h
    cases L with
    | nil => simpa [deltaAt] using h
    | cons s rest => simpa [deltaAt] using ih rest (deltaStep_nonpos s h)

theorem deltaAt_succ {Loc : Type} [Inhabited Loc] :
    ∀ (m : ℕ) (L : List (Stop Loc)) (d : ℚ), m < L.length →
      deltaAt L d (m + 1) = deltaStep (L.getD m default) (deltaAt L d m) := by
  intro m
  induction m with
  | zero =>
    intro L d hm
    cases L with
    | nil => simp at hm
    | cons s rest => simp [deltaAt]
  | succ m ih =>
    intro L d hm
    cases L with
    | nil => simp at hm
    | cons s rest =>
      have hm2 : m < rest.length := by simp only [List.length_cons] at hm; omega
      simp only [deltaAt, List.getD_cons_succ]
      exact ih rest (deltaStep s d) hm2

theorem deltaAt_add {Loc : Type} :
    ∀ (a : ℕ) (L : List (Stop Loc)) (d : ℚ) (b : ℕ),
      deltaAt L d (a + b) = deltaAt (L.drop a) (deltaAt L d a) b := by
  intro a
  induction a with
  | zero => intro L d b; simp [deltaAt]
  | succ a ih =>
    intro L d b
    cases L with
    | nil =>
      have h1 : deltaAt ([] : List (Stop Loc)) d (a + 1 + b) = d := by
        have : a + 1 + b = (a + b) + 1 := by omega
        rw [this]; rfl
      have h2 : deltaAt ([] : List (Stop Loc)) d (a + 1) = d := rfl
      simp [h1, h2, List.drop_nil]
      cases b with
      | zero => rfl
      | succ b => rfl
    | cons s rest =>
      have h1 : a + 1 + b = (a + b) + 1 := by omega
      rw [h1]
      show deltaAt rest (deltaStep s d) (a + b) = _
      rw [ih rest (deltaStep s d) b]
      rfl

theorem ETime.qblt_iff (q : ℚ) (e : ETime) :
    ETime.qblt q e = true ↔ (q : WithTop ℚ) < e.toW := by
  cases e <;> simp [ETime.qblt, ETime.toW, WithTop.coe_lt_coe, WithTop.coe_lt_top]

theorem ETime.qblt_false_iff (q : ℚ) (e : ETime) :
    ETime.qblt q e = false ↔ e.toW ≤ (q : WithTop ℚ) := by
  cases e <;> simp [ETime.qblt, ETime.toW, not_lt, WithTop.coe_le_coe] <;>
    exact fun h => absurd h (by simp [WithTop.le_coe_iff])

theorem finLe_of_le {q q2 : ℚ} {e : ETime} (h : q2 ≤ q) (he : ETime.finLe q e) :
    ETime.finLe q2 e := by
  cases e with
  | fin b => exact le_trans h he
  | inf => trivial

theorem novio_of_nonpos {Loc : Type} [Inhabited Loc] (L : List (Stop Loc))
    (hwin : ∀ s ∈ L, ETime.finLe s.estimated_arrival_time s.time_window_max)
    {d : ℚ} (hd : d ≤ 0) (m : ℕ) (hm : m < L.length) :
    ¬ ETime.qbgt ((L.getD m default).estimated_arrival_time + deltaAt L d m)
        ((L.getD m default).time_window_max) = true := by
  rw [ETime.qbgt_eq_true_iff]
  intro hc
  apply hc
  have hmem : L.getD m default ∈ L := by
    rw [List.getD_eq_getElem _ _ hm]
    exact List.getElem_mem _
  exact finLe_of_le (by have := deltaAt_nonpos m L hd; linarith) (hwin _ hmem)

theorem violationLoop_iff {Loc : Type} [Inhabited Loc] :
    ∀ (L : List (Stop Loc)),
      (∀ s ∈ L, ETime.finLe s.estimated_arrival_time s.time_window_max) →
      ∀ d : ℚ,
      (violationLoop L d = true ↔
        ∃ m < L.length,
          ETime.qbgt ((L.getD m default).estimated_arrival_time + deltaAt L d m)
            ((L.getD m default).time_window_max) = true) := by
  intro L
  induction L with
  | nil => intro _ d; simp [violationLoop]
  | cons s rest ih =>
    intro hwin d
    have hs := hwin s (List.mem_cons_self s rest)
    have hrest : ∀ x ∈ rest, ETime.finLe x.estimated_arrival_time x.time_window_max :=
      fun x hx => hwin x (List.mem_cons_of_mem s hx)
    have hcond : (((s.time_window_max.subQ s.estimated_arrival_time).subQ d).blt
          (ETime.fin 0) &&
        ((s.time_window_max.subQ s.estimated_arrival_time).subQ d).blt
          (s.time_window_max.subQ s.estimated_arrival_time)) = true ↔
        ETime.qbgt (s.estimated_arrival_time + d) s.time_window_max = true := by
      cases htw : s.time_window_max with
      | inf => simp [ETime.subQ, ETime.blt, ETime.qbgt]
      | fin b =>
        rw [htw] at hs
        simp only [ETime.subQ, ETime.blt, ETime.qbgt, Bool.and_eq_true, decide_eq_true_eq]
        constructor
        · rintro ⟨h1, _⟩
          linarith
        · intro h1
          have hd : 0 < d := by
            have : s.estimated_arrival_time ≤ b := hs
            linarith
          constructor <;> linarith
    by_cases hq : ETime.qbgt (s.estimated_arrival_time + d) s.time_window_max = true
    · have hb := hcond.2 hq
      simp only [violationLoop, hb, if_true]
      constructor
      · intro _
        refine ⟨0, by simp, ?_⟩
        simpa [deltaAt] using hq
      · intro _
        trivial
    · have hb : (((s.time_window_max.subQ s.estimated_arrival_time).subQ d).blt
            (ETime.fin 0) &&
          ((s.time_window_max.subQ s.estimated_arrival_time).subQ d).blt
            (s.time_window_max.subQ s.estimated_arrival_time)) = false := by
        cases h2 : (((s.time_window_max.subQ s.estimated_arrival_time).subQ d).blt
            (ETime.fin 0) &&
          ((s.time_window_max.subQ s.estimated_arrival_time).subQ d).blt
            (s.time_window_max.subQ s.estimated_arrival_time)) with
        | false => rfl
        | true => exact absurd (hcond.1 h2) hq
      rw [violationLoop, hb]
      simp only [Bool.false_eq_true, if_false]
      have hrw : (max s.time_window_min (s.estimated_arrival_time + d) -
          max s.time_window_min s.estimated_arrival_time) = deltaStep s d := by
        unfold deltaStep Stop.estimated_departure_time
        rw [max_comm s.time_window_min (s.estimated_arrival_time + d),
          max_comm s.time_window_min s.estimated_arrival_time]
      by_cases h2 : s.estimated_arrival_time + d ≤ s.time_window_min
      · simp only [if_pos h2, Bool.false_eq_true, false_iff, not_exists]
        intro m hmv
        obtain ⟨hm, hv⟩ := hmv
        revert hv
        cases m with
        | zero => exact fun hv => hq (by simpa [deltaAt] using hv)
        | succ m =>
          have hstep : deltaStep s d ≤ 0 := by
            unfold deltaStep Stop.estimated_departure_time
            rw [max_eq_right h2]
            have := le_max_right s.estimated_arrival_time s.time_window_min
            linarith
          have hm2 : m < rest.length := by simpa using hm
          exact fun hv =>
            novio_of_nonpos rest hrest hstep m hm2 (by simpa [deltaAt] using hv)
      · simp only [if_neg h2]
        rw [hrw, ih hrest (deltaStep s d)]
        constructor
        · rintro ⟨m, hm, hv⟩
          exact ⟨m + 1, by simpa using Nat.succ_lt_succ hm, by simpa [deltaAt] using hv⟩
        · rintro ⟨m, hm, hv⟩
          cases m with
          | zero => exact absurd (by simpa [deltaAt] using hv) hq
          | succ m => exact ⟨m, by simpa using hm, by simpa [deltaAt] using hv⟩

theorem violated_iff {Loc : Type} [Inhabited Loc] (SL : List (Stop Loc))
    (hwin : ∀ s ∈ SL, ETime.finLe s.estimated_arrival_time s.time_window_max)
    (idx : ℕ) (cpat : ℚ) :
    is_timewindow_violated_dueto_insertion SL idx cpat = true ↔
      ∃ k, k < SL.length ∧ idx + 1 ≤ k ∧
        ETime.qbgt ((getStop SL k).estimated_arrival_time +
          deltaAt (SL.drop (idx + 1))
            (cpat - (getStop SL (idx + 1)).estimated_arrival_time) (k - (idx + 1)))
          (getStop SL k).time_window_max = true := by
  have hdropwin : ∀ s ∈ SL.drop (idx + 1),
      ETime.finLe s.estimated_arrival_time s.time_window_max :=
    fun s hs => hwin s (List.drop_subset _ _ hs)
  unfold is_timewindow_violated_dueto_insertion
  by_cases hlen : SL.length < idx + 2
  · simp only [if_pos hlen, Bool.false_eq_true, false_iff, not_exists]
    rintro k ⟨hk, hk2, _⟩
    omega
  · simp only [if_neg hlen]
    by_cases hle : cpat ≤ (getStop SL (idx + 1)).estimated_arrival_time
    · simp only [if_pos hle, Bool.false_eq_true, false_iff, not_exists]
      rintro k ⟨hk, hk2, hv⟩
      have hd : cpat - (getStop SL (idx + 1)).estimated_arrival_time ≤ 0 := by linarith
      have hmlt : k - (idx + 1) < (SL.drop (idx + 1)).length := by
        rw [List.length_drop]; omega
      refine novio_of_nonpos _ hdropwin hd (k - (idx + 1)) hmlt ?_
      rw [getD_drop_add]
      have h3 : idx + 1 + (k - (idx + 1)) = k := by omega
      rw [h3]
      exact hv
    · simp only [if_neg hle]
      rw [violationLoop_iff _ hdropwin _]
      constructor
      · rintro ⟨m, hm, hv⟩
        refine ⟨idx + 1 + m, ?_, by omega, ?_⟩
        · rw [List.length_drop] at hm; omega
        · have h3 : idx + 1 + m - (idx + 1) = m := by omega
          rw [h3]
          unfold getStop
          rw [← getD_drop_add]
          exact hv
      · rintro ⟨k, hk, hk2, hv⟩
        refine ⟨k - (idx + 1), ?_, ?_⟩
        · rw [List.length_drop]; omega
        · rw [getD_drop_add]
          have h3 : idx + 1 + (k - (idx + 1)) = k := by omega
          rw [h3]
          exact hv

theorem chain_getStop {Loc : Type} [Inhabited Loc] (τ : Loc → Loc → ℚ)
    (SL : List (Stop Loc)) (h : driveFirstChain τ SL) (k : ℕ) (hk : k + 1 < SL.length) :
    (getStop SL (k + 1)).estimated_arrival_time =
      (getStop SL k).estimated_departure_time +
        τ (getStop SL k).location (getStop SL (k + 1)).location := by
  have h2 := List.chain'_iff_get.1 h k (by omega)
  unfold getStop Stop.estimated_departure_time
  rw [List.getD_eq_getElem _ _ (by omega : k < SL.length),
    List.getD_eq_getElem _ _ (by omega : k + 1 < SL.length)]
  simpa [List.get_eq_getElem] using h2

theorem deltaAt_zero {Loc : Type} (L : List (Stop Loc)) (d : ℚ) : deltaAt L d 0 = d := by
  cases L <;> rfl

theorem specArr_base {Loc : Type} [Inhabited Loc] (τ : Loc → Loc → ℚ)
    (R : TransportationRequest Loc) (SL : List (Stop Loc)) (i : ℕ)
    (hi1 : i + 1 < SL.length) :
    (getStop SL (i + 1)).estimated_arrival_time + specDelta τ R SL i (i + 1) =
      max (specCPATpu τ R SL i) R.pickup_timewindow_min + τ R.origin (getStop SL (i + 1)).location := by
  unfold specDelta
  have h0 : i + 1 - (i + 1) = 0 := by omega
  rw [h0, deltaAt_zero]
  unfold specPickupDelta time_to_stop_after_insertion
  rw [if_pos hi1, if_pos hi1]
  ring

theorem specArr_succ {Loc : Type} [Inhabited Loc] (τ : Loc → Loc → ℚ)
    (R : TransportationRequest Loc) (SL : List (Stop Loc))
    (hchain : driveFirstChain τ SL) (i j : ℕ) (hij : i + 1 ≤ j)
    (hj1 : j + 1 < SL.length) :
    (getStop SL (j + 1)).estimated_arrival_time + specDelta τ R SL i (j + 1) =
      max ((getStop SL j).estimated_arrival_time + specDelta τ R SL i j)
        (getStop SL j).time_window_min +
        τ (getStop SL j).location (getStop SL (j + 1)).location := by
  have hstep : specDelta τ R SL i (j + 1) =
      deltaStep (getStop SL j) (specDelta τ R SL i j) := by
    unfold specDelta
    have h1 : j + 1 - (i + 1) = (j - (i + 1)) + 1 := by omega
    rw [h1, deltaAt_succ _ _ _ (by rw [List.length_drop]; omega)]
    congr 1
    unfold getStop
    rw [getD_drop_add]
    congr 1
    omega
  rw [hstep]
  unfold deltaStep
  rw [chain_getStop τ SL hchain j hj1]
  ring

theorem specCPATdo_succ {Loc : Type} [Inhabited Loc] (τ : Loc → Loc → ℚ)
    (R : TransportationRequest Loc) (SL : List (Stop Loc))
    (htri : ∀ a b c, τ a c ≤ τ a b + τ b c)
    (hchain : driveFirstChain τ SL) (i j : ℕ) (hij : i ≤ j)
    (hj1 : j + 1 < SL.length) :
    specCPATdo τ R SL i j ≤ specCPATdo τ R SL i (j + 1) := by
  have hne : ¬ (j + 1 = i) := by omega
  rcases Nat.eq_or_lt_of_le hij with heq | hlt
  · subst heq
    unfold specCPATdo
    rw [if_pos rfl, if_neg hne]
    have h1 := le_max_left
      ((getStop SL (i + 1)).estimated_arrival_time + specDelta τ R SL i (i + 1))
      (getStop SL (i + 1)).time_window_min
    have hX := specArr_base τ R SL i hj1
    have h2 := htri R.origin (getStop SL (i + 1)).location R.destination
    have h3 : max (specCPATpu τ R SL i) R.pickup_timewindow_min =
        max R.pickup_timewindow_min (specCPATpu τ R SL i) := max_comm _ _
    linarith
  · have hne2 : ¬ (j = i) := by omega
    unfold specCPATdo
    rw [if_neg hne2, if_neg hne]
    have h1 := le_max_left
      ((getStop SL (j + 1)).estimated_arrival_time + specDelta τ R SL i (j + 1))
      (getStop SL (j + 1)).time_window_min
    have hX := specArr_succ τ R SL hchain i j hlt hj1
    have h2 := htri (getStop SL j).location (getStop SL (j + 1)).location R.destination
    linarith

theorem specCPATdo_mono {Loc : Type} [Inhabited Loc] (τ : Loc → Loc → ℚ)
    (R : TransportationRequest Loc) (SL : List (Stop Loc))
    (htri : ∀ a b c, τ a c ≤ τ a b + τ b c)
    (hchain : driveFirstChain τ SL) (i j j2 : ℕ) (hij : i ≤ j) (hjj : j ≤ j2)
    (hj2 : j2 < SL.length) :
    specCPATdo τ R SL i j ≤ specCPATdo τ R SL i j2 := by
  induction j2, hjj using Nat.le_induction with
  | base => exact le_refl _
  | succ m hm ih =>
    have h1 := ih (by omega)
    have h2 := specCPATdo_succ τ R SL htri hchain i m (by omega) hj2
    linarith

theorem specDropDelta_ge {Loc : Type} [Inhabited Loc] (τ : Loc → Loc → ℚ)
    (R : TransportationRequest Loc) (SL : List (Stop Loc))
    (htri : ∀ a b c, τ a c ≤ τ a b + τ b c)
    (hchain : driveFirstChain τ SL) (i j : ℕ) (hij : i ≤ j)
    (hj1 : j + 1 < SL.length) :
    specDelta τ R SL i (j + 1) ≤ specDropDelta τ R SL i j := by
  unfold specDropDelta specDropArr time_to_stop_after_insertion
  rw [if_pos hj1]
  have h0 := le_max_left (specCPATdo τ R SL i j) R.delivery_timewindow_min
  rcases Nat.eq_or_lt_of_le hij with heq | hlt
  · subst heq
    have h1 : specCPATdo τ R SL i i =
        max R.pickup_timewindow_min (specCPATpu τ R SL i) + τ R.origin R.destination := by
      unfold specCPATdo
      rw [if_pos rfl]
    have h2 := htri R.origin R.destination (getStop SL (i + 1)).location
    have h3 := specArr_base τ R SL i hj1
    have h4 : max (specCPATpu τ R SL i) R.pickup_timewindow_min =
        max R.pickup_timewindow_min (specCPATpu τ R SL i) := max_comm _ _
    linarith
  · have hne2 : ¬ (j = i) := by omega
    have h1 : specCPATdo τ R SL i j =
        max ((getStop SL j).estimated_arrival_time + specDelta τ R SL i j)
          (getStop SL j).time_window_min + τ (getStop SL j).location R.destination := by
      unfold specCPATdo
      rw [if_neg hne2]
    have h2 := htri (getStop SL j).location R.destination (getStop SL (j + 1)).location
    have h3 := specArr_succ τ R SL hchain i j hlt hj1
    linarith

theorem rowFrom_nil (n i j : ℕ) (h : ¬ j < n) : rowFrom n i j = [] := by
  rw [rowFrom]
  simp [h]

theorem rowFrom_cons (n i j : ℕ) (h : j < n) :
    rowFrom n i j = (i, j) :: rowFrom n i (j + 1) := by
  rw [rowFrom]
  simp [h]

theorem pairsFrom_nil (n i : ℕ) (h : ¬ i < n) : pairsFrom n i = [] := by
  rw [pairsFrom]
  simp [h]

theorem pairsFrom_cons (n i : ℕ) (h : i < n) :
    pairsFrom n i = rowFrom n i i ++ pairsFrom n (i + 1) := by
  rw [pairsFrom]
  simp [h]

theorem mem_rowFrom (n i : ℕ) :
    ∀ (fuel j : ℕ), n - j ≤ fuel → ∀ p : ℕ × ℕ,
      (p ∈ rowFrom n i j ↔ p.1 = i ∧ j ≤ p.2 ∧ p.2 < n) := by
  intro fuel
  induction fuel with
  | zero =>
    intro j hf p
    rw [rowFrom_nil n i j (by omega)]
    simp only [List.not_mem_nil, false_iff]
    rintro ⟨_, h1, h2⟩
    omega
  | succ fuel ih =>
    intro j hf p
    by_cases hj : j < n
    · rw [rowFrom_cons n i j hj]
      simp only [List.mem_cons, ih (j + 1) (by omega) p]
      rcases p with ⟨a, b⟩
      simp only [Prod.mk.injEq]
      constructor
      · rintro (⟨h1, h2⟩ | ⟨h1, h2, h3⟩) <;> subst h1 <;>
          first
          | (subst h2; exact ⟨rfl, le_refl _, hj⟩)
          | exact ⟨rfl, by omega, h3⟩
      · rintro ⟨h1, h2, h3⟩
        subst h1
        by_cases hb : b = j
        · exact Or.inl ⟨rfl, hb⟩
        · exact Or.inr ⟨rfl, by omega, h3⟩
    · rw [rowFrom_nil n i j hj]
      simp only [List.not_mem_nil, false_iff]
      rintro ⟨_, h1, h2⟩
      omega

theorem mem_pairsFrom (n : ℕ) :
    ∀ (fuel i : ℕ), n - i ≤ fuel → ∀ p : ℕ × ℕ,
      (p ∈ pairsFrom n i ↔ i ≤ p.1 ∧ p.1 ≤ p.2 ∧ p.2 < n) := by
  intro fuel
  induction fuel with
  | zero =>
    intro i hf p
    rw [pairsFrom_nil n i (by omega)]
    simp only [List.not_mem_nil, false_iff]
    rintro ⟨h1, h2, h3⟩
    omega
  | succ fuel ih =>
    intro i hf p
    by_cases hi : i < n
    · rw [pairsFrom_cons n i hi]
      simp only [List.mem_append, mem_rowFrom n i (n - i) i (le_refl _) p,
        ih (i + 1) (by omega) p]
      constructor
      · rintro (⟨h1, h2, h3⟩ | ⟨h1, h2, h3⟩)
        · exact ⟨by omega, by omega, h3⟩
        · exact ⟨by omega, h2, h3⟩
      · rintro ⟨h1, h2, h3⟩
        by_cases hp : p.1 = i
        · exact Or.inl ⟨hp, by omega, h3⟩
        · exact Or.inr ⟨by omega, h2, h3⟩
    · rw [pairsFrom_nil n i hi]
      simp only [List.not_mem_nil, false_iff]
      rintro ⟨h1, h2, h3⟩
      omega

theorem pairwise_rowFrom (n i : ℕ) :
    ∀ (fuel j : ℕ), n - j ≤ fuel → List.Pairwise pairLt (rowFrom n i j) := by
  intro fuel
  induction fuel with
  | zero =>
    intro j hf
    rw [rowFrom_nil n i j (by omega)]
    exact List.Pairwise.nil
  | succ fuel ih =>
    intro j hf
    by_cases hj : j < n
    · rw [rowFrom_cons n i j hj]
      refine List.Pairwise.cons ?_ (ih (j + 1) (by omega))
      intro q hq
      have := (mem_rowFrom n i (n - (j + 1)) (j + 1) (le_refl _) q).1 hq
      exact Or.inr ⟨this.1.symm, by omega⟩
    · rw [rowFrom_nil n i j hj]
      exact List.Pairwise.nil

theorem pairwise_pairsFrom (n : ℕ) :
    ∀ (fuel i : ℕ), n - i ≤ fuel → List.Pairwise pairLt (pairsFrom n i) := by
  intro fuel
  induction fuel with
  | zero =>
    intro i hf
    rw [pairsFrom_nil n i (by omega)]
    exact List.Pairwise.nil
  | succ fuel ih =>
    intro i hf
    by_cases hi : i < n
    · rw [pairsFrom_cons n i hi]
      rw [List.pairwise_append]
      refine ⟨pairwise_rowFrom n i (n - i) i (le_refl _), ih (i + 1) (by omega), ?_⟩
      intro p hp q hq
      have h1 := (mem_rowFrom n i (n - i) i (le_refl _) p).1 hp
      have h2 := (mem_pairsFrom n (n - (i + 1)) (i + 1) (le_refl _) q).1 hq
      exact Or.inl (by omega)
    · rw [pairsFrom_nil n i hi]
      exact List.Pairwise.nil

theorem pairLt_asymm {p q : ℕ × ℕ} (h : pairLt p q) : ¬ pairLt q p := by
  rcases p with ⟨a, b⟩
  rcases q with ⟨c, d⟩
  simp only [pairLt] at *
  omega

section SpecFold

variable {Loc : Type} [Inhabited Loc] (τ : Loc → Loc → ℚ) (R : TransportationRequest Loc)
  (SL : List (Stop Loc)) (cap : ℤ)

theorem specFold_id :
    ∀ (ps : List (ℕ × ℕ)) (st : BFState),
      (∀ p ∈ ps, ¬ specFeasible τ R SL cap p.1 p.2) →
      ps.foldl (specStep τ R SL cap) st = st := by
  intro ps
  induction ps with
  | nil => intro st _; rfl
  | cons q rest ih =>
    intro st h
    rw [List.foldl_cons]
    have hq : specStep τ R SL cap st q = st := by
      unfold specStep
      rw [if_neg]
      rintro ⟨hf, _⟩
      exact h q (List.mem_cons_self _ _) hf
    rw [hq]
    exact ih st (fun p hp => h p (List.mem_cons_of_mem _ hp))

theorem specStep_min_le (st : BFState) (q : ℕ × ℕ) :
    (specStep τ R SL cap st q).min_cost.toW ≤ st.min_cost.toW := by
  unfold specStep
  split
  · rename_i h
    exact le_of_lt ((ETime.qblt_iff _ _).1 h.2)
  · exact le_refl _

theorem specStep_min_le_cost (st : BFState) (q : ℕ × ℕ)
    (hf : specFeasible τ R SL cap q.1 q.2) :
    (specStep τ R SL cap st q).min_cost.toW ≤
      ((specCost τ R SL q.1 q.2 : ℚ) : WithTop ℚ) := by
  unfold specStep
  by_cases h2 : ETime.qblt (specCost τ R SL q.1 q.2) st.min_cost = true
  · rw [if_pos ⟨hf, h2⟩]
    exact le_refl _
  · rw [if_neg (fun hc => h2 hc.2)]
    have h3 : ETime.qblt (specCost τ R SL q.1 q.2) st.min_cost = false := by
      cases h4 : ETime.qblt (specCost τ R SL q.1 q.2) st.min_cost with
      | false => rfl
      | true => exact absurd h4 h2
    exact (ETime.qblt_false_iff _ _).1 h3

theorem specFold_spec :
    ∀ (ps : List (ℕ × ℕ)) (st : BFState),
      ((ps.foldl (specStep τ R SL cap) st = st) ∨
        (∃ k, k < ps.length ∧
          specFeasible τ R SL cap (ps.getD k (0, 0)).1 (ps.getD k (0, 0)).2 ∧
          ps.foldl (specStep τ R SL cap) st =
            ⟨ETime.fin (specCost τ R SL (ps.getD k (0, 0)).1 (ps.getD k (0, 0)).2),
              (ps.getD k (0, 0)).1, (ps.getD k (0, 0)).2⟩ ∧
          ((specCost τ R SL (ps.getD k (0, 0)).1 (ps.getD k (0, 0)).2 : ℚ) : WithTop ℚ) <
            st.min_cost.toW ∧
          ∀ l, l < k →
            specFeasible τ R SL cap (ps.getD l (0, 0)).1 (ps.getD l (0, 0)).2 →
            specCost τ R SL (ps.getD k (0, 0)).1 (ps.getD k (0, 0)).2 <
              specCost τ R SL (ps.getD l (0, 0)).1 (ps.getD l (0, 0)).2)) ∧
      (ps.foldl (specStep τ R SL cap) st).min_cost.toW ≤ st.min_cost.toW ∧
      (∀ p ∈ ps, specFeasible τ R SL cap p.1 p.2 →
        (ps.foldl (specStep τ R SL cap) st).min_cost.toW ≤
          ((specCost τ R SL p.1 p.2 : ℚ) : WithTop ℚ)) := by
  intro ps
  induction ps with
  | nil =>
    intro st
    refine ⟨Or.inl rfl, le_refl _, ?_⟩
    intro p hp
    simp at hp
  | cons q rest ih =>
    intro st
    obtain ⟨hA, hB, hC⟩ := ih (specStep τ R SL cap st q)
    have hstep_le := specStep_min_le τ R SL cap st q
    refine ⟨?_, ?_, ?_⟩
    · by_cases hupd : specFeasible τ R SL cap q.1 q.2 ∧
          ETime.qblt (specCost τ R SL q.1 q.2) st.min_cost = true
      · have hst2 : specStep τ R SL cap st q =
            ⟨ETime.fin (specCost τ R SL q.1 q.2), q.1, q.2⟩ := by
          unfold specStep
          rw [if_pos hupd]
        rcases hA with hA1 | ⟨k, hk, hfeask, heq, hlt, hearlier⟩
        · right
          refine ⟨0, by simp, ?_, ?_, ?_, ?_⟩
          · simpa [List.getD_cons_zero] using hupd.1
          · rw [List.foldl_cons]
            simp only [List.getD_cons_zero]
            rw [hA1, hst2]
          · simpa [List.getD_cons_zero] using (ETime.qblt_iff _ _).1 hupd.2
          · intro l hl
            omega
        · right
          refine ⟨k + 1, by simpa using Nat.succ_lt_succ hk, ?_, ?_, ?_, ?_⟩
          · simpa [List.getD_cons_succ] using hfeask
          · rw [List.foldl_cons]
            simpa [List.getD_cons_succ] using heq
          · have h1 : (specStep τ R SL cap st q).min_cost.toW =
                ((specCost τ R SL q.1 q.2 : ℚ) : WithTop ℚ) := by
              rw [hst2]
              rfl
            rw [h1] at hlt
            have h2 := (ETime.qblt_iff _ _).1 hupd.2
            simp only [List.getD_cons_succ]
            exact lt_trans hlt h2
          · intro l hl
            cases l with
            | zero =>
              intro _
              have h1 : (specStep τ R SL cap st q).min_cost.toW =
                  ((specCost τ R SL q.1 q.2 : ℚ) : WithTop ℚ) := by
                rw [hst2]
                rfl
              rw [h1] at hlt
              simp only [List.getD_cons_succ, List.getD_cons_zero]
              exact_mod_cast hlt
            | succ l =>
              intro hf
              simp only [List.getD_cons_succ]
              exact hearlier l (by omega) (by simpa [List.getD_cons_succ] using hf)
      · have hst2 : specStep τ R SL cap st q = st := by
          unfold specStep
          rw [if_neg hupd]
        rcases hA with hA1 | ⟨k, hk, hfeask, heq, hlt, hearlier⟩
        · left
          rw [List.foldl_cons, hA1, hst2]
        · right
          refine ⟨k + 1, by simpa using Nat.succ_lt_succ hk, ?_, ?_, ?_, ?_⟩
          · simpa [List.getD_cons_succ] using hfeask
          · rw [List.foldl_cons]
            simpa [List.getD_cons_succ] using heq
          · rw [hst2] at hlt
            simpa [List.getD_cons_succ] using hlt
          · intro l hl
            cases l with
            | zero =>
              intro hfq
              have h3 : ETime.qblt (specCost τ R SL q.1 q.2) st.min_cost = false := by
                cases h4 : ETime.qblt (specCost τ R SL q.1 q.2) st.min_cost with
                | false => rfl
                | true => exact absurd ⟨by simpa [List.getD_cons_zero] using hfq, h4⟩ hupd
              have h5 := (ETime.qblt_false_iff _ _).1 h3
              rw [hst2] at hlt
              have h6 := lt_of_lt_of_le hlt h5
              simp only [List.getD_cons_succ, List.getD_cons_zero]
              exact_mod_cast h6
            | succ l =>
              intro hf
              simp only [List.getD_cons_succ]
              exact hearlier l (by omega) (by simpa [List.getD_cons_succ] using hf)
    · rw [List.foldl_cons]
      exact le_trans hB hstep_le
    · intro p hp hf
      rw [List.foldl_cons]
      rcases List.mem_cons.1 hp with hpq | hprest
      · subst hpq
        exact le_trans hB (specStep_min_le_cost τ R SL cap st p hf)
      · exact hC p hprest hf

end SpecFold

theorem specPickupDelta_eq {Loc : Type} [Inhabited Loc] (τ : Loc → Loc → ℚ)
    (R : TransportationRequest Loc) (SL : List (Stop Loc)) (i : ℕ)
    (hi1 : i + 1 < SL.length) :
    specPickupDelta τ R SL i =
      specPickupArr τ R SL i - (getStop SL (i + 1)).estimated_arrival_time := by
  unfold specPickupDelta specPickupArr
  rw [if_pos hi1]

theorem specDelta_succ {Loc : Type} [Inhabited Loc] (τ : Loc → Loc → ℚ)
    (R : TransportationRequest Loc) (SL : List (Stop Loc)) (i j : ℕ)
    (hij : i + 1 ≤ j) (hj : j < SL.length) :
    specDelta τ R SL i (j + 1) = deltaStep (getStop SL j) (specDelta τ R SL i j) := by
  unfold specDelta
  have h1 : j + 1 - (i + 1) = (j - (i + 1)) + 1 := by omega
  rw [h1, deltaAt_succ _ _ _ (by rw [List.length_drop]; omega)]
  congr 1
  unfold getStop
  rw [getD_drop_add]
  congr 1
  omega

theorem specDelta_decomp {Loc : Type} [Inhabited Loc] (τ : Loc → Loc → ℚ)
    (R : TransportationRequest Loc) (SL : List (Stop Loc)) (i j k : ℕ)
    (hij : i ≤ j) (hjk : j + 1 ≤ k) :
    specDelta τ R SL i k =
      deltaAt (SL.drop (j + 1)) (specDelta τ R SL i (j + 1)) (k - (j + 1)) := by
  unfold specDelta
  have h1 : k - (i + 1) = (j - i) + (k - (j + 1)) := by omega
  rw [h1, deltaAt_add]
  congr 1
  · rw [List.drop_drop]
    congr 1
    omega
  · congr 1
    omega

theorem qbgt_mono {q q2 : ℚ} (e : ETime) (h : q ≤ q2) (hq : ETime.qbgt q e = true) :
    ETime.qbgt q2 e = true := by
  cases e with
  | fin b =>
    simp only [ETime.qbgt, decide_eq_true_eq] at *
    linarith
  | inf => exact hq

theorem feasible_imm_iff {Loc : Type} [Inhabited Loc] (τ : Loc → Loc → ℚ)
    (R : TransportationRequest Loc) (SL : List (Stop Loc)) (cap : ℤ)
    (hwin : ∀ s ∈ SL, ETime.finLe s.estimated_arrival_time s.time_window_max)
    (i : ℕ) (hin : i < SL.length)
    (hocc : (getStop SL i).occupancy_after_servicing ≠ cap)
    (hpu : ETime.finLe (specCPATpu τ R SL i) R.pickup_timewindow_max)
    (hdo : ETime.finLe (specCPATdo τ R SL i i) R.delivery_timewindow_max) :
    specFeasible τ R SL cap i i ↔
      is_timewindow_violated_dueto_insertion SL i (specDropArr τ R SL i i) = false := by
  constructor
  · intro hf
    cases hviol : is_timewindow_violated_dueto_insertion SL i (specDropArr τ R SL i i) with
    | false => rfl
    | true =>
      obtain ⟨k, hk, hk2, hv⟩ := (violated_iff SL hwin i _).1 hviol
      have hclause := hf.2.2.2.2.2.2 k hk (by omega)
      rw [(ETime.qbgt_eq_true_iff _ _)] at hv
      exact absurd (by
        have hbase : specDropArr τ R SL i i - (getStop SL (i + 1)).estimated_arrival_time =
            specDropDelta τ R SL i i := rfl
        rw [hbase] at hv
        exact hclause) hv
  · intro hnv
    refine ⟨le_refl _, hin, ?_, hpu, hdo, ?_, ?_⟩
    · intro k hk h1 h2
      have : k = i := by omega
      subst this
      exact hocc
    · intro k hk h1 h2
      omega
    · intro k hk h1
      have hnv2 := (violated_iff SL hwin i (specDropArr τ R SL i i)).not.1 (by simp [hnv])
      rw [not_exists] at hnv2
      have h3 := hnv2 k
      rw [not_and, not_and] at h3
      have h4 := h3 hk (by omega)
      cases h5 : ETime.qbgt ((getStop SL k).estimated_arrival_time +
          deltaAt (SL.drop (i + 1))
            (specDropArr τ R SL i i - (getStop SL (i + 1)).estimated_arrival_time)
            (k - (i + 1)))
          (getStop SL k).time_window_max with
      | true => exact absurd h5 h4
      | false =>
        rw [ETime.qbgt_eq_false_iff] at h5
        exact h5

theorem feasible_gen_iff {Loc : Type} [Inhabited Loc] (τ : Loc → Loc → ℚ)
    (R : TransportationRequest Loc) (SL : List (Stop Loc)) (cap : ℤ)
    (hwin : ∀ s ∈ SL, ETime.finLe s.estimated_arrival_time s.time_window_max)
    (i j : ℕ) (hij : i < j) (hjn : j < SL.length)
    (hcap : ∀ k, k < SL.length → i ≤ k → k < j →
      (getStop SL k).occupancy_after_servicing ≠ cap)
    (hoccj : (getStop SL j).occupancy_after_servicing ≠ cap)
    (hpu : ETime.finLe (specCPATpu τ R SL i) R.pickup_timewindow_max)
    (hpick : is_timewindow_violated_dueto_insertion SL i (specPickupArr τ R SL i) = false)
    (hdo : ETime.finLe (specCPATdo τ R SL i j) R.delivery_timewindow_max) :
    specFeasible τ R SL cap i j ↔
      is_timewindow_violated_dueto_insertion SL j (specDropArr τ R SL i j) = false := by
  constructor
  · intro hf
    cases hviol : is_timewindow_violated_dueto_insertion SL j (specDropArr τ R SL i j) with
    | false => rfl
    | true =>
      obtain ⟨k, hk, hk2, hv⟩ := (violated_iff SL hwin j _).1 hviol
      have hclause := hf.2.2.2.2.2.2 k hk (by omega)
      rw [(ETime.qbgt_eq_true_iff _ _)] at hv
      exact absurd (by
        have hbase : specDropArr τ R SL i j - (getStop SL (j + 1)).estimated_arrival_time =
            specDropDelta τ R SL i j := rfl
        rw [hbase] at hv
        exact hclause) hv
  · intro hnv
    have hi1 : i + 1 < SL.length := by omega
    refine ⟨by omega, hjn, ?_, hpu, hdo, ?_, ?_⟩
    · intro k hk h1 h2
      rcases Nat.lt_or_ge k j with hkj | hkj
      · exact hcap k hk h1 hkj
      · have : k = j := by omega
        subst this
        exact hoccj
    · intro k hk h1 h2
      have hp2 := (violated_iff SL hwin i (specPickupArr τ R SL i)).not.1 (by simp [hpick])
      rw [not_exists] at hp2
      have h3 := hp2 k
      rw [not_and, not_and] at h3
      have h4 := h3 hk (by omega)
      cases h5 : ETime.qbgt ((getStop SL k).estimated_arrival_time +
          deltaAt (SL.drop (i + 1))
            (specPickupArr τ R SL i - (getStop SL (i + 1)).estimated_arrival_time)
            (k - (i + 1)))
          (getStop SL k).time_window_max with
      | true => exact absurd h5 h4
      | false =>
        rw [← specPickupDelta_eq τ R SL i hi1] at h5
        rw [ETime.qbgt_eq_false_iff] at h5
        exact h5
    · intro k hk h1
      have hnv2 := (violated_iff SL hwin j (specDropArr τ R SL i j)).not.1 (by simp [hnv])
      rw [not_exists] at hnv2
      have h3 := hnv2 k
      rw [not_and, not_and] at h3
      have h4 := h3 hk (by omega)
      cases h5 : ETime.qbgt ((getStop SL k).estimated_arrival_time +
          deltaAt (SL.drop (j + 1))
            (specDropArr τ R SL i j - (getStop SL (j + 1)).estimated_arrival_time)
            (k - (j + 1)))
          (getStop SL k).time_window_max with
      | true => exact absurd h5 h4
      | false =>
        rw [ETime.qbgt_eq_false_iff] at h5
        exact h5

section C1Infeasible

variable {Loc : Type} [Inhabited Loc] (τ : Loc → Loc → ℚ) (R : TransportationRequest Loc)
  (SL : List (Stop Loc)) (cap : ℤ)

theorem not_feasible_of_occ_head (i j : ℕ) (hij : i ≤ j)
    (ho : (getStop SL i).occupancy_after_servicing = cap) :
    ¬ specFeasible τ R SL cap i j := by
  intro hf
  exact hf.2.2.1 i (lt_of_le_of_lt hij hf.2.1) (le_refl _) hij ho

theorem not_feasible_of_pu (i j : ℕ)
    (hpu : ETime.qbgt (specCPATpu τ R SL i) R.pickup_timewindow_max = true) :
    ¬ specFeasible τ R SL cap i j := by
  intro hf
  exact absurd hf.2.2.2.1 ((ETime.qbgt_eq_true_iff _ _).1 hpu)

theorem not_feasible_of_do_break
    (htri : ∀ a b c, τ a c ≤ τ a b + τ b c) (hchain : driveFirstChain τ SL)
    (i j j2 : ℕ) (hij : i ≤ j) (hjj2 : j ≤ j2)
    (hdo : ETime.qbgt (specCPATdo τ R SL i j) R.delivery_timewindow_max = true) :
    ¬ specFeasible τ R SL cap i j2 := by
  intro hf
  have hmono := specCPATdo_mono τ R SL htri hchain i j j2 hij hjj2 hf.2.1
  exact absurd (finLe_of_le hmono hf.2.2.2.2.1) ((ETime.qbgt_eq_true_iff _ _).1 hdo)

theorem not_feasible_of_cap_break (i j j2 : ℕ) (hij : i ≤ j) (hjj2 : j ≤ j2)
    (hjn : j < SL.length)
    (ho : (getStop SL j).occupancy_after_servicing = cap) :
    ¬ specFeasible τ R SL cap i j2 := by
  intro hf
  exact hf.2.2.1 j hjn hij hjj2 ho

theorem not_feasible_of_pick_violated
    (hwin : ∀ s ∈ SL, ETime.finLe s.estimated_arrival_time s.time_window_max)
    (htri : ∀ a b c, τ a c ≤ τ a b + τ b c) (hchain : driveFirstChain τ SL)
    (i j : ℕ) (hij : i + 1 ≤ j)
    (hviol : is_timewindow_violated_dueto_insertion SL i (specPickupArr τ R SL i) = true) :
    ¬ specFeasible τ R SL cap i j := by
  intro hf
  obtain ⟨k, hk, hk2, hv⟩ := (violated_iff SL hwin i _).1 hviol
  have hi1 : i + 1 < SL.length := by omega
  rw [← specPickupDelta_eq τ R SL i hi1] at hv
  have hv2 : ETime.qbgt ((getStop SL k).estimated_arrival_time + specDelta τ R SL i k)
      (getStop SL k).time_window_max = true := hv
  by_cases hkj : k ≤ j
  · have hclause := hf.2.2.2.2.2.1 k hk (by omega) hkj
    exact absurd hclause ((ETime.qbgt_eq_true_iff _ _).1 hv2)
  · have hjn : j < SL.length := hf.2.1
    have hj1 : j + 1 < SL.length := by omega
    have hdom := specDropDelta_ge τ R SL htri hchain i j (by omega) hj1
    have hdec := specDelta_decomp τ R SL i j k (by omega) (by omega)
    rw [hdec] at hv2
    have hmono := deltaAt_mono (k - (j + 1)) (SL.drop (j + 1)) hdom
    have hv3 := qbgt_mono ((getStop SL k).time_window_max)
      (by linarith : (getStop SL k).estimated_arrival_time +
          deltaAt (SL.drop (j + 1)) (specDelta τ R SL i (j + 1)) (k - (j + 1)) ≤
        (getStop SL k).estimated_arrival_time +
          deltaAt (SL.drop (j + 1)) (specDropDelta τ R SL i j) (k - (j + 1))) hv2
    have hclause := hf.2.2.2.2.2.2 k hk (by omega)
    exact absurd hclause ((ETime.qbgt_eq_true_iff _ _).1 hv3)

end C1Infeasible

theorem innerLoop_eq_fold {Loc : Type} [Inhabited Loc] (τ : Loc → Loc → ℚ)
    (R : TransportationRequest Loc) (SL : List (Stop Loc)) (cap : ℤ)
    (hwin : ∀ s ∈ SL, ETime.finLe s.estimated_arrival_time s.time_window_max)
    (htri : ∀ a b c, τ a c ≤ τ a b + τ b c) (hchain : driveFirstChain τ SL)
    (i : ℕ)
    (hpu : ETime.finLe (specCPATpu τ R SL i) R.pickup_timewindow_max)
    (hpick : is_timewindow_violated_dueto_insertion SL i (specPickupArr τ R SL i) = false) :
    ∀ (fuel j : ℕ), SL.length - j ≤ fuel → i + 1 ≤ j →
      (∀ k, k < SL.length → i ≤ k → k < j →
        (getStop SL k).occupancy_after_servicing ≠ cap) →
      ∀ st : BFState,
        innerLoop τ R SL cap i
          (τ (getStop SL i).location R.origin +
            time_to_stop_after_insertion τ SL R.origin i -
            time_from_current_stop_to_next τ SL i)
          j (specDelta τ R SL i j) st =
        (rowFrom SL.length i j).foldl (specStep τ R SL cap) st := by
  intro fuel
  induction fuel with
  | zero =>
    intro j hf hij hcap st
    rw [innerLoop_stop _ _ _ _ _ _ _ _ _ (by omega), rowFrom_nil _ _ _ (by omega)]
    rfl
  | succ fuel ih =>
    intro j hf hij hcap st
    by_cases hj : j < SL.length
    · have hne : ¬ (j = i) := by omega
      have hcd : specCPATdo τ R SL i j =
          cpat_of_inserted_stop (getStop SL j) (τ (getStop SL j).location R.destination)
            (specDelta τ R SL i j) := by
        unfold specCPATdo cpat_of_inserted_stop
        rw [if_neg hne]
      rw [innerLoop, dif_pos hj]
      by_cases ho : (getStop SL j).occupancy_after_servicing = cap
      · rw [if_pos ho, eq_comm]
        apply specFold_id
        rintro ⟨a, b⟩ hp
        obtain ⟨h1, h2, h3⟩ := (mem_rowFrom SL.length i (SL.length - j) j (le_refl _) _).1 hp
        subst h1
        exact not_feasible_of_cap_break τ R SL cap a j b (by omega) h2 hj ho
      · rw [if_neg ho]
        by_cases hdo : ETime.qbgt (cpat_of_inserted_stop (getStop SL j)
            (τ (getStop SL j).location R.destination) (specDelta τ R SL i j))
            R.delivery_timewindow_max = true
        · rw [if_pos hdo, eq_comm]
          have hdo2 : ETime.qbgt (specCPATdo τ R SL i j) R.delivery_timewindow_max = true := by
            rw [hcd]
            exact hdo
          apply specFold_id
          rintro ⟨a, b⟩ hp
          obtain ⟨h1, h2, h3⟩ :=
            (mem_rowFrom SL.length i (SL.length - j) j (le_refl _) _).1 hp
          subst h1
          exact not_feasible_of_do_break τ R SL cap htri hchain a j b (by omega) h2 hdo2
        · rw [if_neg hdo]
          unfold_let
          have hdo3 : ETime.finLe (specCPATdo τ R SL i j) R.delivery_timewindow_max := by
            have hdof : ETime.qbgt (cpat_of_inserted_stop (getStop SL j)
                (τ (getStop SL j).location R.destination) (specDelta τ R SL i j))
                R.delivery_timewindow_max = false := by
              cases h4 : ETime.qbgt (cpat_of_inserted_stop (getStop SL j)
                  (τ (getStop SL j).location R.destination) (specDelta τ R SL i j))
                  R.delivery_timewindow_max with
              | false => rfl
              | true => exact absurd h4 hdo
            rw [ETime.qbgt_eq_false_iff] at hdof
            rw [hcd]
            exact hdof
          have hcost : specCost τ R SL i j =
              τ (getStop SL i).location R.origin +
                time_to_stop_after_insertion τ SL R.origin i -
                time_from_current_stop_to_next τ SL i +
              (τ (getStop SL j).location R.destination +
                time_to_stop_after_insertion τ SL R.destination j -
                time_from_current_stop_to_next τ SL j) := by
            unfold specCost
            rw [if_neg hne]
          have hdar : specDropArr τ R SL i j =
              cpat_of_inserted_stop (getStop SL j) (τ (getStop SL j).location R.destination)
                  (specDelta τ R SL i j) ⊔ R.delivery_timewindow_min +
                time_to_stop_after_insertion τ SL R.destination j := by
            unfold specDropArr
            rw [hcd]
          have harg : ((getStop SL j).estimated_arrival_time + specDelta τ R SL i j) ⊔
                (getStop SL j).time_window_min -
                (getStop SL j).estimated_departure_time =
              specDelta τ R SL i (j + 1) := by
            rw [specDelta_succ τ R SL i j hij hj]
            rfl
          rw [← hcost, ← hdar, harg]
          have hiff := feasible_gen_iff τ R SL cap hwin i j (by omega) hj hcap ho hpu hpick hdo3
          have hmain : (if ETime.qblt (specCost τ R SL i j) st.min_cost = true then
                (if is_timewindow_violated_dueto_insertion SL j (specDropArr τ R SL i j) =
                    true then st
                 else ⟨ETime.fin (specCost τ R SL i j), i, j⟩)
              else st) = specStep τ R SL cap st (i, j) := by
            have hspec : specStep τ R SL cap st (i, j) =
                (if specFeasible τ R SL cap i j ∧
                    ETime.qblt (specCost τ R SL i j) st.min_cost = true then
                  ⟨ETime.fin (specCost τ R SL i j), i, j⟩
                 else st) := rfl
            rw [hspec]
            by_cases hql : ETime.qblt (specCost τ R SL i j) st.min_cost = true
            · rw [if_pos hql]
              by_cases hvp : is_timewindow_violated_dueto_insertion SL j
                  (specDropArr τ R SL i j) = true
              · rw [if_pos hvp, if_neg]
                rintro ⟨hfe, _⟩
                rw [hiff] at hfe
                rw [hfe] at hvp
                exact Bool.false_ne_true hvp
              · have hvf : is_timewindow_violated_dueto_insertion SL j
                    (specDropArr τ R SL i j) = false := by
                  cases h4 : is_timewindow_violated_dueto_insertion SL j
                      (specDropArr τ R SL i j) with
                  | false => rfl
                  | true => exact absurd h4 hvp
                rw [if_neg hvp, if_pos ⟨hiff.2 hvf, hql⟩]
            · rw [if_neg hql, if_neg]
              rintro ⟨_, h4⟩
              exact hql h4
          rw [hmain]
          rw [rowFrom_cons _ _ _ hj, List.foldl_cons]
          refine ih (j + 1) (by omega) (by omega) ?_ (specStep τ R SL cap st (i, j))
          intro k hk h1 h2
          rcases Nat.lt_or_ge k j with hkj | hkj
          · exact hcap k hk h1 hkj
          · have : k = j := by omega
            subst this
            exact ho
    · rw [innerLoop_stop _ _ _ _ _ _ _ _ _ hj, rowFrom_nil _ _ _ hj]
      rfl

theorem outerLoop_eq_fold {Loc : Type} [Inhabited Loc] (τ : Loc → Loc → ℚ)
    (R : TransportationRequest Loc) (SL : List (Stop Loc)) (cap : ℤ)
    (hwin : ∀ s ∈ SL, ETime.finLe s.estimated_arrival_time s.time_window_max)
    (htri : ∀ a b c, τ a c ≤ τ a b + τ b c) (hchain : driveFirstChain τ SL) :
    ∀ (fuel i : ℕ), SL.length - i ≤ fuel → ∀ st : BFState,
      outerLoop τ R SL cap i st =
        (pairsFrom SL.length i).foldl (specStep τ R SL cap) st := by
  intro fuel
  induction fuel with
  | zero =>
    intro i hf st
    rw [outerLoop_stop _ _ _ _ _ _ (by omega), pairsFrom_nil _ _ (by omega)]
    rfl
  | succ fuel ih =>
    intro i hf st
    by_cases hi : i < SL.length
    · have hpueq : cpat_of_inserted_stop (getStop SL i)
          (τ (getStop SL i).location R.origin) 0 = specCPATpu τ R SL i := cpat_zero _ _
      have hdoeq : max R.pickup_timewindow_min (specCPATpu τ R SL i) +
          τ R.origin R.destination = specCPATdo τ R SL i i := by
        unfold specCPATdo
        rw [if_pos rfl]
      have hcosteq : τ (getStop SL i).location R.origin + τ R.origin R.destination +
          time_to_stop_after_insertion τ SL R.destination i -
          time_from_current_stop_to_next τ SL i = specCost τ R SL i i := by
        unfold specCost
        rw [if_pos rfl]
      have hdareq : max (specCPATdo τ R SL i i) R.delivery_timewindow_min +
          time_to_stop_after_insertion τ SL R.destination i = specDropArr τ R SL i i := rfl
      have hpickarreq : max (specCPATpu τ R SL i) R.pickup_timewindow_min +
          time_to_stop_after_insertion τ SL R.origin i = specPickupArr τ R SL i := rfl
      have hdeltaeq : (if i + 1 < SL.length then
            specPickupArr τ R SL i - (getStop SL (i + 1)).estimated_arrival_time
          else 0) = specDelta τ R SL i (i + 1) := by
        unfold specDelta
        rw [show i + 1 - (i + 1) = 0 from by omega, deltaAt_zero]
        unfold specPickupDelta specPickupArr
        rfl
      rw [outerLoop, dif_pos hi]
      unfold_let
      rw [hpueq, hdoeq, hcosteq, hdareq, hpickarreq, hdeltaeq]
      rw [pairsFrom_cons _ _ hi, List.foldl_append]
      by_cases ho : (getStop SL i).occupancy_after_servicing = cap
      · rw [if_pos ho]
        have hrow : (rowFrom SL.length i i).foldl (specStep τ R SL cap) st = st := by
          apply specFold_id
          rintro ⟨a, b⟩ hp
          obtain ⟨h1, h2, h3⟩ :=
            (mem_rowFrom SL.length i (SL.length - i) i (le_refl _) _).1 hp
          subst h1
          exact not_feasible_of_occ_head τ R SL cap a b h2 ho
        rw [hrow]
        exact ih (i + 1) (by omega) st
      · rw [if_neg ho]
        by_cases hqpu : ETime.qbgt (specCPATpu τ R SL i) R.pickup_timewindow_max = true
        · rw [if_pos hqpu]
          have hrow : (rowFrom SL.length i i).foldl (specStep τ R SL cap) st = st := by
            apply specFold_id
            rintro ⟨a, b⟩ hp
            obtain ⟨h1, h2, h3⟩ :=
              (mem_rowFrom SL.length i (SL.length - i) i (le_refl _) _).1 hp
            subst h1
            exact not_feasible_of_pu τ R SL cap a b hqpu
          rw [hrow]
          exact ih (i + 1) (by omega) st
        · rw [if_neg hqpu]
          have hpuLe : ETime.finLe (specCPATpu τ R SL i) R.pickup_timewindow_max := by
            have h4 : ETime.qbgt (specCPATpu τ R SL i) R.pickup_timewindow_max = false := by
              cases h5 : ETime.qbgt (specCPATpu τ R SL i) R.pickup_timewindow_max with
              | false => rfl
              | true => exact absurd h5 hqpu
            rw [ETime.qbgt_eq_false_iff] at h4
            exact h4
          by_cases hqdo : ETime.qbgt (specCPATdo τ R SL i i) R.delivery_timewindow_max = true
          · rw [if_pos hqdo]
            have hrow : (rowFrom SL.length i i).foldl (specStep τ R SL cap) st = st := by
              apply specFold_id
              rintro ⟨a, b⟩ hp
              obtain ⟨h1, h2, h3⟩ :=
                (mem_rowFrom SL.length i (SL.length - i) i (le_refl _) _).1 hp
              subst h1
              exact not_feasible_of_do_break τ R SL cap htri hchain a a b (le_refl _) h2 hqdo
            rw [hrow]
            exact ih (i + 1) (by omega) st
          · rw [if_neg hqdo]
            have hdoLe : ETime.finLe (specCPATdo τ R SL i i) R.delivery_timewindow_max := by
              have h4 : ETime.qbgt (specCPATdo τ R SL i i) R.delivery_timewindow_max =
                  false := by
                cases h5 : ETime.qbgt (specCPATdo τ R SL i i) R.delivery_timewindow_max with
                | false => rfl
                | true => exact absurd h5 hqdo
              rw [ETime.qbgt_eq_false_iff] at h4
              exact h4
            have hiffimm := feasible_imm_iff τ R SL cap hwin i hi ho hpuLe hdoLe
            have hmainimm : (if ETime.qblt (specCost τ R SL i i) st.min_cost = true then
                  (if is_timewindow_violated_dueto_insertion SL i (specDropArr τ R SL i i) =
                      true then st
                   else ⟨ETime.fin (specCost τ R SL i i), i, i⟩)
                else st) = specStep τ R SL cap st (i, i) := by
              have hspec : specStep τ R SL cap st (i, i) =
                  (if specFeasible τ R SL cap i i ∧
                      ETime.qblt (specCost τ R SL i i) st.min_cost = true then
                    ⟨ETime.fin (specCost τ R SL i i), i, i⟩
                   else st) := rfl
              rw [hspec]
              by_cases hql : ETime.qblt (specCost τ R SL i i) st.min_cost = true
              · rw [if_pos hql]
                by_cases hvp : is_timewindow_violated_dueto_insertion SL i
                    (specDropArr τ R SL i i) = true
                · rw [if_pos hvp, if_neg]
                  rintro ⟨hfe, _⟩
                  rw [hiffimm] at hfe
                  rw [hfe] at hvp
                  exact Bool.false_ne_true hvp
                · have hvf : is_timewindow_violated_dueto_insertion SL i
                      (specDropArr τ R SL i i) = false := by
                    cases h4 : is_timewindow_violated_dueto_insertion SL i
                        (specDropArr τ R SL i i) with
                    | false => rfl
                    | true => exact absurd h4 hvp
                  rw [if_neg hvp, if_pos ⟨hiffimm.2 hvf, hql⟩]
              · rw [if_neg hql, if_neg]
                rintro ⟨_, h4⟩
                exact hql h4
            rw [hmainimm]
            rw [rowFrom_cons _ _ _ hi, List.foldl_cons]
            by_cases hpick : is_timewindow_violated_dueto_insertion SL i
                (specPickupArr τ R SL i) = true
            · rw [if_pos hpick]
              have hrow : (rowFrom SL.length i (i + 1)).foldl (specStep τ R SL cap)
                  (specStep τ R SL cap st (i, i)) = specStep τ R SL cap st (i, i) := by
                apply specFold_id
                rintro ⟨a, b⟩ hp
                obtain ⟨h1, h2, h3⟩ :=
                  (mem_rowFrom SL.length i (SL.length - (i + 1)) (i + 1) (le_refl _) _).1 hp
                subst h1
                exact not_feasible_of_pick_violated τ R SL cap hwin htri hchain a b h2 hpick
              rw [hrow]
              exact ih (i + 1) (by omega) (specStep τ R SL cap st (i, i))
            · rw [if_neg hpick]
              have hpickf : is_timewindow_violated_dueto_insertion SL i
                  (specPickupArr τ R SL i) = false := by
                cases h4 : is_timewindow_violated_dueto_insertion SL i
                    (specPickupArr τ R SL i) with
                | false => rfl
                | true => exact absurd h4 hpick
              rw [innerLoop_eq_fold τ R SL cap hwin htri hchain i hpuLe hpickf
                (SL.length - (i + 1)) (i + 1) (le_refl _) (le_refl _)
                (by
                  intro k hk h1 h2
                  have : k = i := by omega
                  subst this
                  exact ho)
                (specStep τ R SL cap st (i, i))]
              exact ih (i + 1) (by omega) _
    · rw [outerLoop_stop _ _ _ _ _ _ hi, pairsFrom_nil _ _ hi]
      rfl

theorem pairLt_irrefl (p : ℕ × ℕ) : ¬ pairLt p p := by
  rcases p with ⟨a, b⟩
  simp [pairLt]

theorem bf_min_cost_eq {Loc : Type} [Inhabited Loc] (τ : Loc → Loc → ℚ)
    (R : TransportationRequest Loc) (SL : List (Stop Loc)) (cap : ℤ) :
    (brute_force_total_traveltime_minimizing_dispatcher τ R SL cap).min_cost =
      (outerLoop τ R SL cap 0 ⟨ETime.inf, 0, 0⟩).min_cost := by
  unfold brute_force_total_traveltime_minimizing_dispatcher
  unfold_let
  cases heq : (outerLoop τ R SL cap 0 ⟨ETime.inf, 0, 0⟩).min_cost with
  | fin c => rfl
  | inf => rfl

/-- C1 (amended): on a travel-time function obeying the triangle inequality
and a stoplist satisfying the invariants (drive-first arrival times, every
stop inside its time window), the brute-force dispatcher is exact: if no
pair is feasible the returned cost is `INFINITY`, and if some pair is
feasible the search state holds the lexicographically earliest feasible pair
of minimal total added travel time, whose cost is returned. -/
theorem C1_amended {Loc : Type} [Inhabited Loc] (τ : Loc → Loc → ℚ)
    (R : TransportationRequest Loc) (SL : List (Stop Loc)) (cap : ℤ)
    (htri : ∀ a b c, τ a c ≤ τ a b + τ b c)
    (hchain : driveFirstChain τ SL)
    (hwin : ∀ s ∈ SL, ETime.finLe s.estimated_arrival_time s.time_window_max) :
    ((∀ i j, ¬ specFeasible τ R SL cap i j) →
      (brute_force_total_traveltime_minimizing_dispatcher τ R SL cap).min_cost =
        ETime.inf) ∧
    (∀ i0 j0, specFeasible τ R SL cap i0 j0 →
      ∃ bi bj,
        outerLoop τ R SL cap 0 ⟨ETime.inf, 0, 0⟩ =
          ⟨ETime.fin (specCost τ R SL bi bj), bi, bj⟩ ∧
        (brute_force_total_traveltime_minimizing_dispatcher τ R SL cap).min_cost =
          ETime.fin (specCost τ R SL bi bj) ∧
        specFeasible τ R SL cap bi bj ∧
        (∀ i j, specFeasible τ R SL cap i j →
          specCost τ R SL bi bj ≤ specCost τ R SL i j) ∧
        (∀ i j, specFeasible τ R SL cap i j → pairLt (i, j) (bi, bj) →
          specCost τ R SL bi bj < specCost τ R SL i j)) := by
  have hfold := outerLoop_eq_fold τ R SL cap hwin htri hchain SL.length 0 (by omega)
    ⟨ETime.inf, 0, 0⟩
  obtain ⟨hA, hB, hC⟩ := specFold_spec τ R SL cap (pairsFrom SL.length 0)
    ⟨ETime.inf, 0, 0⟩
  have hbf := bf_min_cost_eq τ R SL cap
  constructor
  · intro hnone
    have hid := specFold_id τ R SL cap (pairsFrom SL.length 0) ⟨ETime.inf, 0, 0⟩
      (fun p _ => hnone p.1 p.2)
    rw [hbf, hfold, hid]
  · intro i0 j0 hfeas
    have hmem : (i0, j0) ∈ pairsFrom SL.length 0 :=
      (mem_pairsFrom SL.length SL.length 0 (by omega) (i0, j0)).2
        ⟨Nat.zero_le _, hfeas.1, hfeas.2.1⟩
    have hle := hC (i0, j0) hmem hfeas
    rcases hA with hA1 | ⟨k, hk, hkfeas, hkeq, hklt, hkearlier⟩
    · exfalso
      rw [hA1] at hle
      simp [ETime.toW, top_le_iff] at hle
    · refine ⟨(( pairsFrom SL.length 0).getD k (0, 0)).1,
        ((pairsFrom SL.length 0).getD k (0, 0)).2, ?_, ?_, hkfeas, ?_, ?_⟩
      · rw [hfold, hkeq]
      · rw [hbf, hfold, hkeq]
      · intro i j hfij
        have hmem2 : (i, j) ∈ pairsFrom SL.length 0 :=
          (mem_pairsFrom SL.length SL.length 0 (by omega) (i, j)).2
            ⟨Nat.zero_le _, hfij.1, hfij.2.1⟩
        have h5 := hC (i, j) hmem2 hfij
        rw [hkeq] at h5
        have h6 : ((specCost τ R SL ((pairsFrom SL.length 0).getD k (0, 0)).1
              ((pairsFrom SL.length 0).getD k (0, 0)).2 : ℚ) : WithTop ℚ) ≤
            ((specCost τ R SL i j : ℚ) : WithTop ℚ) := h5
        exact WithTop.coe_le_coe.1 h6
      · intro i j hfij hplt
        have hmem2 : (i, j) ∈ pairsFrom SL.length 0 :=
          (mem_pairsFrom SL.length SL.length 0 (by omega) (i, j)).2
            ⟨Nat.zero_le _, hfij.1, hfij.2.1⟩
        obtain ⟨l, hl, hleq⟩ := List.getElem_of_mem hmem2
        have hgetl : (pairsFrom SL.length 0).getD l (0, 0) = (i, j) := by
          rw [List.getD_eq_getElem _ _ hl, hleq]
        have hgetk : (pairsFrom SL.length 0).getD k (0, 0) =
            (pairsFrom SL.length 0)[k] := List.getD_eq_getElem _ _ hk
        rcases lt_trichotomy l k with hlk | hlk | hlk
        · have h7 := hkearlier l hlk (by rw [hgetl]; exact hfij)
          rw [hgetl] at h7
          exact h7
        · exfalso
          subst hlk
          rw [hgetl] at hplt
          exact pairLt_irrefl (i, j) hplt
        · exfalso
          have hpw := pairwise_pairsFrom SL.length SL.length 0 (by omega)
          have h8 := List.pairwise_iff_getElem.1 hpw k l hk hl hlk
          rw [hleq] at h8
          have h9 : pairLt (i, j) ((pairsFrom SL.length 0)[k]) := by
            rw [← hgetk]
            exact hplt
          exact pairLt_asymm h9 h8

theorem exC1_outer2 :
    outerLoop exC1Tau exC1Req exC1SL 4 2 ⟨ETime.inf, 0, 0⟩ = ⟨ETime.inf, 0, 0⟩ :=
  outerLoop_stop _ _ _ _ _ _ (by norm_num [exC1SL])

theorem exC1_outer1 :
    outerLoop exC1Tau exC1Req exC1SL 4 1 ⟨ETime.inf, 0, 0⟩ = ⟨ETime.inf, 0, 0⟩ := by
  rw [outerLoop]
  norm_num [getStop, cpat_of_inserted_stop, time_to_stop_after_insertion,
    time_from_current_stop_to_next, is_timewindow_violated_dueto_insertion,
    ETime.qbgt, ETime.qblt, Stop.estimated_departure_time, exC1Tau, exC1Req,
    exC1SL, exC1Cpe, exC1S1]
  exact exC1_outer2

theorem exC1_outer0 :
    outerLoop exC1Tau exC1Req exC1SL 4 0 ⟨ETime.inf, 0, 0⟩ = ⟨ETime.inf, 0, 0⟩ := by
  rw [outerLoop]
  norm_num [getStop, cpat_of_inserted_stop, time_to_stop_after_insertion,
    time_from_current_stop_to_next, is_timewindow_violated_dueto_insertion,
    ETime.qbgt, ETime.qblt, Stop.estimated_departure_time, exC1Tau, exC1Req,
    exC1SL, exC1Cpe, exC1S1]
  exact exC1_outer1

/-- C1, counterexample: on travel times violating the triangle inequality
the dispatcher misses feasible insertions.  The stoplist satisfies the
invariants (drive-first arrivals, every stop inside its window), the pair
`(0, 1)` is feasible with added travel time `2`, yet the dispatcher returns
`INFINITY`: at `i = 0` it prunes the whole pickup row because the immediate
dropoff via the long direct leg `2 → 3` exceeds the delivery window,
although dropping off after stop `1` is cheap and feasible.  The input
satisfies the stoplist invariants of spec §3 (`specStoplistInvariants`:
CPE head, monotone arrivals, the occupancy step rule within capacity, no
unmatched pickup, windows respected) as well as the drive-first arrival
discipline. -/
theorem C1_counterexample :
    driveFirstChain exC1Tau exC1SL ∧
    specStoplistInvariants 4 exC1SL ∧
    (∀ s ∈ exC1SL, ETime.finLe s.estimated_arrival_time s.time_window_max) ∧
    specFeasible exC1Tau exC1Req exC1SL 4 0 1 ∧
    specCost exC1Tau exC1Req exC1SL 0 1 = 2 ∧
    (brute_force_total_traveltime_minimizing_dispatcher exC1Tau exC1Req exC1SL 4).min_cost =
      ETime.inf ∧
    ¬ (exC1Tau 2 3 ≤ exC1Tau 2 1 + exC1Tau 1 3) := by
  refine ⟨?_, ?_, ?_, ?_, ?_, ?_, ?_⟩
  · norm_num [driveFirstChain, exC1SL, exC1Cpe, exC1S1, exC1Tau,
      Stop.estimated_departure_time]
  · refine ⟨by norm_num [exC1SL], by norm_num [getStop, exC1SL, exC1Cpe], ?_, ?_, ?_, ?_, ?_⟩
    · norm_num [exC1SL, exC1Cpe, exC1S1, List.chain'_cons, List.chain'_singleton]
    · norm_num [exC1SL, exC1Cpe, exC1S1, occStep, List.chain'_cons, List.chain'_singleton]
    · intro s hs
      simp only [exC1SL, List.mem_cons, List.not_mem_nil, or_false] at hs
      rcases hs with rfl | rfl <;> norm_num [exC1Cpe, exC1S1]
    · intro k hk hp
      exfalso
      rw [exC1SL] at hk
      simp only [List.length_cons, List.length_nil] at hk
      have hk01 : k = 0 ∨ k = 1 := by omega
      rcases hk01 with rfl | rfl <;> revert hp <;>
        norm_num [getStop, exC1SL, exC1Cpe, exC1S1] <;> decide
    · intro s hs
      simp only [exC1SL, List.drop_succ_cons, List.drop_zero,
        List.mem_singleton] at hs
      subst hs
      exact trivial
  · intro s hs
    simp only [exC1SL, List.mem_cons, List.not_mem_nil, or_false] at hs
    rcases hs with rfl | rfl <;> exact trivial
  · refine ⟨by norm_num, by norm_num [exC1SL], ?_, ?_, ?_, ?_, ?_⟩
    · intro k hk h1 h2
      rw [exC1SL] at hk
      simp only [List.length_cons, List.length_nil] at hk
      interval_cases k <;>
        norm_num [getStop, exC1SL, exC1Cpe, exC1S1]
    · norm_num [specCPATpu, getStop, exC1SL, exC1Cpe, exC1Tau, exC1Req,
        Stop.estimated_departure_time, ETime.finLe]
    · norm_num [specCPATdo, specDelta, specPickupDelta, specCPATpu,
        deltaAt_zero, getStop, exC1SL, exC1Cpe, exC1S1, exC1Tau, exC1Req,
        Stop.estimated_departure_time, time_to_stop_after_insertion, ETime.finLe]
    · intro k hk h1 h2
      have hk1 : k = 1 := by omega
      subst hk1
      norm_num [specDelta, specPickupDelta, specCPATpu, deltaAt_zero, getStop,
        exC1SL, exC1Cpe, exC1S1, exC1Tau, exC1Req, Stop.estimated_departure_time,
        time_to_stop_after_insertion, ETime.finLe]
    · intro k hk h1
      rw [exC1SL] at hk
      simp only [List.length_cons, List.length_nil] at hk
      omega
  · norm_num [specCost, getStop, exC1SL, exC1Cpe, exC1S1, exC1Tau, exC1Req,
      time_to_stop_after_insertion, time_from_current_stop_to_next]
  · rw [bf_min_cost_eq, exC1_outer0]
  · norm_num [exC1Tau]

theorem C1_witness :
    (∀ a b c, exC1WTau a c ≤ exC1WTau a b + exC1WTau b c) ∧
    driveFirstChain exC1WTau [exC1S0] ∧
    (∀ s ∈ [exC1S0], ETime.finLe s.estimated_arrival_time s.time_window_max) ∧
    specFeasible exC1WTau exC1WReq [exC1S0] 4 0 0 ∧
    (∃ bi bj,
      outerLoop exC1WTau exC1WReq [exC1S0] 4 0 ⟨ETime.inf, 0, 0⟩ =
        ⟨ETime.fin (specCost exC1WTau exC1WReq [exC1S0] bi bj), bi, bj⟩ ∧
      (brute_force_total_traveltime_minimizing_dispatcher exC1WTau exC1WReq
          [exC1S0] 4).min_cost =
        ETime.fin (specCost exC1WTau exC1WReq [exC1S0] bi bj) ∧
      specFeasible exC1WTau exC1WReq [exC1S0] 4 bi bj ∧
      (∀ i j, specFeasible exC1WTau exC1WReq [exC1S0] 4 i j →
        specCost exC1WTau exC1WReq [exC1S0] bi bj ≤
          specCost exC1WTau exC1WReq [exC1S0] i j) ∧
      (∀ i j, specFeasible exC1WTau exC1WReq [exC1S0] 4 i j →
        pairLt (i, j) (bi, bj) →
        specCost exC1WTau exC1WReq [exC1S0] bi bj <
          specCost exC1WTau exC1WReq [exC1S0] i j)) := by
  have htri : ∀ a b c, exC1WTau a c ≤ exC1WTau a b + exC1WTau b c := by
    intro a b c
    by_cases hab : a = b
    · subst hab
      simp [exC1WTau]
    · by_cases hbc : b = c
      · subst hbc
        simp [exC1WTau]
      · simp only [exC1WTau, if_neg hab, if_neg hbc]
        split_ifs <;> norm_num
  have hchain : driveFirstChain exC1WTau [exC1S0] := by
    simp [driveFirstChain]
  have hwin : ∀ s ∈ [exC1S0], ETime.finLe s.estimated_arrival_time s.time_window_max := by
    intro s hs
    simp only [List.mem_singleton] at hs
    subst hs
    exact trivial
  have hfeas : specFeasible exC1WTau exC1WReq [exC1S0] 4 0 0 := by
    refine ⟨le_refl _, by norm_num, ?_, ?_, ?_, ?_, ?_⟩
    · intro k hk h1 h2
      have : k = 0 := by omega
      subst this
      norm_num [getStop, exC1S0]
    · exact trivial
    · exact trivial
    · intro k hk h1 h2
      omega
    · intro k hk h1
      simp only [List.length_singleton] at hk
      omega
  exact ⟨htri, hchain, hwin, hfeas,
    (C1_amended exC1WTau exC1WReq [exC1S0] 4 htri hchain hwin).2 0 0 hfeas⟩

end Ridepy
